import Mathlib

/-!
# CurrencyAsset chaincode: a shallow embedding

The development embeds `CurrencyAsset.go` (a Hyperledger Fabric chaincode that
creates currency assets, lists them in a catalog record and answers balance
queries) and proves properties of its two entry points `Invoke` and `Query`
and of its bootstrap `Init`.

Conventions of the embedding:

* Go `string` and `[]byte` values are sequences of Unicode code points
  (`Bytes`); a nil byte slice is `none`.
* The ledger is a total map from keys to optional values. `GetState` on an
  absent key yields a nil value and no error, and `PutState` writes in place;
  both keep the `(value, error)` shape of the shim so that the error branches
  of the source stay visible here.
* A store may refuse a write. The answers of the store to writes are the
  parameter `Host` of the definitions whose name ends in `On` (`PutStateOn`,
  `InitOn`, `InvokeOn`, ...); the definitions without that ending are the
  same functions on a store that accepts every write.
* `encoding/json` is modelled by a lexer and a parser that are folds over the
  input, followed by a decoder per target struct, and by an encoder per source
  struct.
* `float64` is not modelled: the amount type and its text codec are a
  parameter (`FloatCodec`).
* A Go run-time abort (index out of range) is the outcome `Result.panic`.
-/

namespace Wallet

/-- Go strings and byte slices. -/
abbrev Bytes := List Char

/-! ## encoding/json: lexer -/

/-- JSON tokens. A number keeps its literal text. -/
inductive Token
  | lbrace | rbrace | lbrack | rbrack | comma | colon
  | str (s : Bytes)
  | num (lit : Bytes)
  | tru | fls | nul
  deriving DecidableEq, Repr

/-- Position inside a number literal, following the scanner of encoding/json. -/
inductive NumState
  | minus | zero | int | dot | frac | e | esign | exp
  deriving DecidableEq, Repr

/-- Lexer modes. String accumulators and number literals are kept reversed. -/
inductive LexMode
  | idle
  | inStr (racc : Bytes)
  | esc (racc : Bytes)
  | uni (racc : Bytes) (n v : Nat)
  | hi (racc : Bytes) (h : Nat)
  | hiEsc (racc : Bytes) (h : Nat)
  | hiUni (racc : Bytes) (h n v : Nat)
  | number (st : NumState) (rlit : Bytes)
  | word (rest : Bytes) (t : Token)
  | bad
  deriving DecidableEq, Repr

/-- Lexer state: the tokens produced so far (reversed) and the mode. -/
structure LexState where
  rtoks : List Token
  mode : LexMode
  deriving DecidableEq, Repr

/-- The replacement rune U+FFFD. -/
def replacementChar : Char := Char.ofNat 0xFFFD

def isDigit (c : Char) : Bool := decide (48 ≤ c.toNat ∧ c.toNat ≤ 57)

def isSpace (c : Char) : Bool :=
  decide (c.toNat = 32 ∨ c.toNat = 9 ∨ c.toNat = 13 ∨ c.toNat = 10)

/-- Value of a hexadecimal digit. -/
def hexVal (c : Char) : Option Nat :=
  if 48 ≤ c.toNat ∧ c.toNat ≤ 57 then some (c.toNat - 48)
  else if 97 ≤ c.toNat ∧ c.toNat ≤ 102 then some (c.toNat - 87)
  else if 65 ≤ c.toNat ∧ c.toNat ≤ 70 then some (c.toNat - 55)
  else none

/-- A character met between tokens. -/
def idleStep (rtoks : List Token) (c : Char) : LexState :=
  if isSpace c then ⟨rtoks, .idle⟩
  else if c = '{' then ⟨.lbrace :: rtoks, .idle⟩
  else if c = '}' then ⟨.rbrace :: rtoks, .idle⟩
  else if c = '[' then ⟨.lbrack :: rtoks, .idle⟩
  else if c = ']' then ⟨.rbrack :: rtoks, .idle⟩
  else if c = ',' then ⟨.comma :: rtoks, .idle⟩
  else if c = ':' then ⟨.colon :: rtoks, .idle⟩
  else if c = '"' then ⟨rtoks, .inStr []⟩
  else if c = '-' then ⟨rtoks, .number .minus [c]⟩
  else if c = '0' then ⟨rtoks, .number .zero [c]⟩
  else if isDigit c then ⟨rtoks, .number .int [c]⟩
  else if c = 't' then ⟨rtoks, .word ['r', 'u', 'e'] .tru⟩
  else if c = 'f' then ⟨rtoks, .word ['a', 'l', 's', 'e'] .fls⟩
  else if c = 'n' then ⟨rtoks, .word ['u', 'l', 'l'] .nul⟩
  else ⟨rtoks, .bad⟩

/-- A character inside a string literal, outside any escape. -/
def strStep (rtoks : List Token) (racc : Bytes) (c : Char) : LexState :=
  if c = '"' then ⟨.str racc.reverse :: rtoks, .idle⟩
  else if c = '\\' then ⟨rtoks, .esc racc⟩
  else if c.toNat < 32 then ⟨rtoks, .bad⟩
  else ⟨rtoks, .inStr (c :: racc)⟩

/-- The character that follows a backslash. -/
def escStep (rtoks : List Token) (racc : Bytes) (c : Char) : LexState :=
  if c = '"' ∨ c = '\\' ∨ c = '/' then ⟨rtoks, .inStr (c :: racc)⟩
  else if c = 'b' then ⟨rtoks, .inStr (Char.ofNat 8 :: racc)⟩
  else if c = 'f' then ⟨rtoks, .inStr (Char.ofNat 12 :: racc)⟩
  else if c = 'n' then ⟨rtoks, .inStr (Char.ofNat 10 :: racc)⟩
  else if c = 'r' then ⟨rtoks, .inStr (Char.ofNat 13 :: racc)⟩
  else if c = 't' then ⟨rtoks, .inStr (Char.ofNat 9 :: racc)⟩
  else if c = 'u' then ⟨rtoks, .uni racc 0 0⟩
  else ⟨rtoks, .bad⟩

/-- A completed `\uXXXX` escape of value `v` that does not close a surrogate
pair: a high surrogate waits for its partner, a low surrogate is replaced. -/
def uniDone (rtoks : List Token) (racc : Bytes) (v : Nat) : LexState :=
  if 0xD800 ≤ v ∧ v < 0xDC00 then ⟨rtoks, .hi racc v⟩
  else if 0xDC00 ≤ v ∧ v < 0xE000 then ⟨rtoks, .inStr (replacementChar :: racc)⟩
  else ⟨rtoks, .inStr (Char.ofNat v :: racc)⟩

/-- A character after the end of a number literal is read as between tokens. -/
def numEnd (rtoks : List Token) (rlit : Bytes) (c : Char) : LexState :=
  idleStep (.num rlit.reverse :: rtoks) c

def numStep (rtoks : List Token) (st : NumState) (rlit : Bytes) (c : Char) : LexState :=
  match st with
  | .minus =>
    if c = '0' then ⟨rtoks, .number .zero (c :: rlit)⟩
    else if isDigit c then ⟨rtoks, .number .int (c :: rlit)⟩
    else ⟨rtoks, .bad⟩
  | .zero =>
    if c = '.' then ⟨rtoks, .number .dot (c :: rlit)⟩
    else if c = 'e' ∨ c = 'E' then ⟨rtoks, .number .e (c :: rlit)⟩
    else numEnd rtoks rlit c
  | .int =>
    if isDigit c then ⟨rtoks, .number .int (c :: rlit)⟩
    else if c = '.' then ⟨rtoks, .number .dot (c :: rlit)⟩
    else if c = 'e' ∨ c = 'E' then ⟨rtoks, .number .e (c :: rlit)⟩
    else numEnd rtoks rlit c
  | .dot =>
    if isDigit c then ⟨rtoks, .number .frac (c :: rlit)⟩ else ⟨rtoks, .bad⟩
  | .frac =>
    if isDigit c then ⟨rtoks, .number .frac (c :: rlit)⟩
    else if c = 'e' ∨ c = 'E' then ⟨rtoks, .number .e (c :: rlit)⟩
    else numEnd rtoks rlit c
  | .e =>
    if c = '+' ∨ c = '-' then ⟨rtoks, .number .esign (c :: rlit)⟩
    else if isDigit c then ⟨rtoks, .number .exp (c :: rlit)⟩
    else ⟨rtoks, .bad⟩
  | .esign =>
    if isDigit c then ⟨rtoks, .number .exp (c :: rlit)⟩ else ⟨rtoks, .bad⟩
  | .exp =>
    if isDigit c then ⟨rtoks, .number .exp (c :: rlit)⟩
    else numEnd rtoks rlit c

/-- One character of input. -/
def lexStep (s : LexState) (c : Char) : LexState :=
  match s.mode with
  | .idle => idleStep s.rtoks c
  | .inStr racc => strStep s.rtoks racc c
  | .esc racc => escStep s.rtoks racc c
  | .uni racc n v =>
    match hexVal c with
    | none => ⟨s.rtoks, .bad⟩
    | some d =>
      if n = 3 then uniDone s.rtoks racc (16 * v + d)
      else ⟨s.rtoks, .uni racc (n + 1) (16 * v + d)⟩
  | .hi racc h =>
    if c = '\\' then ⟨s.rtoks, .hiEsc racc h⟩
    else strStep s.rtoks (replacementChar :: racc) c
  | .hiEsc racc h =>
    if c = 'u' then ⟨s.rtoks, .hiUni racc h 0 0⟩
    else escStep s.rtoks (replacementChar :: racc) c
  | .hiUni racc h n v =>
    match hexVal c with
    | none => ⟨s.rtoks, .bad⟩
    | some d =>
      if n = 3 then
        if 0xDC00 ≤ 16 * v + d ∧ 16 * v + d < 0xE000 then
          ⟨s.rtoks, .inStr (Char.ofNat ((h - 0xD800) * 1024 + (16 * v + d - 0xDC00) + 0x10000) :: racc)⟩
        else uniDone s.rtoks (replacementChar :: racc) (16 * v + d)
      else ⟨s.rtoks, .hiUni racc h (n + 1) (16 * v + d)⟩
  | .number st rlit => numStep s.rtoks st rlit c
  | .word rest t =>
    match rest with
    | [] => ⟨s.rtoks, .bad⟩
    | x :: rest1 =>
      if c = x then
        (if rest1 = [] then ⟨t :: s.rtoks, .idle⟩ else ⟨s.rtoks, .word rest1 t⟩)
      else ⟨s.rtoks, .bad⟩
  | .bad => ⟨s.rtoks, .bad⟩

/-- End of input: only between tokens, or at the end of a complete number. -/
def lexEnd (s : LexState) : Option (List Token) :=
  match s.mode with
  | .idle => some s.rtoks.reverse
  | .number st rlit =>
    if st = .zero ∨ st = .int ∨ st = .frac ∨ st = .exp then
      some (Token.num rlit.reverse :: s.rtoks).reverse
    else none
  | _ => none

def lexRun (s : LexState) (cs : Bytes) : LexState := cs.foldl lexStep s

/-- The token sequence of a JSON text, `none` on a lexical error. -/
def lex (cs : Bytes) : Option (List Token) := lexEnd (lexRun ⟨[], .idle⟩ cs)

/-! ## encoding/json: parser -/

/-- JSON values; a number keeps its literal text. -/
inductive JValue
  | null
  | bool (b : Bool)
  | num (lit : Bytes)
  | str (s : Bytes)
  | arr (xs : List JValue)
  | obj (kvs : List (Bytes × JValue))

/-- An open array or object, with the position reached inside it. -/
inductive Frame
  | arrStart
  | arrValue (xs : List JValue)
  | arrNext (xs : List JValue)
  | objStart
  | objKey (kvs : List (Bytes × JValue))
  | objColon (kvs : List (Bytes × JValue)) (k : Bytes)
  | objValue (kvs : List (Bytes × JValue)) (k : Bytes)
  | objNext (kvs : List (Bytes × JValue))

/-- Parser state: the open containers, innermost first, and the finished
top-level value. -/
structure ParseState where
  stack : List Frame
  result : Option JValue

/-- A complete value is handed to the innermost open container. -/
def deliver (st : ParseState) (v : JValue) : Option ParseState :=
  match st.stack with
  | [] =>
    match st.result with
    | none => some ⟨[], some v⟩
    | some _ => none
  | .arrStart :: fs => some ⟨.arrNext [v] :: fs, st.result⟩
  | .arrValue xs :: fs => some ⟨.arrNext (xs ++ [v]) :: fs, st.result⟩
  | .objValue kvs k :: fs => some ⟨.objNext (kvs ++ [(k, v)]) :: fs, st.result⟩
  | _ => none

/-- Whether a value may start here. -/
def expectsValue (st : ParseState) : Bool :=
  match st.stack with
  | [] => st.result.isNone
  | .arrStart :: _ => true
  | .arrValue _ :: _ => true
  | .objValue _ _ :: _ => true
  | _ => false

/-- One token of input. -/
def parseStep (st : ParseState) (t : Token) : Option ParseState :=
  match t with
  | .str s =>
    match st.stack with
    | .objStart :: fs => some ⟨.objColon [] s :: fs, st.result⟩
    | .objKey kvs :: fs => some ⟨.objColon kvs s :: fs, st.result⟩
    | _ => deliver st (.str s)
  | .num lit => deliver st (.num lit)
  | .tru => deliver st (.bool true)
  | .fls => deliver st (.bool false)
  | .nul => deliver st .null
  | .lbrack => if expectsValue st then some ⟨.arrStart :: st.stack, st.result⟩ else none
  | .lbrace => if expectsValue st then some ⟨.objStart :: st.stack, st.result⟩ else none
  | .rbrack =>
    match st.stack with
    | .arrStart :: fs => deliver ⟨fs, st.result⟩ (.arr [])
    | .arrNext xs :: fs => deliver ⟨fs, st.result⟩ (.arr xs)
    | _ => none
  | .rbrace =>
    match st.stack with
    | .objStart :: fs => deliver ⟨fs, st.result⟩ (.obj [])
    | .objNext kvs :: fs => deliver ⟨fs, st.result⟩ (.obj kvs)
    | _ => none
  | .comma =>
    match st.stack with
    | .arrNext xs :: fs => some ⟨.arrValue xs :: fs, st.result⟩
    | .objNext kvs :: fs => some ⟨.objKey kvs :: fs, st.result⟩
    | _ => none
  | .colon =>
    match st.stack with
    | .objColon kvs k :: fs => some ⟨.objValue kvs k :: fs, st.result⟩
    | _ => none

def parseRun (st : ParseState) (ts : List Token) : Option ParseState :=
  ts.foldlM parseStep st

/-- End of input: exactly one complete value and nothing left open. -/
def parseEnd (st : ParseState) : Option JValue :=
  match st.stack with
  | [] => st.result
  | _ :: _ => none

def parseTokens (ts : List Token) : Option JValue :=
  (parseRun ⟨[], none⟩ ts).bind parseEnd

/-- The value denoted by a JSON text, `none` when the text is not valid JSON. -/
def parseJSON (data : Bytes) : Option JValue := (lex data).bind parseTokens

/-! ## encoding/json: numbers and strings -/

/-- Value of a non-empty run of decimal digits. -/
def parseDigitsAux : Nat → Bytes → Option Nat
  | acc, [] => some acc
  | acc, c :: cs => if isDigit c then parseDigitsAux (10 * acc + (c.toNat - 48)) cs else none

def parseDigits (cs : Bytes) : Option Nat :=
  match cs with
  | [] => none
  | _ :: _ => parseDigitsAux 0 cs

/-- The conversion `strconv.ParseInt(lit, 10, 64)` applied to a number literal: a
fraction, an exponent or a value outside the 64-bit range is an error. -/
def parseInt64 (lit : Bytes) : Option Int :=
  match lit with
  | [] => none
  | c :: cs =>
    if c = '-' then
      (parseDigits cs).bind fun n => if n ≤ 2 ^ 63 then some (-(n : Int)) else none
    else
      (parseDigits (c :: cs)).bind fun n => if n < 2 ^ 63 then some (n : Int) else none

def digitChar (d : Nat) : Char := Char.ofNat (48 + d)

/-- Decimal digits of a natural number, most significant first. -/
def natDigits : Nat → Nat → Bytes → Bytes
  | 0, _, acc => acc
  | fuel + 1, n, acc =>
    if n < 10 then digitChar n :: acc
    else natDigits fuel (n / 10) (digitChar (n % 10) :: acc)

def formatNat (n : Nat) : Bytes := natDigits (n + 1) n []

/-- The decimal text of an integer, `strconv.FormatInt(i, 10)`. -/
def formatInt (i : Int) : Bytes :=
  match i with
  | .ofNat n => formatNat n
  | .negSucc n => '-' :: formatNat (n + 1)

def hexDigit (d : Nat) : Char :=
  if d < 10 then Char.ofNat (48 + d) else Char.ofNat (87 + d)

/-- The escaped form of one character inside a JSON string, as written by
the encoder with HTML escaping on (the default of `json.Marshal`). -/
def escapeChar (c : Char) : Bytes :=
  if c = '"' then ['\\', '"']
  else if c = '\\' then ['\\', '\\']
  else if c.toNat = 10 then ['\\', 'n']
  else if c.toNat = 13 then ['\\', 'r']
  else if c.toNat = 9 then ['\\', 't']
  else if c.toNat < 32 ∨ c = '<' ∨ c = '>' ∨ c = '&' then
    ['\\', 'u', '0', '0', hexDigit (c.toNat / 16), hexDigit (c.toNat % 16)]
  else if c.toNat = 0x2028 then ['\\', 'u', '2', '0', '2', '8']
  else if c.toNat = 0x2029 then ['\\', 'u', '2', '0', '2', '9']
  else [c]

def escapeBody (s : Bytes) : Bytes := s.flatMap escapeChar

/-- A string as a JSON string literal. -/
def quote (s : Bytes) : Bytes := '"' :: escapeBody s ++ ['"']

/-- Simple case folding of a key character, as far as it can reach an ASCII
letter: upper-case ASCII, the Kelvin sign and the long s. -/
def foldChar (c : Char) : Char :=
  if 65 ≤ c.toNat ∧ c.toNat ≤ 90 then Char.ofNat (c.toNat + 32)
  else if c.toNat = 0x212A then 'k'
  else if c.toNat = 0x17F then 's'
  else c

/-- Whether an object key selects the struct field with the given (lower-case
ASCII) JSON name: exact or case-insensitive match. -/
def keyMatches (name : String) (key : Bytes) : Bool :=
  decide (key.map foldChar = name.toList)

/-! ## Data model -/

/-- The text codec of `float64` amounts: the zero value, the conversion
`strconv.ParseFloat` of a number literal, and the encoder's number format. -/
structure FloatCodec (F : Type) where
  zero : F
  parse : Bytes → Option F
  format : F → Bytes

/-- The struct `CurrencyAsset`. A nil `Balances` map is `none`; a non-nil map
is an association list with distinct keys. -/
structure CurrencyAsset (F : Type) where
  CurrId : Bytes
  Name : Bytes
  CType : Int
  Owner : Bytes
  Balances : Option (List (Bytes × F))

/-- The struct `CurrencyHolder`. The nil slice and the empty slice are both
`[]`; the program encodes the holder only when it is nil (bootstrap) or
non-empty (after an append). -/
structure CurrencyHolder where
  IDs : List Bytes
  deriving DecidableEq, Repr

/-- The struct `CurrentBalance`. -/
structure CurrentBalance (F : Type) where
  Identity : Bytes
  Balance : F

/-- The zero value of `CurrencyAsset`. -/
def CurrencyAsset.zero (F : Type) : CurrencyAsset F := ⟨[], [], 0, [], none⟩

/-- Indexing a map: the zero value for a nil map or an absent key. -/
def mapIndex {F : Type} (fc : FloatCodec F) (m : Option (List (Bytes × F))) (key : Bytes) : F :=
  match m with
  | none => fc.zero
  | some kvs =>
    match kvs.find? (fun kv => decide (kv.1 = key)) with
    | none => fc.zero
    | some kv => kv.2

/-- Assignment `m[key] = v` on a non-nil map. -/
def mapSet {F : Type} (kvs : List (Bytes × F)) (key : Bytes) (v : F) : List (Bytes × F) :=
  match kvs with
  | [] => [(key, v)]
  | kv :: rest => if kv.1 = key then (key, v) :: rest else kv :: mapSet rest key v

/-! ## encoding/json: decoding into the structs -/

/-- A JSON string or null for a `string` field. -/
def decodeString (old : Bytes) (v : JValue) : Option Bytes :=
  match v with
  | .str s => some s
  | .null => some old
  | _ => none

/-- A JSON number or null for an `int` field. -/
def decodeInt (old : Int) (v : JValue) : Option Int :=
  match v with
  | .num lit => parseInt64 lit
  | .null => some old
  | _ => none

/-- The members of a JSON object stored into a `map[string]float64`: a null
member stores the zero amount. -/
def decodeMapMembers {F : Type} (fc : FloatCodec F) :
    List (Bytes × F) → List (Bytes × JValue) → Option (List (Bytes × F))
  | m, [] => some m
  | m, (k, v) :: rest =>
    match v with
    | .num lit =>
      match fc.parse lit with
      | some x => decodeMapMembers fc (mapSet m k x) rest
      | none => none
    | .null => decodeMapMembers fc (mapSet m k fc.zero) rest
    | _ => none

/-- A JSON object or null for the `Balances` field: an object is merged into
the map (allocated when nil), null makes the map nil. -/
def decodeBalances {F : Type} (fc : FloatCodec F) (old : Option (List (Bytes × F)))
    (v : JValue) : Option (Option (List (Bytes × F))) :=
  match v with
  | .obj kvs => (decodeMapMembers fc (old.getD []) kvs).map some
  | .null => some none
  | _ => none

/-- One member of a JSON object stored into a `CurrencyAsset`; a key that
selects no field is skipped. -/
def assetMember {F : Type} (fc : FloatCodec F) (a : CurrencyAsset F) (kv : Bytes × JValue) :
    Option (CurrencyAsset F) :=
  if keyMatches "currid" kv.1 then (decodeString a.CurrId kv.2).map fun s => { a with CurrId := s }
  else if keyMatches "name" kv.1 then (decodeString a.Name kv.2).map fun s => { a with Name := s }
  else if keyMatches "ctype" kv.1 then (decodeInt a.CType kv.2).map fun i => { a with CType := i }
  else if keyMatches "owner" kv.1 then (decodeString a.Owner kv.2).map fun s => { a with Owner := s }
  else if keyMatches "balances" kv.1 then
    (decodeBalances fc a.Balances kv.2).map fun m => { a with Balances := m }
  else some a

/-- A JSON value stored into a `CurrencyAsset`: members in text order, a later
member overriding an earlier one; null leaves the struct as it is. -/
def decodeAsset {F : Type} (fc : FloatCodec F) (a : CurrencyAsset F) (v : JValue) :
    Option (CurrencyAsset F) :=
  match v with
  | .obj kvs => kvs.foldlM (assetMember fc) a
  | .null => some a
  | _ => none

/-- The call `json.Unmarshal(data, &currencyAsset)` on a zero-valued struct; `none`
stands for any error (a syntax error or a value of the wrong type). -/
def jsonUnmarshalAsset {F : Type} (fc : FloatCodec F) (data : Bytes) : Option (CurrencyAsset F) :=
  (parseJSON data).bind (decodeAsset fc (CurrencyAsset.zero F))

/-- The elements of a JSON array stored into a `[]string`. The decoder stores
element `i` into slot `i` of the array behind the slice: a string replaces the
slot, a null element leaves in it what an earlier `ids` member of the same
text stored there (`slots`), the empty string in a slot never written. -/
def decodeStrings : List Bytes → List JValue → Option (List Bytes)
  | _, [] => some []
  | slots, v :: rest =>
    match decodeString (slots.headD []) v, decodeStrings slots.tail rest with
    | some s, some ss => some (s :: ss)
    | _, _ => none

/-- One member of a JSON object stored into a `CurrencyHolder`, together with
the slots of the array behind `IDs`. A non-empty array is decoded over the
slots and leaves the slots past its length as they were; an empty array and
null set a slice without slots. -/
def holderMember (hs : CurrencyHolder × List Bytes) (kv : Bytes × JValue) :
    Option (CurrencyHolder × List Bytes) :=
  if keyMatches "ids" kv.1 then
    match kv.2 with
    | .arr [] => some (⟨[]⟩, [])
    | .arr (x :: xs) =>
      (decodeStrings hs.2 (x :: xs)).map fun ids => (⟨ids⟩, ids ++ hs.2.drop ids.length)
    | .null => some (⟨[]⟩, [])
    | _ => none
  else some hs

/-- A JSON value stored into a `CurrencyHolder`: members in text order; null
leaves the struct as it is. -/
def decodeHolder (h : CurrencyHolder) (v : JValue) : Option CurrencyHolder :=
  match v with
  | .obj kvs => (kvs.foldlM holderMember (h, h.IDs)).map fun hs => hs.1
  | .null => some h
  | _ => none

/-- The call `json.Unmarshal(bytes, &currHolder)` on a zero-valued struct. -/
def jsonUnmarshalHolder (data : Bytes) : Option CurrencyHolder :=
  (parseJSON data).bind (decodeHolder ⟨[]⟩)

/-! ## encoding/json: encoding the structs -/

/-- Lexicographic order of keys by code point, the order in which the encoder
writes map entries. -/
def keyLe : Bytes → Bytes → Bool
  | [], _ => true
  | _ :: _, [] => false
  | a :: as, b :: bs => if a.toNat < b.toNat then true else if b.toNat < a.toNat then false else keyLe as bs

def joinComma : List Bytes → Bytes
  | [] => []
  | [x] => x
  | x :: y :: rest => x ++ ',' :: joinComma (y :: rest)

def encodeBalances {F : Type} (fc : FloatCodec F) (m : Option (List (Bytes × F))) : Bytes :=
  match m with
  | none => "null".toList
  | some kvs =>
    '{' :: joinComma ((kvs.insertionSort (fun a b => keyLe a.1 b.1 = true)).map
      fun kv => quote kv.1 ++ ':' :: fc.format kv.2) ++ ['}']

def encodeStrings (ids : List Bytes) : Bytes :=
  match ids with
  | [] => "null".toList
  | _ :: _ => '[' :: joinComma (ids.map quote) ++ [']']

/-- The call `json.Marshal(currencyAsset)`; the error is always nil. -/
def jsonMarshalAsset {F : Type} (fc : FloatCodec F) (a : CurrencyAsset F) : Bytes × Option Bytes :=
  ("\x7b\"currid\":".toList ++ quote a.CurrId ++ ",\"name\":".toList ++ quote a.Name
    ++ ",\"ctype\":".toList ++ formatInt a.CType ++ ",\"owner\":".toList ++ quote a.Owner
    ++ ",\"balances\":".toList ++ encodeBalances fc a.Balances ++ "\x7d".toList, none)

/-- The call `json.Marshal(currHolder)`; the error is always nil. -/
def jsonMarshalHolder (h : CurrencyHolder) : Bytes × Option Bytes :=
  ("\x7b\"ids\":".toList ++ encodeStrings h.IDs ++ "\x7d".toList, none)

/-- The call `json.Marshal(cb)`; the error is always nil. -/
def jsonMarshalBalance {F : Type} (fc : FloatCodec F) (cb : CurrentBalance F) : Bytes × Option Bytes :=
  ("\x7b\"identity\":".toList ++ quote cb.Identity ++ ",\"balance\":".toList
    ++ fc.format cb.Balance ++ "\x7d".toList, none)

/-! ## The shim: ledger state and caller attributes -/

/-- The ledger: the value stored under each key, `none` for an absent key. -/
abbrev Store := Bytes → Option Bytes

/-- The chaincode stub of one invocation: the ledger and the attributes of the
caller's certificate (an attribute read yields a value or an error text). -/
structure Stub where
  state : Store
  attrs : Bytes → Except Bytes Bytes

/-- The ledger after a write. -/
def storePut (s : Store) (key value : Bytes) : Store :=
  fun k => if k = key then some value else s k

/-- The call `stub.GetState(key)`: a nil value and a nil error for an absent
key. -/
def GetState (stub : Stub) (key : Bytes) : Option Bytes × Option Bytes :=
  (stub.state key, none)

/-- The call `stub.PutState(key, value)` on a store that accepts every write;
`PutStateOn` is the call on a store that may refuse. -/
def PutState (stub : Stub) (key value : Bytes) : Stub × Option Bytes :=
  ({ stub with state := storePut stub.state key value }, none)

/-- The call `stub.ReadCertAttribute(name)`. -/
def ReadCertAttribute (stub : Stub) (name : Bytes) : Bytes × Option Bytes :=
  match stub.attrs name with
  | .ok v => (v, none)
  | .error e => ([], some e)

/-- Outcome of an entry point: the returned bytes (nil is `none`), the text
of the returned error, or a run-time abort. -/
inductive Result
  | ok (bytes : Option Bytes)
  | error (msg : Bytes)
  | panic
  deriving DecidableEq, Repr

/-- A Go return pair `([]byte, error)` as an outcome. -/
def Result.ofPair (r : Option Bytes × Option Bytes) : Result :=
  match r.2 with
  | some e => .error e
  | none => .ok r.1

/-! ## The chaincode -/

def AUTHORITY : Bytes := "regulator".toList
def SUBSCRIBER : Bytes := "subscriber".toList
def PRIVATE_ENTITY : Bytes := "private".toList
def USER : Bytes := "user".toList

def getecert (stub : Stub) (name : Bytes) : Option Bytes × Option Bytes :=
  match GetState stub name with
  | (_, some _) => (none, some ("Couldn't retrieve ecert for user ".toList ++ name))
  | (ecert, none) => (ecert, none)

/-- The error test is the source's: an error is returned when the write
succeeded. -/
def addecert (stub : Stub) (name ecert : Bytes) : Stub × Option Bytes × Option Bytes :=
  match PutState stub name ecert with
  | (stub1, none) =>
    (stub1, none, some ("Error storing eCert for user ".toList ++ name ++ " identity: ".toList ++ ecert))
  | (stub1, some _) => (stub1, none, none)

/-- The loop of `Init` over the argument pairs; `args[i+1]` aborts on a
trailing unpaired argument. The result of `addecert` is discarded. -/
def initLoop (stub : Stub) : List Bytes → Result × Stub
  | [] => (.ok none, stub)
  | [_] => (.panic, stub)
  | name :: ecert :: rest => initLoop (addecert stub name ecert).1 rest

def Init (stub : Stub) (function : Bytes) (args : List Bytes) : Result × Stub :=
  let _ := function
  let currHolder : CurrencyHolder := ⟨[]⟩
  match jsonMarshalHolder currHolder with
  | (_, some _) => (.error "Error creating currHolder record".toList, stub)
  | (bytes, none) =>
    let stub1 := (PutState stub "currHolder".toList bytes).1
    initLoop stub1 args

def getusername (stub : Stub) : Bytes × Option Bytes :=
  match ReadCertAttribute stub "username".toList with
  | (_, some err) => ([], some ("Couldn\x27t get attribute \x27username\x27. Error: ".toList ++ err))
  | (username, none) => (username, none)

def checkaffiliation (stub : Stub) : Bytes × Option Bytes :=
  match ReadCertAttribute stub "role".toList with
  | (_, some err) => ([], some ("Couldn\x27t get attribute \x27role\x27. Error: ".toList ++ err))
  | (affiliation, none) => (affiliation, none)

/-- The error of `getusername` is overwritten by the one of
`checkaffiliation` before it is tested. -/
def getcallerdata (stub : Stub) : Bytes × Bytes × Option Bytes :=
  let (user, _) := getusername stub
  match checkaffiliation stub with
  | (_, some err) => ([], [], some err)
  | (affiliation, none) => (user, affiliation, none)

/-- The function `retrievecurrencyassetinfo`. Next to an error the source
returns the struct as far as the decoder filled it; here the zero struct
stands in its place, and no caller reads it. -/
def retrievecurrencyassetinfo {F : Type} (fc : FloatCodec F) (stub : Stub) (currId : Bytes) :
    CurrencyAsset F × Option Bytes :=
  let currencyAsset := CurrencyAsset.zero F
  match GetState stub currId with
  | (_, some _) =>
    (currencyAsset,
      some ("RETRIEVE_CURR_ASSET: Error retrieving CurrencyAsset with currId = ".toList ++ currId))
  | (bytes, none) =>
    match jsonUnmarshalAsset fc (bytes.getD []) with
    | none =>
      (currencyAsset,
        some ("RETRIEVE_CURR_ASSET: Corrupt CurrencyAsset record".toList ++ bytes.getD []))
    | some currencyAsset => (currencyAsset, none)

def retrievebalance {F : Type} (fc : FloatCodec F) (currencyAsset : CurrencyAsset F)
    (userid : Bytes) : Option Bytes × Option Bytes :=
  let balance := mapIndex fc currencyAsset.Balances userid
  let cb : CurrentBalance F := ⟨userid, balance⟩
  let (bytes, err) := jsonMarshalBalance fc cb
  (some bytes, err)

def savechanges {F : Type} (fc : FloatCodec F) (stub : Stub) (currAss : CurrencyAsset F) :
    Stub × Bool × Option Bytes :=
  match jsonMarshalAsset fc currAss with
  | (_, some _) => (stub, false, some "Error converting CurrencyAsset record".toList)
  | (bytes, none) =>
    match PutState stub currAss.CurrId bytes with
    | (stub1, some _) => (stub1, false, some "Error storing CurrencyAsset record".toList)
    | (stub1, none) => (stub1, true, none)

def ping : Option Bytes × Option Bytes := (some "Hello, world!".toList, none)

def createcurrencyAsset {F : Type} (fc : FloatCodec F) (stub : Stub)
    (caller caller_affiliation pcurrId pname ptype powner : Bytes) : Result × Stub :=
  let _ := caller
  let CurrId := "\"currid\":\"".toList ++ pcurrId ++ "\", ".toList
  let Name := "\"name\":\"".toList ++ pname ++ "\", ".toList
  let Owner := "\"owner\":\"".toList ++ powner ++ "\", ".toList
  let Ctype := "\"ctype\":".toList ++ ptype
  let currencyAsset_json := "\x7b".toList ++ CurrId ++ Name ++ Owner ++ Ctype ++ "\x7d".toList
  match jsonUnmarshalAsset fc currencyAsset_json with
  | none => (.error "Invalid JSON object".toList, stub)
  | some currencyAsset =>
    let (record, _) := GetState stub currencyAsset.CurrId
    if record ≠ none then (.error "CurrencyAsset already exists".toList, stub)
    else if caller_affiliation ≠ AUTHORITY then
      (.error ("Permission Denied. create_CurrencyAsset. ".toList ++ caller_affiliation
        ++ " === ".toList ++ AUTHORITY), stub)
    else
      match savechanges fc stub currencyAsset with
      | (stub1, _, some _) => (.error "Error saving changes".toList, stub1)
      | (stub1, _, none) =>
        match GetState stub1 "currHolder".toList with
        | (_, some _) => (.error "Unable to get currHolder".toList, stub1)
        | (bytes, none) =>
          match jsonUnmarshalHolder (bytes.getD []) with
          | none => (.error "Corrupt CurrencyHolder record".toList, stub1)
          | some currHolder =>
            let currHolder1 : CurrencyHolder := { currHolder with IDs := currHolder.IDs ++ [pcurrId] }
            let (bytes1, _) := jsonMarshalHolder currHolder1
            match PutState stub1 "currHolder".toList bytes1 with
            | (stub2, some _) => (.error "Unable to put the state".toList, stub2)
            | (stub2, none) => (.ok none, stub2)

/-- The mutating entry point. The four `args[i]` of the create branch are
evaluated before the call, `args[1]` of the last branch before the lookup;
an index out of range aborts. -/
def Invoke {F : Type} (fc : FloatCodec F) (stub : Stub) (function : Bytes) (args : List Bytes) :
    Result × Stub :=
  match getcallerdata stub with
  | (_, _, some _) => (.error "Error retrieving caller information".toList, stub)
  | (caller, caller_affiliation, none) =>
    if function = "createCurrencyAsset".toList then
      match args[0]?, args[1]?, args[2]?, args[3]? with
      | some a0, some a1, some a2, some a3 =>
        createcurrencyAsset fc stub caller caller_affiliation a0 a1 a2 a3
      | _, _, _, _ => (.panic, stub)
    else if function = "ping".toList then (Result.ofPair ping, stub)
    else
      match args[1]? with
      | none => (.panic, stub)
      | some a1 =>
        match retrievecurrencyassetinfo fc stub a1 with
        | (_, some _) => (.error "Error retrieving currencyAsset".toList, stub)
        | (currAsset, none) =>
          let (bytes, err) := jsonMarshalAsset fc currAsset
          (Result.ofPair (some bytes, err), stub)

/-- The read-only entry point. -/
def Query {F : Type} (fc : FloatCodec F) (stub : Stub) (function : Bytes) (args : List Bytes) :
    Result × Stub :=
  match getcallerdata stub with
  | (_, _, some err) => (.error ("QUERY: Error retrieving caller details: ".toList ++ err), stub)
  | (_, _, none) =>
    if function = "getCurrencyAssetInfo".toList then
      if args.length ≠ 1 then (.error "QUERY: Incorrect number of arguments passed".toList, stub)
      else
        match args[0]? with
        | none => (.panic, stub)
        | some a0 =>
          match retrievecurrencyassetinfo fc stub a0 with
          | (_, some err) => (.error ("QUERY: Error retrieving currencyAsset ".toList ++ err), stub)
          | (currAsset, none) =>
            let (bytes, err) := jsonMarshalAsset fc currAsset
            (Result.ofPair (some bytes, err), stub)
    else if function = "getecert".toList then
      match args[0]? with
      | none => (.panic, stub)
      | some a0 => (Result.ofPair (getecert stub a0), stub)
    else if function = "ping".toList then (Result.ofPair ping, stub)
    else if function = "getBalance".toList then
      match args[0]? with
      | none => (.panic, stub)
      | some a0 =>
        match retrievecurrencyassetinfo fc stub a0 with
        | (_, some err) => (.error ("QUERY: Error retrieving currencyAsset ".toList ++ err), stub)
        | (currencyAsset, none) =>
          match args[1]? with
          | none => (.panic, stub)
          | some a1 =>
            match retrievebalance fc currencyAsset a1 with
            | (_, some err) => (.error ("QUERY: Error retrieving currencyAsset ".toList ++ err), stub)
            | (v, none) => (.ok v, stub)
    else (.error ("Received unknown function invocation ".toList ++ function), stub)

/-! ## The chaincode on a store that may refuse a write

The key-value store answers a write with ok or with a failure. The
definitions above run the chaincode on a store that accepts every write; the
definitions of this section take the answer of the store as a parameter, so
that every branch taken after a failed `PutState` can be reached. -/

/-- The answer of the store to `put(key, value)`: `none` when the write is
accepted, the text of the error when it is refused. -/
abbrev Host := Bytes → Bytes → Option Bytes

/-- The store that accepts every write. -/
def acceptAll : Host := fun _ _ => none

/-- The call `stub.PutState(key, value)` on a store with the given answers; a
refused write leaves the ledger as it is. -/
def PutStateOn (host : Host) (stub : Stub) (key value : Bytes) : Stub × Option Bytes :=
  match host key value with
  | some err => (stub, some err)
  | none => ({ stub with state := storePut stub.state key value }, none)

/-- The function `addecert` on a store with the given answers. -/
def addecertOn (host : Host) (stub : Stub) (name ecert : Bytes) :
    Stub × Option Bytes × Option Bytes :=
  match PutStateOn host stub name ecert with
  | (stub1, none) =>
    (stub1, none, some ("Error storing eCert for user ".toList ++ name ++ " identity: ".toList ++ ecert))
  | (stub1, some _) => (stub1, none, none)

/-- The loop of `Init` on a store with the given answers. -/
def initLoopOn (host : Host) (stub : Stub) : List Bytes → Result × Stub
  | [] => (.ok none, stub)
  | [_] => (.panic, stub)
  | name :: ecert :: rest => initLoopOn host (addecertOn host stub name ecert).1 rest

/-- The function `Init` on a store with the given answers. The error of the
write of the catalog record is assigned and never tested. -/
def InitOn (host : Host) (stub : Stub) (function : Bytes) (args : List Bytes) : Result × Stub :=
  let _ := function
  let currHolder : CurrencyHolder := ⟨[]⟩
  match jsonMarshalHolder currHolder with
  | (_, some _) => (.error "Error creating currHolder record".toList, stub)
  | (bytes, none) =>
    let stub1 := (PutStateOn host stub "currHolder".toList bytes).1
    initLoopOn host stub1 args

/-- The function `savechanges` on a store with the given answers. -/
def savechangesOn {F : Type} (fc : FloatCodec F) (host : Host) (stub : Stub)
    (currAss : CurrencyAsset F) : Stub × Bool × Option Bytes :=
  match jsonMarshalAsset fc currAss with
  | (_, some _) => (stub, false, some "Error converting CurrencyAsset record".toList)
  | (bytes, none) =>
    match PutStateOn host stub currAss.CurrId bytes with
    | (stub1, some _) => (stub1, false, some "Error storing CurrencyAsset record".toList)
    | (stub1, none) => (stub1, true, none)

/-- The function `createcurrencyAsset` on a store with the given answers: the
asset record is written first, the catalog record after it. -/
def createcurrencyAssetOn {F : Type} (fc : FloatCodec F) (host : Host) (stub : Stub)
    (caller caller_affiliation pcurrId pname ptype powner : Bytes) : Result × Stub :=
  let _ := caller
  let CurrId := "\"currid\":\"".toList ++ pcurrId ++ "\", ".toList
  let Name := "\"name\":\"".toList ++ pname ++ "\", ".toList
  let Owner := "\"owner\":\"".toList ++ powner ++ "\", ".toList
  let Ctype := "\"ctype\":".toList ++ ptype
  let currencyAsset_json := "\x7b".toList ++ CurrId ++ Name ++ Owner ++ Ctype ++ "\x7d".toList
  match jsonUnmarshalAsset fc currencyAsset_json with
  | none => (.error "Invalid JSON object".toList, stub)
  | some currencyAsset =>
    let (record, _) := GetState stub currencyAsset.CurrId
    if record ≠ none then (.error "CurrencyAsset already exists".toList, stub)
    else if caller_affiliation ≠ AUTHORITY then
      (.error ("Permission Denied. create_CurrencyAsset. ".toList ++ caller_affiliation
        ++ " === ".toList ++ AUTHORITY), stub)
    else
      match savechangesOn fc host stub currencyAsset with
      | (stub1, _, some _) => (.error "Error saving changes".toList, stub1)
      | (stub1, _, none) =>
        match GetState stub1 "currHolder".toList with
        | (_, some _) => (.error "Unable to get currHolder".toList, stub1)
        | (bytes, none) =>
          match jsonUnmarshalHolder (bytes.getD []) with
          | none => (.error "Corrupt CurrencyHolder record".toList, stub1)
          | some currHolder =>
            let currHolder1 : CurrencyHolder := { currHolder with IDs := currHolder.IDs ++ [pcurrId] }
            let (bytes1, _) := jsonMarshalHolder currHolder1
            match PutStateOn host stub1 "currHolder".toList bytes1 with
            | (stub2, some _) => (.error "Unable to put the state".toList, stub2)
            | (stub2, none) => (.ok none, stub2)

/-- The mutating entry point on a store with the given answers. -/
def InvokeOn {F : Type} (fc : FloatCodec F) (host : Host) (stub : Stub) (function : Bytes)
    (args : List Bytes) : Result × Stub :=
  match getcallerdata stub with
  | (_, _, some _) => (.error "Error retrieving caller information".toList, stub)
  | (caller, caller_affiliation, none) =>
    if function = "createCurrencyAsset".toList then
      match args[0]?, args[1]?, args[2]?, args[3]? with
      | some a0, some a1, some a2, some a3 =>
        createcurrencyAssetOn fc host stub caller caller_affiliation a0 a1 a2 a3
      | _, _, _, _ => (.panic, stub)
    else if function = "ping".toList then (Result.ofPair ping, stub)
    else
      match args[1]? with
      | none => (.panic, stub)
      | some a1 =>
        match retrievecurrencyassetinfo fc stub a1 with
        | (_, some _) => (.error "Error retrieving currencyAsset".toList, stub)
        | (currAsset, none) =>
          let (bytes, err) := jsonMarshalAsset fc currAsset
          (Result.ofPair (some bytes, err), stub)

/-- A codec for whole amounts in decimal notation, used to run the model on
concrete inputs. -/
def wholeCodec : FloatCodec Int := ⟨0, parseInt64, formatInt⟩

/-! ## Definitions used by the statements -/

/-- A character that a JSON string literal holds as itself. -/
def plainChar (c : Char) : Bool := decide (c ≠ '"' ∧ c ≠ '\\' ∧ 32 ≤ c.toNat)

/-- A text made of plain characters only: no double quote, no backslash, no
control character. -/
def plain (s : Bytes) : Bool := s.all plainChar

/-- A character that ends a number literal. -/
def numStop (t : Char) : Bool :=
  !isDigit t && decide (t ≠ '.' ∧ t ≠ 'e' ∧ t ≠ 'E')

/-- The text that `createcurrencyAsset` builds from its four arguments. -/
def createText (pcurrId pname ptype powner : Bytes) : Bytes :=
  "\x7b".toList ++ ("\"currid\":\"".toList ++ pcurrId ++ "\", ".toList)
    ++ ("\"name\":\"".toList ++ pname ++ "\", ".toList)
    ++ ("\"owner\":\"".toList ++ powner ++ "\", ".toList)
    ++ ("\"ctype\":".toList ++ ptype) ++ "\x7d".toList

/-- The tokens of a comma-separated run of string literals. -/
def idTokens : List Bytes → List Token
  | [] => []
  | [x] => [.str x]
  | x :: y :: rest => .str x :: .comma :: idTokens (y :: rest)

/-- Attribute table of a caller with a user name and a role. -/
def attrsOf (username role : Bytes) : Bytes → Except Bytes Bytes :=
  fun n =>
    if n = "role".toList then .ok role
    else if n = "username".toList then .ok username
    else .error "attribute not found".toList

/-- The ledger right after a bootstrap without credentials, started on a
ledger without entries. -/
def emptyLedger : Store :=
  (Init ⟨fun _ => none, fun _ => .error []⟩ [] []).2.state

/-- A regulator on the freshly bootstrapped ledger. -/
def regulatorStub : Stub := ⟨emptyLedger, attrsOf "bob".toList AUTHORITY⟩

/-- The two entry points. -/
inductive Entry
  | invoke
  | query
  deriving DecidableEq, Repr

/-- One invocation: the entry point, the caller's certificate attributes, the
operation name and the arguments. -/
structure Call where
  entry : Entry
  attrs : Bytes → Except Bytes Bytes
  function : Bytes
  args : List Bytes

/-- Outcome and ledger after one invocation. -/
def Call.run {F : Type} (fc : FloatCodec F) (s : Store) (c : Call) : Result × Store :=
  match c.entry with
  | .invoke => ((Invoke fc ⟨s, c.attrs⟩ c.function c.args).1,
      (Invoke fc ⟨s, c.attrs⟩ c.function c.args).2.state)
  | .query => ((Query fc ⟨s, c.attrs⟩ c.function c.args).1,
      (Query fc ⟨s, c.attrs⟩ c.function c.args).2.state)

/-- The ledger after a sequence of invocations. -/
def runAll {F : Type} (fc : FloatCodec F) (s : Store) : List Call → Store
  | [] => s
  | c :: cs => runAll fc (c.run fc s).2 cs

/-- The first create of the scenario: asset `C1`. -/
def createC1 : List Bytes := ["C1".toList, "Gold".toList, "1".toList, "alice".toList]

/-- The ledger after a regulator created `C1` on a fresh ledger. -/
def ledgerC1 : Store :=
  (Invoke wholeCodec regulatorStub "createCurrencyAsset".toList createC1).2.state

/-- Whether an outcome is a normal return without error. -/
def Result.isOk : Result → Bool
  | .ok _ => true
  | _ => false

/-- Whether a call is a `createCurrencyAsset` on the mutating entry point. -/
def isCreate (c : Call) : Bool :=
  decide (c.entry = .invoke ∧ c.function = "createCurrencyAsset".toList)

/-- The id argument of a call when it is a create that succeeds on the ledger
`s`. -/
def createdId {F : Type} (fc : FloatCodec F) (s : Store) (c : Call) : List Bytes :=
  if isCreate c = true ∧ (c.run fc s).1.isOk = true then (c.args[0]?).toList else []

/-- The id arguments of the creates that succeed in a sequence of invocations
started on the ledger `s`, in order. -/
def createdIds {F : Type} (fc : FloatCodec F) : Store → List Call → List Bytes
  | _, [] => []
  | s, c :: cs => createdId fc s c ++ createdIds fc (c.run fc s).2 cs

/-- The names in a bootstrap argument list of alternating names and
credentials. -/
def credNames : List Bytes → List Bytes
  | name :: _ :: rest => name :: credNames rest
  | _ => []

/-- A ledger that holds one asset record with a balance for `alice`. -/
def ledgerWithBalance : Store :=
  fun k =>
    if k = "C1".toList then
      some "\x7b\"currid\":\"C1\",\"name\":\"Gold\",\"ctype\":1,\"owner\":\"alice\",\"balances\":\x7b\"alice\":5\x7d\x7d".toList
    else none

/-- Attribute table of a caller whose certificate carries a role but no user
name. -/
def attrsRoleOnly (role : Bytes) : Bytes → Except Bytes Bytes :=
  fun n => if n = "role".toList then .ok role else .error "attribute not found".toList

/-- The bootstrap argument list of a sequence of (name, credential) pairs. -/
def pairArgs : List (Bytes × Bytes) → List Bytes
  | [] => []
  | (name, ecert) :: rest => name :: ecert :: pairArgs rest

/-- The tokens of a comma-separated run of map entries as the encoder writes
them: the key, a colon and the number text of the amount. -/
def entryTokens {F : Type} (fc : FloatCodec F) : List (Bytes × F) → List Token
  | [] => []
  | [kv] => [.str kv.1, .colon, .num (fc.format kv.2)]
  | kv :: kv2 :: rest =>
    .str kv.1 :: .colon :: .num (fc.format kv.2) :: .comma :: entryTokens fc (kv2 :: rest)

/-- An amount that the decoder can store in a balances map: the zero amount
(for a null member) or the value of a number literal. -/
def FloatCodec.Produced {F : Type} (fc : FloatCodec F) (x : F) : Prop :=
  x = fc.zero ∨ ∃ lit, fc.parse lit = some x

/-- The law of the amount codec that reading a stored record back relies on:
the text written for an amount that the decoder can store is a JSON number
(the lexer reads it as one number token, up to the character that ends it)
and the codec parses it. -/
def FloatCodec.ReadsBack {F : Type} (fc : FloatCodec F) : Prop :=
  ∀ x, fc.Produced x →
    (∃ y, fc.parse (fc.format x) = some y)
    ∧ ∀ (ts : List Token) (t : Char) (rest : Bytes), numStop t = true →
        lexRun ⟨ts, .idle⟩ (fc.format x ++ t :: rest)
          = lexRun (idleStep (.num (fc.format x) :: ts) t) rest

/-- An asset as the decoder can leave it: a 64-bit kind and amounts that the
decoder can store. -/
def Decodable {F : Type} (fc : FloatCodec F) (a : CurrencyAsset F) : Prop :=
  (-(2 ^ 63) ≤ a.CType ∧ a.CType < 2 ^ 63)
  ∧ ∀ m, a.Balances = some m → ∀ kv ∈ m, fc.Produced kv.2

/-- A store that refuses every write under `key` and accepts every other
write. -/
def refuseKey (key : Bytes) : Host :=
  fun k _ => if k = key then some "write refused".toList else none

/-- One invocation together with the answers of the store during it. -/
structure HostCall where
  host : Host
  call : Call

/-- Outcome and ledger after one invocation on a store with the given
answers. -/
def HostCall.run {F : Type} (fc : FloatCodec F) (s : Store) (c : HostCall) : Result × Store :=
  match c.call.entry with
  | .invoke => ((InvokeOn fc c.host ⟨s, c.call.attrs⟩ c.call.function c.call.args).1,
      (InvokeOn fc c.host ⟨s, c.call.attrs⟩ c.call.function c.call.args).2.state)
  | .query => ((Query fc ⟨s, c.call.attrs⟩ c.call.function c.call.args).1,
      (Query fc ⟨s, c.call.attrs⟩ c.call.function c.call.args).2.state)

/-- The ledger after a sequence of invocations, each on a store with its own
answers. -/
def runAllOn {F : Type} (fc : FloatCodec F) (s : Store) : List HostCall → Store
  | [] => s
  | c :: cs => runAllOn fc (c.run fc s).2 cs

/-- Whether the ledger holds under `id` a record that decodes to an asset
with that id. -/
def resolves {F : Type} (fc : FloatCodec F) (s : Store) (id : Bytes) : Bool :=
  match s id with
  | none => false
  | some bytes =>
    match jsonUnmarshalAsset fc bytes with
    | none => false
    | some a => decide (a.CurrId = id)

/-- Whether the text that a create builds from its arguments decodes to an
asset whose `currid` is the id argument, so that the asset record is written
under the id that the catalog will list. -/
def storesUnderId {F : Type} (fc : FloatCodec F) (args : List Bytes) : Bool :=
  match args with
  | id :: name :: kind :: owner :: _ =>
    match jsonUnmarshalAsset fc (createText id name kind owner) with
    | some a => decide (a.CurrId = id)
    | none => false
  | _ => false

/-- The demand on one invocation on the ledger `s`: if it is a create that
succeeds, then it stores its asset under its id argument or its id argument
resolves already. A call that is no create, and a create that fails, meet
the demand whatever their arguments are. -/
def keepsCatalog {F : Type} (fc : FloatCodec F) (s : Store) (c : HostCall) : Bool :=
  !(isCreate c.call && (c.run fc s).1.isOk)
    || storesUnderId fc c.call.args || resolves fc s (c.call.args.headD [])

/-- The demand `keepsCatalog` on every invocation of a sequence started on
the ledger `s`. -/
def keepCatalog {F : Type} (fc : FloatCodec F) : Store → List HostCall → Bool
  | _, [] => true
  | s, c :: cs => keepsCatalog fc s c && keepCatalog fc (c.run fc s).2 cs

/-- The outcomes of a sequence of invocations started on the ledger `s`, in
order. -/
def outcomesOn {F : Type} (fc : FloatCodec F) : Store → List HostCall → List Result
  | _, [] => []
  | s, c :: cs => (c.run fc s).1 :: outcomesOn fc (c.run fc s).2 cs

/-- The ledger after a bootstrap with one credential on a store that refuses
the write of that credential and accepts the write of the catalog record. -/
def seededLedger : Store :=
  (InitOn (refuseKey "alice".toList) ⟨fun _ => none, fun _ => .error []⟩ []
    ["alice".toList, "certA".toList]).2.state

/-- A sequence of invocations with creates that succeed, creates that fail
before the first write, at the first write and between the two writes, and
creates whose arguments are not plain: `C1` is created; `C2` is written but
the write of the catalog record is refused; the write of `C5` is refused;
`C3` is created with a kind that starts with a blank; `C4` is created with a
kind that carries a `balances` member; a user's create with a second `currid`
member is denied; a create with id `C2` and a second `currid` member `C7`
succeeds; a balance is queried. -/
def scenario : List HostCall :=
  [⟨acceptAll, ⟨.invoke, attrsOf "bob".toList AUTHORITY, "createCurrencyAsset".toList, createC1⟩⟩,
   ⟨refuseKey "currHolder".toList, ⟨.invoke, attrsOf "bob".toList AUTHORITY,
      "createCurrencyAsset".toList, ["C2".toList, "Tin".toList, "2".toList, "eve".toList]⟩⟩,
   ⟨refuseKey "C5".toList, ⟨.invoke, attrsOf "bob".toList AUTHORITY,
      "createCurrencyAsset".toList, ["C5".toList, "Lead".toList, "5".toList, "bob".toList]⟩⟩,
   ⟨acceptAll, ⟨.invoke, attrsOf "bob".toList AUTHORITY, "createCurrencyAsset".toList,
      ["C3".toList, "Zinc".toList, " 3".toList, "bob".toList]⟩⟩,
   ⟨acceptAll, ⟨.invoke, attrsOf "bob".toList AUTHORITY, "createCurrencyAsset".toList,
      ["C4".toList, "Iron".toList, "4, \"balances\":\x7b\"bob\":5\x7d".toList, "bob".toList]⟩⟩,
   ⟨acceptAll, ⟨.invoke, attrsOf "eve".toList USER, "createCurrencyAsset".toList,
      ["C6".toList, "Gold\", \"currid\":\"C9".toList, "6".toList, "eve".toList]⟩⟩,
   ⟨acceptAll, ⟨.invoke, attrsOf "bob".toList AUTHORITY, "createCurrencyAsset".toList,
      ["C2".toList, "Tin\", \"currid\":\"C7".toList, "2".toList, "eve".toList]⟩⟩,
   ⟨acceptAll, ⟨.query, attrsOf "eve".toList USER, "getBalance".toList,
      ["C4".toList, "bob".toList]⟩⟩]

/-! # Lemmas -/

/-! ## Lexer lemmas -/

theorem lexRun_nil (s : LexState) : lexRun s [] = s := rfl

theorem lexRun_cons (s : LexState) (c : Char) (cs : Bytes) :
    lexRun s (c :: cs) = lexRun (lexStep s c) cs := rfl

theorem lexRun_append (s : LexState) (a b : Bytes) :
    lexRun s (a ++ b) = lexRun (lexRun s a) b := by
  simp [lexRun, List.foldl_append]

theorem strStep_plain (ts : List Token) (racc : Bytes) (c : Char) (h : plainChar c = true) :
    strStep ts racc c = ⟨ts, .inStr (c :: racc)⟩ := by
  simp only [plainChar, decide_eq_true_eq] at h
  obtain ⟨h1, h2, h3⟩ := h
  simp [strStep, h1, h2, Nat.not_lt.mpr h3]

theorem lexRun_plain (ts : List Token) (s : Bytes) :
    ∀ racc : Bytes, plain s = true →
      lexRun ⟨ts, .inStr racc⟩ s = ⟨ts, .inStr (s.reverse ++ racc)⟩ := by
  induction s with
  | nil => intro racc _; rfl
  | cons c cs ih =>
    intro racc h
    simp only [plain, List.all_cons, Bool.and_eq_true] at h
    rw [lexRun_cons]
    have hs : lexStep ⟨ts, .inStr racc⟩ c = ⟨ts, .inStr (c :: racc)⟩ := strStep_plain ts racc c h.1
    rw [hs, ih (c :: racc) h.2]
    simp

theorem hexVal_hexDigit (d : Nat) (h : d < 16) : hexVal (hexDigit d) = some d := by
  interval_cases d <;> rfl

theorem lexRun_u4 (ts : List Token) (racc : Bytes) (a b c d : Char) (va vb vc vd : Nat)
    (ha : hexVal a = some va) (hb : hexVal b = some vb) (hc : hexVal c = some vc)
    (hd : hexVal d = some vd) :
    lexRun ⟨ts, .inStr racc⟩ ['\\', 'u', a, b, c, d]
      = uniDone ts racc (16 * (16 * (16 * (16 * 0 + va) + vb) + vc) + vd) := by
  simp [lexRun, lexStep, strStep, escStep, ha, hb, hc, hd]

theorem uniDone_char (ts : List Token) (racc : Bytes) (c : Char) (h : c.toNat < 0xD800) :
    uniDone ts racc c.toNat = ⟨ts, .inStr (c :: racc)⟩ := by
  have h1 : ¬ (0xD800 ≤ c.toNat ∧ c.toNat < 0xDC00) := by omega
  have h2 : ¬ (0xDC00 ≤ c.toNat ∧ c.toNat < 0xE000) := by omega
  simp only [uniDone, h1, h2, if_false, Char.ofNat_toNat]

theorem char_eq_of_toNat (c : Char) (n : Nat) (h : c.toNat = n) : c = Char.ofNat n := by
  rw [← h, Char.ofNat_toNat]

theorem lexRun_escapeChar (ts : List Token) (racc : Bytes) (c : Char) :
    lexRun ⟨ts, .inStr racc⟩ (escapeChar c) = ⟨ts, .inStr (c :: racc)⟩ := by
  unfold escapeChar
  split_ifs with h1 h2 h3 h4 h5 h6 h7 h8
  · subst h1; rfl
  · subst h2; rfl
  · rw [char_eq_of_toNat c 10 h3]; rfl
  · rw [char_eq_of_toNat c 13 h4]; rfl
  · rw [char_eq_of_toNat c 9 h5]; rfl
  · have hlt : c.toNat < 256 := by
      rcases h6 with h | h | h | h
      · omega
      · subst h; decide
      · subst h; decide
      · subst h; decide
    rw [lexRun_u4 ts racc '0' '0' _ _ 0 0 (c.toNat / 16) (c.toNat % 16) rfl rfl
      (hexVal_hexDigit _ (by omega)) (hexVal_hexDigit _ (by omega))]
    have : 16 * (16 * (16 * (16 * 0 + 0) + 0) + c.toNat / 16) + c.toNat % 16 = c.toNat := by omega
    rw [this, uniDone_char ts racc c (by omega)]
  · rw [char_eq_of_toNat c _ h7]; rfl
  · rw [char_eq_of_toNat c _ h8]; rfl
  · have hp : plainChar c = true := by
      simp only [plainChar, decide_eq_true_eq]
      refine ⟨h1, h2, ?_⟩
      by_contra hlt
      exact h6 (Or.inl (by omega))
    simpa [lexRun, lexStep] using strStep_plain ts racc c hp

theorem lexRun_escapeBody (ts : List Token) (s : Bytes) :
    ∀ racc : Bytes, lexRun ⟨ts, .inStr racc⟩ (escapeBody s) = ⟨ts, .inStr (s.reverse ++ racc)⟩ := by
  induction s with
  | nil => intro racc; rfl
  | cons c cs ih =>
    intro racc
    have : escapeBody (c :: cs) = escapeChar c ++ escapeBody cs := by
      simp [escapeBody]
    rw [this, lexRun_append, lexRun_escapeChar, ih]
    simp

/-- Lexing a string literal written by the encoder gives the string back. -/
theorem lexRun_quote (ts : List Token) (s : Bytes) :
    lexRun ⟨ts, .idle⟩ (quote s) = ⟨.str s :: ts, .idle⟩ := by
  unfold quote
  rw [List.cons_append, lexRun_cons]
  have h0 : lexStep ⟨ts, .idle⟩ '"' = ⟨ts, .inStr []⟩ := rfl
  rw [h0, lexRun_append, lexRun_escapeBody]
  simp [lexRun, lexStep, strStep]

/-- Lexing a plain text between double quotes gives the text. -/
theorem lexRun_raw (ts : List Token) (s : Bytes) (h : plain s = true) :
    lexRun ⟨ts, .inStr []⟩ (s ++ ['"']) = ⟨.str s :: ts, .idle⟩ := by
  rw [lexRun_append, lexRun_plain ts s [] h]
  simp [lexRun, lexStep, strStep]

/-! ## Number lemmas -/

theorem natDigits_fuel (f1 : Nat) :
    ∀ (f2 n : Nat) (acc : Bytes), n < f1 → n < f2 → natDigits f1 n acc = natDigits f2 n acc := by
  induction f1 with
  | zero => intro f2 n acc h; omega
  | succ f ih =>
    intro f2 n acc h1 h2
    obtain ⟨g, rfl⟩ : ∃ g, f2 = g + 1 := ⟨f2 - 1, by omega⟩
    by_cases h10 : n < 10
    · simp [natDigits, h10]
    · have hdiv : n / 10 < n := Nat.div_lt_self (by omega) (by omega)
      simp only [natDigits, h10, if_false]
      exact ih g (n / 10) _ (by omega) (by omega)

theorem natDigits_acc (fuel : Nat) :
    ∀ (n : Nat) (acc : Bytes), n < fuel → natDigits fuel n acc = natDigits fuel n [] ++ acc := by
  induction fuel with
  | zero => intro n acc h; omega
  | succ f ih =>
    intro n acc h
    by_cases h10 : n < 10
    · simp [natDigits, h10]
    · have hdiv : n / 10 < n := Nat.div_lt_self (by omega) (by omega)
      simp only [natDigits, h10, if_false]
      rw [ih (n / 10) (digitChar (n % 10) :: acc) (by omega),
        ih (n / 10) [digitChar (n % 10)] (by omega)]
      simp

theorem formatNat_small (n : Nat) (h : n < 10) : formatNat n = [digitChar n] := by
  simp [formatNat, natDigits, h]

theorem formatNat_large (n : Nat) (h : 10 ≤ n) :
    formatNat n = formatNat (n / 10) ++ [digitChar (n % 10)] := by
  have hdiv : n / 10 < n := Nat.div_lt_self (by omega) (by omega)
  have h10 : ¬ n < 10 := by omega
  have e : formatNat n = natDigits n (n / 10) [digitChar (n % 10)] := by
    simp [formatNat, natDigits, h10]
  rw [e, natDigits_fuel n (n / 10 + 1) (n / 10) _ hdiv (by omega),
    natDigits_acc (n / 10 + 1) (n / 10) _ (by omega)]
  rfl

theorem isDigit_digitChar (d : Nat) (h : d < 10) : isDigit (digitChar d) = true := by
  interval_cases d <;> rfl

theorem digitChar_val (d : Nat) (h : d < 10) : (digitChar d).toNat - 48 = d := by
  interval_cases d <;> rfl

theorem digitChar_ne_zero (d : Nat) (h : d < 10) (h0 : 0 < d) : digitChar d ≠ '0' := by
  interval_cases d <;> decide

theorem parseDigitsAux_append (a b : Bytes) :
    ∀ acc : Nat, parseDigitsAux acc (a ++ b) = (parseDigitsAux acc a).bind fun x => parseDigitsAux x b := by
  induction a with
  | nil => intro acc; rfl
  | cons c cs ih =>
    intro acc
    by_cases hd : isDigit c = true
    · simp [parseDigitsAux, hd, ih]
    · simp [parseDigitsAux, hd]

theorem parseDigitsAux_formatNat (n : Nat) : parseDigitsAux 0 (formatNat n) = some n := by
  induction n using Nat.strong_induction_on with
  | _ n ih =>
    by_cases h10 : n < 10
    · rw [formatNat_small n h10]
      simp [parseDigitsAux, isDigit_digitChar n h10, digitChar_val n h10]
    · have hdiv : n / 10 < n := Nat.div_lt_self (by omega) (by omega)
      rw [formatNat_large n (by omega), parseDigitsAux_append, ih (n / 10) hdiv]
      have hm : n % 10 < 10 := Nat.mod_lt _ (by omega)
      simp only [Option.some_bind, parseDigitsAux, isDigit_digitChar _ hm, digitChar_val _ hm,
        if_true]
      congr 1
      omega

theorem formatNat_ne_nil (n : Nat) : formatNat n ≠ [] := by
  by_cases h10 : n < 10
  · rw [formatNat_small n h10]; simp
  · rw [formatNat_large n (by omega)]; simp

theorem parseDigits_formatNat (n : Nat) : parseDigits (formatNat n) = some n := by
  have h := parseDigitsAux_formatNat n
  have hne := formatNat_ne_nil n
  unfold parseDigits
  split
  · next heq => exact absurd heq hne
  · exact h

/-- The first character of a formatted natural number is a digit. -/
theorem formatNat_head (n : Nat) : ∃ c cs, formatNat n = c :: cs ∧ isDigit c = true := by
  induction n using Nat.strong_induction_on with
  | _ n ih =>
    by_cases h10 : n < 10
    · exact ⟨digitChar n, [], formatNat_small n h10, isDigit_digitChar n h10⟩
    · have hdiv : n / 10 < n := Nat.div_lt_self (by omega) (by omega)
      obtain ⟨c, cs, hc, hd⟩ := ih (n / 10) hdiv
      exact ⟨c, cs ++ [digitChar (n % 10)], by rw [formatNat_large n (by omega), hc]; rfl, hd⟩

/-- Reading back the decimal text of a 64-bit integer. -/
theorem parseInt64_formatInt (k : Int) (hlo : -(2 ^ 63) ≤ k) (hhi : k < 2 ^ 63) :
    parseInt64 (formatInt k) = some k := by
  cases k with
  | ofNat n =>
    obtain ⟨c, cs, hc, hd⟩ := formatNat_head n
    have hne : c ≠ '-' := by
      intro h; subst h; revert hd; decide
    have hn : n < 2 ^ 63 := by
      have : (n : Int) < 2 ^ 63 := hhi
      exact_mod_cast this
    have hp := parseDigits_formatNat n
    simp only [formatInt]
    rw [hc] at hp ⊢
    have hn2 : n < 9223372036854775808 := by simpa using hn
    simp [parseInt64, hne, hp, hn2]
  | negSucc n =>
    have hn : n + 1 ≤ 2 ^ 63 := by
      have : -(2 ^ 63 : Int) ≤ Int.negSucc n := hlo
      rw [Int.negSucc_eq] at this
      have h2 : ((n : Int) + 1) ≤ 2 ^ 63 := by linarith
      exact_mod_cast h2
    simp only [formatInt, parseInt64, if_true, parseDigits_formatNat, Option.some_bind, hn]
    rw [Int.negSucc_eq]
    simp

theorem digit_cases (c : Char) (h : isDigit c = true) :
    c = '0' ∨ c = '1' ∨ c = '2' ∨ c = '3' ∨ c = '4' ∨ c = '5' ∨ c = '6' ∨ c = '7' ∨ c = '8'
      ∨ c = '9' := by
  simp only [isDigit, decide_eq_true_eq] at h
  obtain ⟨h1, h2⟩ := h
  have hc : c = Char.ofNat c.toNat := (Char.ofNat_toNat c).symm
  generalize c.toNat = v at h1 h2 hc
  subst hc
  interval_cases v <;> simp

theorem idleStep_digit (ts : List Token) (c : Char) (h : isDigit c = true) (h0 : c ≠ '0') :
    idleStep ts c = ⟨ts, .number .int [c]⟩ := by
  rcases digit_cases c h with h | h | h | h | h | h | h | h | h | h
  · exact absurd h h0
  all_goals subst h; rfl

theorem minusStep_digit (ts : List Token) (rl : Bytes) (c : Char) (h : isDigit c = true) (h0 : c ≠ '0') :
    numStep ts .minus rl c = ⟨ts, .number .int (c :: rl)⟩ := by
  simp [numStep, h, h0]

theorem lexRun_digits (ts : List Token) (rl : Bytes) (s0 : LexState)
    (hs : ∀ c, isDigit c = true → c ≠ '0' → lexStep s0 c = ⟨ts, .number .int (c :: rl)⟩) :
    ∀ n : Nat, 1 ≤ n →
      lexRun s0 (formatNat n) = ⟨ts, .number .int ((formatNat n).reverse ++ rl)⟩ := by
  intro n
  induction n using Nat.strong_induction_on with
  | _ n ih =>
    intro h1
    by_cases h10 : n < 10
    · rw [formatNat_small n h10]
      exact hs _ (isDigit_digitChar n h10) (digitChar_ne_zero n h10 (by omega))
    · have hdiv : n / 10 < n := Nat.div_lt_self (by omega) (by omega)
      have hm : n % 10 < 10 := Nat.mod_lt _ (by omega)
      rw [formatNat_large n (by omega), lexRun_append, ih (n / 10) hdiv (by omega)]
      simp [lexRun, lexStep, numStep, isDigit_digitChar _ hm]

theorem intStep_stop (ts : List Token) (rl : Bytes) (t : Char) (h : numStop t = true) :
    numStep ts .int rl t = idleStep (.num rl.reverse :: ts) t := by
  simp only [numStop, Bool.and_eq_true, Bool.not_eq_true', decide_eq_true_eq] at h
  obtain ⟨h1, h2, h3, h4⟩ := h
  simp [numStep, numEnd, h1, h2, h3, h4]

theorem zeroStep_stop (ts : List Token) (rl : Bytes) (t : Char) (h : numStop t = true) :
    numStep ts .zero rl t = idleStep (.num rl.reverse :: ts) t := by
  simp only [numStop, Bool.and_eq_true, Bool.not_eq_true', decide_eq_true_eq] at h
  obtain ⟨_, h2, h3, h4⟩ := h
  simp [numStep, numEnd, h2, h3, h4]

/-- Lexing the decimal text of an integer, up to the character that ends it. -/
theorem lexRun_formatInt (ts : List Token) (k : Int) (t : Char) (rest : Bytes)
    (ht : numStop t = true) :
    lexRun ⟨ts, .idle⟩ (formatInt k ++ t :: rest)
      = lexRun (idleStep (.num (formatInt k) :: ts) t) rest := by
  rw [lexRun_append, lexRun_cons]
  congr 1
  cases k with
  | ofNat n =>
    by_cases h0 : n = 0
    · subst h0
      have e : formatInt (Int.ofNat 0) = ['0'] := rfl
      rw [e]
      exact zeroStep_stop ts ['0'] t ht
    · simp only [formatInt]
      rw [lexRun_digits ts [] ⟨ts, .idle⟩ (fun c hc h0 => idleStep_digit ts c hc h0) n (by omega)]
      have := intStep_stop ts ((formatNat n).reverse ++ []) t ht
      simpa [lexStep] using this
  | negSucc n =>
    simp only [formatInt]
    rw [lexRun_cons]
    have e : lexStep ⟨ts, .idle⟩ '-' = ⟨ts, .number .minus ['-']⟩ := rfl
    rw [e, lexRun_digits ts ['-'] ⟨ts, .number .minus ['-']⟩
      (fun c hc h0 => minusStep_digit ts ['-'] c hc h0) (n + 1) (by omega)]
    have := intStep_stop ts ((formatNat (n + 1)).reverse ++ ['-']) t ht
    simpa [lexStep] using this

/-! ## The two JSON texts of an asset -/

theorem lexStep_after_formatInt (ts : List Token) (k : Int) (t : Char) (ht : numStop t = true) :
    lexStep (lexRun ⟨ts, .idle⟩ (formatInt k)) t = idleStep (.num (formatInt k) :: ts) t := by
  have h := lexRun_formatInt ts k t [] ht
  rw [lexRun_append, lexRun_cons] at h
  exact h

theorem lex_createText (id name owner : Bytes) (k : Int)
    (hid : plain id = true) (hname : plain name = true) (howner : plain owner = true) :
    lex (createText id name (formatInt k) owner)
      = some [.lbrace, .str "currid".toList, .colon, .str id, .comma,
          .str "name".toList, .colon, .str name, .comma,
          .str "owner".toList, .colon, .str owner, .comma,
          .str "ctype".toList, .colon, .num (formatInt k), .rbrace] := by
  have s1 : ∀ ts, lexRun ⟨ts, .idle⟩ "\x7b".toList = ⟨.lbrace :: ts, .idle⟩ := fun _ => rfl
  have s2 : ∀ ts, lexRun ⟨ts, .idle⟩ "\"currid\":\"".toList
      = ⟨.colon :: .str "currid".toList :: ts, .inStr []⟩ := fun _ => rfl
  have s3 : ∀ ts racc, lexRun ⟨ts, .inStr racc⟩ "\", ".toList
      = ⟨.comma :: .str racc.reverse :: ts, .idle⟩ := fun _ _ => rfl
  have s4 : ∀ ts, lexRun ⟨ts, .idle⟩ "\"name\":\"".toList
      = ⟨.colon :: .str "name".toList :: ts, .inStr []⟩ := fun _ => rfl
  have s5 : ∀ ts, lexRun ⟨ts, .idle⟩ "\"owner\":\"".toList
      = ⟨.colon :: .str "owner".toList :: ts, .inStr []⟩ := fun _ => rfl
  have s6 : ∀ ts, lexRun ⟨ts, .idle⟩ "\"ctype\":".toList
      = ⟨.colon :: .str "ctype".toList :: ts, .idle⟩ := fun _ => rfl
  have s7 : ∀ ts, lexRun (lexRun ⟨ts, .idle⟩ (formatInt k)) "\x7d".toList
      = ⟨.rbrace :: .num (formatInt k) :: ts, .idle⟩ := by
    intro ts
    have e : "\x7d".toList = ['}'] := rfl
    rw [e, lexRun_cons, lexStep_after_formatInt ts k '}' (by decide)]
    rfl
  unfold lex createText
  simp only [lexRun_append, s1, s2, s3, s4, s5, s6, s7, lexRun_plain _ _ _ hid,
    lexRun_plain _ _ _ hname, lexRun_plain _ _ _ howner]
  simp [lexEnd]

theorem assetMember_currid {F : Type} (fc : FloatCodec F) (a : CurrencyAsset F) (s : Bytes) :
    assetMember fc a ("currid".toList, .str s) = some { a with CurrId := s } := rfl

theorem assetMember_name {F : Type} (fc : FloatCodec F) (a : CurrencyAsset F) (s : Bytes) :
    assetMember fc a ("name".toList, .str s) = some { a with Name := s } := rfl

theorem assetMember_owner {F : Type} (fc : FloatCodec F) (a : CurrencyAsset F) (s : Bytes) :
    assetMember fc a ("owner".toList, .str s) = some { a with Owner := s } := rfl

theorem assetMember_ctype {F : Type} (fc : FloatCodec F) (a : CurrencyAsset F) (lit : Bytes) :
    assetMember fc a ("ctype".toList, .num lit)
      = (parseInt64 lit).map fun i => { a with CType := i } := rfl

theorem assetMember_balances_null {F : Type} (fc : FloatCodec F) (a : CurrencyAsset F) :
    assetMember fc a ("balances".toList, .null) = some { a with Balances := none } := rfl

/-- Decoding the text built by `createcurrencyAsset` from plain strings and the
decimal text of a 64-bit integer. -/
theorem unmarshal_createText {F : Type} (fc : FloatCodec F) (id name owner : Bytes) (k : Int)
    (hid : plain id = true) (hname : plain name = true) (howner : plain owner = true)
    (hlo : -(2 ^ 63) ≤ k) (hhi : k < 2 ^ 63) :
    jsonUnmarshalAsset fc (createText id name (formatInt k) owner)
      = some ⟨id, name, k, owner, none⟩ := by
  have hp : parseTokens [.lbrace, .str "currid".toList, .colon, .str id, .comma,
          .str "name".toList, .colon, .str name, .comma,
          .str "owner".toList, .colon, .str owner, .comma,
          .str "ctype".toList, .colon, .num (formatInt k), .rbrace]
      = some (.obj [("currid".toList, .str id), ("name".toList, .str name),
          ("owner".toList, .str owner), ("ctype".toList, .num (formatInt k))]) := rfl
  unfold jsonUnmarshalAsset parseJSON
  rw [lex_createText id name owner k hid hname howner]
  simp only [Option.some_bind, hp, decodeAsset, List.foldlM_cons, List.foldlM_nil,
    assetMember_currid, assetMember_name, assetMember_owner, assetMember_ctype,
    parseInt64_formatInt k hlo hhi, Option.map_some', Option.bind_eq_bind, CurrencyAsset.zero]
  rfl

theorem lex_marshalAsset {F : Type} (fc : FloatCodec F) (id name owner : Bytes) (k : Int) :
    lex (jsonMarshalAsset fc ⟨id, name, k, owner, none⟩).1
      = some [.lbrace, .str "currid".toList, .colon, .str id, .comma,
          .str "name".toList, .colon, .str name, .comma,
          .str "ctype".toList, .colon, .num (formatInt k), .comma,
          .str "owner".toList, .colon, .str owner, .comma,
          .str "balances".toList, .colon, .nul, .rbrace] := by
  have s1 : ∀ ts, lexRun ⟨ts, .idle⟩ "\x7b\"currid\":".toList
      = ⟨.colon :: .str "currid".toList :: .lbrace :: ts, .idle⟩ := fun _ => rfl
  have s2 : ∀ ts, lexRun ⟨ts, .idle⟩ ",\"name\":".toList
      = ⟨.colon :: .str "name".toList :: .comma :: ts, .idle⟩ := fun _ => rfl
  have s3 : ∀ ts, lexRun ⟨ts, .idle⟩ ",\"ctype\":".toList
      = ⟨.colon :: .str "ctype".toList :: .comma :: ts, .idle⟩ := fun _ => rfl
  have s4 : ∀ ts, lexRun (lexRun ⟨ts, .idle⟩ (formatInt k)) ",\"owner\":".toList
      = ⟨.colon :: .str "owner".toList :: .comma :: .num (formatInt k) :: ts, .idle⟩ := by
    intro ts
    have e : ",\"owner\":".toList = ',' :: "\"owner\":".toList := rfl
    rw [e, lexRun_cons, lexStep_after_formatInt ts k ',' (by decide)]
    rfl
  have s5 : ∀ ts, lexRun ⟨ts, .idle⟩ ",\"balances\":".toList
      = ⟨.colon :: .str "balances".toList :: .comma :: ts, .idle⟩ := fun _ => rfl
  have s6 : ∀ ts, lexRun ⟨ts, .idle⟩ "null".toList = ⟨.nul :: ts, .idle⟩ := fun _ => rfl
  have s7 : ∀ ts, lexRun ⟨ts, .idle⟩ "\x7d".toList = ⟨.rbrace :: ts, .idle⟩ := fun _ => rfl
  unfold lex jsonMarshalAsset encodeBalances
  simp only [lexRun_append, s1, s2, s3, s4, s5, s6, s7, lexRun_quote]
  simp [lexEnd]

/-- Decoding what the encoder wrote for an asset without balances gives the
asset back. -/
theorem unmarshal_marshalAsset {F : Type} (fc : FloatCodec F) (id name owner : Bytes) (k : Int)
    (hlo : -(2 ^ 63) ≤ k) (hhi : k < 2 ^ 63) :
    jsonUnmarshalAsset fc (jsonMarshalAsset fc ⟨id, name, k, owner, none⟩).1
      = some ⟨id, name, k, owner, none⟩ := by
  have hp : parseTokens [.lbrace, .str "currid".toList, .colon, .str id, .comma,
          .str "name".toList, .colon, .str name, .comma,
          .str "ctype".toList, .colon, .num (formatInt k), .comma,
          .str "owner".toList, .colon, .str owner, .comma,
          .str "balances".toList, .colon, .nul, .rbrace]
      = some (.obj [("currid".toList, .str id), ("name".toList, .str name),
          ("ctype".toList, .num (formatInt k)), ("owner".toList, .str owner),
          ("balances".toList, .null)]) := rfl
  unfold jsonUnmarshalAsset parseJSON
  rw [lex_marshalAsset fc id name owner k]
  simp only [Option.some_bind, hp, decodeAsset, List.foldlM_cons, List.foldlM_nil,
    assetMember_currid, assetMember_name, assetMember_owner, assetMember_ctype,
    assetMember_balances_null,
    parseInt64_formatInt k hlo hhi, Option.map_some', Option.bind_eq_bind, CurrencyAsset.zero]
  rfl

/-! ## The JSON text of the catalog -/

theorem lexRun_joinComma (ids : List Bytes) :
    ∀ ts, lexRun ⟨ts, .idle⟩ (joinComma (ids.map quote)) = ⟨(idTokens ids).reverse ++ ts, .idle⟩ := by
  induction ids with
  | nil => intro ts; rfl
  | cons x xs ih =>
    intro ts
    cases xs with
    | nil => simp [joinComma, idTokens, lexRun_quote]
    | cons y ys =>
      have e : joinComma ((x :: y :: ys).map quote)
          = quote x ++ ',' :: joinComma ((y :: ys).map quote) := rfl
      rw [e, lexRun_append, lexRun_quote, lexRun_cons]
      have hc : lexStep ⟨.str x :: ts, .idle⟩ ',' = ⟨.comma :: .str x :: ts, .idle⟩ := rfl
      rw [hc, ih]
      simp [idTokens]

theorem parseRun_cons (st : ParseState) (t : Token) (ts : List Token) :
    parseRun st (t :: ts) = (parseStep st t).bind fun st1 => parseRun st1 ts := by
  simp [parseRun, List.foldlM_cons]

theorem parseRun_append (st : ParseState) (a b : List Token) :
    parseRun st (a ++ b) = (parseRun st a).bind fun st1 => parseRun st1 b := by
  simp [parseRun, List.foldlM_append]

theorem parseRun_idTokens (fs : List Frame) (r : Option JValue) (xs : List Bytes) :
    ∀ (x : Bytes) (acc : List JValue),
      parseRun ⟨.arrValue acc :: fs, r⟩ (idTokens (x :: xs))
        = some ⟨.arrNext (acc ++ (x :: xs).map JValue.str) :: fs, r⟩ := by
  induction xs with
  | nil => intro x acc; rfl
  | cons y ys ih =>
    intro x acc
    have e : idTokens (x :: y :: ys) = .str x :: .comma :: idTokens (y :: ys) := rfl
    have h1 : parseStep ⟨.arrValue acc :: fs, r⟩ (.str x)
        = some ⟨.arrNext (acc ++ [.str x]) :: fs, r⟩ := rfl
    have h2 : parseStep ⟨.arrNext (acc ++ [.str x]) :: fs, r⟩ .comma
        = some ⟨.arrValue (acc ++ [.str x]) :: fs, r⟩ := rfl
    rw [e, parseRun_cons, h1, Option.some_bind, parseRun_cons, h2, Option.some_bind, ih]
    simp

theorem parseRun_idTokens_start (fs : List Frame) (r : Option JValue) (x : Bytes) (xs : List Bytes) :
    parseRun ⟨.arrStart :: fs, r⟩ (idTokens (x :: xs))
      = some ⟨.arrNext ((x :: xs).map JValue.str) :: fs, r⟩ := by
  cases xs with
  | nil => rfl
  | cons y ys =>
    have e : idTokens (x :: y :: ys) = .str x :: .comma :: idTokens (y :: ys) := rfl
    have h1 : parseStep ⟨.arrStart :: fs, r⟩ (.str x) = some ⟨.arrNext [.str x] :: fs, r⟩ := rfl
    have h2 : parseStep ⟨.arrNext [.str x] :: fs, r⟩ .comma
        = some ⟨.arrValue [.str x] :: fs, r⟩ := rfl
    rw [e, parseRun_cons, h1, Option.some_bind, parseRun_cons, h2, Option.some_bind,
      parseRun_idTokens]
    simp

theorem decodeStrings_map_str (ids : List Bytes) :
    ∀ slots, decodeStrings slots (ids.map JValue.str) = some ids := by
  induction ids with
  | nil => intro slots; rfl
  | cons x xs ih => intro slots; simp [decodeStrings, decodeString, ih]

theorem holderMember_ids (hs : CurrencyHolder × List Bytes) (v : JValue) :
    holderMember hs ("ids".toList, v)
      = match v with
        | .arr [] => some (⟨[]⟩, [])
        | .arr (x :: xs) =>
          (decodeStrings hs.2 (x :: xs)).map fun ids => (⟨ids⟩, ids ++ hs.2.drop ids.length)
        | .null => some (⟨[]⟩, [])
        | _ => none := rfl

/-- Decoding what the encoder wrote for a catalog gives the catalog back. -/
theorem unmarshal_marshalHolder (ids : List Bytes) :
    jsonUnmarshalHolder (jsonMarshalHolder ⟨ids⟩).1 = some ⟨ids⟩ := by
  have s1 : ∀ ts, lexRun ⟨ts, .idle⟩ "\x7b\"ids\":".toList
      = ⟨.colon :: .str "ids".toList :: .lbrace :: ts, .idle⟩ := fun _ => rfl
  have s2 : ∀ ts, lexRun ⟨ts, .idle⟩ "\x7d".toList = ⟨.rbrace :: ts, .idle⟩ := fun _ => rfl
  cases ids with
  | nil => rfl
  | cons x xs =>
    have hl : lex (jsonMarshalHolder ⟨x :: xs⟩).1
        = some ([.lbrace, .str "ids".toList, .colon, .lbrack] ++ idTokens (x :: xs)
            ++ [.rbrack, .rbrace]) := by
      have e : (jsonMarshalHolder ⟨x :: xs⟩).1
          = "\x7b\"ids\":".toList
            ++ ('[' :: (joinComma ((x :: xs).map quote) ++ (']' :: "\x7d".toList))) := by
        simp [jsonMarshalHolder, encodeStrings]
      have h3 : ∀ ts, lexStep ⟨ts, .idle⟩ '[' = ⟨.lbrack :: ts, .idle⟩ := fun _ => rfl
      have h4 : ∀ ts, lexStep ⟨ts, .idle⟩ ']' = ⟨.rbrack :: ts, .idle⟩ := fun _ => rfl
      unfold lex
      rw [e, lexRun_append, s1, lexRun_cons, h3, lexRun_append, lexRun_joinComma, lexRun_cons,
        h4, s2]
      simp [lexEnd]
    have hp : parseTokens ([.lbrace, .str "ids".toList, .colon, .lbrack] ++ idTokens (x :: xs)
            ++ [.rbrack, .rbrace])
        = some (.obj [("ids".toList, .arr ((x :: xs).map JValue.str))]) := by
      unfold parseTokens
      rw [parseRun_append, parseRun_append]
      have h1 : parseRun ⟨[], none⟩ [.lbrace, .str "ids".toList, .colon, .lbrack]
          = some ⟨[.arrStart, .objValue [] "ids".toList], none⟩ := rfl
      rw [h1, Option.some_bind, parseRun_idTokens_start, Option.some_bind]
      rfl
    unfold jsonUnmarshalHolder parseJSON
    rw [hl, Option.some_bind, hp, Option.some_bind]
    have hd := decodeStrings_map_str (x :: xs) []
    rw [List.map_cons] at hd
    simp only [decodeHolder, List.foldlM_cons, List.foldlM_nil, holderMember_ids, List.map_cons,
      hd]
    rfl

/-! ## The chaincode, step by step -/

theorem getcallerdata_ok (stub : Stub) (r : Bytes) (h : stub.attrs "role".toList = .ok r) :
    getcallerdata stub = ((getusername stub).1, r, none) := by
  simp only [getcallerdata, checkaffiliation, ReadCertAttribute, h]

theorem getcallerdata_error (stub : Stub) (e : Bytes) (h : stub.attrs "role".toList = .error e) :
    getcallerdata stub
      = ([], [], some ("Couldn\x27t get attribute \x27role\x27. Error: ".toList ++ e)) := by
  simp only [getcallerdata, checkaffiliation, ReadCertAttribute, h]

/-- What `createcurrencyAsset` does, in terms of the decoded asset. -/
theorem createcurrencyAsset_eq {F : Type} (fc : FloatCodec F) (stub : Stub)
    (caller role id name kind owner : Bytes) :
    createcurrencyAsset fc stub caller role id name kind owner
      = match jsonUnmarshalAsset fc (createText id name kind owner) with
        | none => (.error "Invalid JSON object".toList, stub)
        | some a =>
          if stub.state a.CurrId ≠ none then (.error "CurrencyAsset already exists".toList, stub)
          else if role ≠ AUTHORITY then
            (.error ("Permission Denied. create_CurrencyAsset. ".toList ++ role
              ++ " === ".toList ++ AUTHORITY), stub)
          else
            match jsonUnmarshalHolder
                ((storePut stub.state a.CurrId (jsonMarshalAsset fc a).1 "currHolder".toList).getD []) with
            | none =>
              (.error "Corrupt CurrencyHolder record".toList,
                ⟨storePut stub.state a.CurrId (jsonMarshalAsset fc a).1, stub.attrs⟩)
            | some h =>
              (.ok none,
                ⟨storePut (storePut stub.state a.CurrId (jsonMarshalAsset fc a).1)
                  "currHolder".toList (jsonMarshalHolder ⟨h.IDs ++ [id]⟩).1, stub.attrs⟩) := by
  unfold createcurrencyAsset createText
  dsimp only
  generalize jsonUnmarshalAsset fc _ = x
  cases x with
  | none => rfl
  | some a =>
    by_cases h1 : stub.state a.CurrId = none
    · by_cases h2 : role = AUTHORITY
      · simp only [GetState, h1, h2, savechanges, PutState, jsonMarshalAsset, jsonMarshalHolder,
          ne_eq, not_true_eq_false, if_false]
      · simp only [GetState, h1, h2, ne_eq, not_true_eq_false, not_false_eq_true, if_false, if_true]
    · simp only [GetState, h1, ne_eq, not_false_eq_true, if_true]

theorem Invoke_create {F : Type} (fc : FloatCodec F) (stub : Stub) (r a0 a1 a2 a3 : Bytes)
    (rest : List Bytes) (h : stub.attrs "role".toList = .ok r) :
    Invoke fc stub "createCurrencyAsset".toList (a0 :: a1 :: a2 :: a3 :: rest)
      = createcurrencyAsset fc stub (getusername stub).1 r a0 a1 a2 a3 := by
  unfold Invoke
  rw [getcallerdata_ok stub r h]
  simp

theorem storePut_same (s : Store) (k v : Bytes) : storePut s k v k = some v := by
  simp [storePut]

theorem storePut_other (s : Store) (k v x : Bytes) (h : x ≠ k) : storePut s k v x = s x := by
  simp [storePut, h]

theorem Query_getInfo {F : Type} (fc : FloatCodec F) (stub : Stub) (r id : Bytes)
    (h : stub.attrs "role".toList = .ok r) :
    Query fc stub "getCurrencyAssetInfo".toList [id]
      = match retrievecurrencyassetinfo fc stub id with
        | (_, some err) => (.error ("QUERY: Error retrieving currencyAsset ".toList ++ err), stub)
        | (currAsset, none) => (.ok (some (jsonMarshalAsset fc currAsset).1), stub) := by
  unfold Query
  rw [getcallerdata_ok stub r h]
  simp [jsonMarshalAsset, Result.ofPair]

theorem retrieve_of_decoded {F : Type} (fc : FloatCodec F) (stub : Stub) (id bytes : Bytes)
    (a : CurrencyAsset F) (h1 : stub.state id = some bytes)
    (h2 : jsonUnmarshalAsset fc bytes = some a) :
    retrievecurrencyassetinfo fc stub id = (a, none) := by
  simp only [retrievecurrencyassetinfo, GetState, h1, Option.getD_some, h2]

/-- C1. Create/get round trip: on a store where key `id` is absent and the
catalog record decodes, `createCurrencyAsset` with plain `id`, `name`, `owner`
and the decimal text of a 64-bit `kind`, invoked by a regulator, succeeds; a
following `getCurrencyAssetInfo(id)` (by any caller whose role attribute is
readable) returns the encoding of the asset with exactly these four fields
and no balances, and that encoding decodes to this asset. -/
theorem create_then_get_roundtrip {F : Type} (fc : FloatCodec F) (stub : Stub)
    (attrs2 : Bytes → Except Bytes Bytes) (role2 id name owner cat : Bytes) (k : Int)
    (h : CurrencyHolder)
    (hrole : stub.attrs "role".toList = .ok AUTHORITY)
    (hrole2 : attrs2 "role".toList = .ok role2)
    (habs : stub.state id = none)
    (hcat : stub.state "currHolder".toList = some cat)
    (hwf : jsonUnmarshalHolder cat = some h)
    (hid : plain id = true) (hname : plain name = true) (howner : plain owner = true)
    (hlo : -(2 ^ 63) ≤ k) (hhi : k < 2 ^ 63) :
    (Invoke fc stub "createCurrencyAsset".toList [id, name, formatInt k, owner]).1 = .ok none
    ∧ (Query fc ⟨(Invoke fc stub "createCurrencyAsset".toList
          [id, name, formatInt k, owner]).2.state, attrs2⟩ "getCurrencyAssetInfo".toList [id]).1
        = .ok (some (jsonMarshalAsset fc ⟨id, name, k, owner, none⟩).1)
    ∧ jsonUnmarshalAsset fc (jsonMarshalAsset fc ⟨id, name, k, owner, none⟩).1
        = some ⟨id, name, k, owner, none⟩ := by
  have hne : id ≠ "currHolder".toList := by
    intro e; rw [e] at habs; rw [habs] at hcat; exact Option.noConfusion hcat
  have hinv : Invoke fc stub "createCurrencyAsset".toList [id, name, formatInt k, owner]
      = (.ok none, ⟨storePut (storePut stub.state id (jsonMarshalAsset fc ⟨id, name, k, owner, none⟩).1)
          "currHolder".toList (jsonMarshalHolder ⟨h.IDs ++ [id]⟩).1, stub.attrs⟩) := by
    rw [Invoke_create fc stub AUTHORITY id name (formatInt k) owner [] hrole,
      createcurrencyAsset_eq, unmarshal_createText fc id name owner k hid hname howner hlo hhi]
    simp only [habs, ne_eq, not_true_eq_false, if_false, storePut_other _ _ _ _ hne.symm, hcat,
      Option.getD_some, hwf]
  have hrt := unmarshal_marshalAsset fc id name owner k hlo hhi
  refine ⟨by rw [hinv], ?_, hrt⟩
  rw [hinv]
  rw [Query_getInfo fc _ role2 id hrole2,
    retrieve_of_decoded fc _ id (jsonMarshalAsset fc ⟨id, name, k, owner, none⟩).1
      ⟨id, name, k, owner, none⟩ ?_ hrt]
  simp only [storePut_other _ _ _ _ hne, storePut_same]

/-- C1 at a concrete input: a regulator creates `C1` on a fresh ledger. -/
theorem create_then_get_roundtrip_witness :
    (Invoke wholeCodec regulatorStub "createCurrencyAsset".toList
        ["C1".toList, "Gold".toList, formatInt 1, "alice".toList]).1 = .ok none
    ∧ (Query wholeCodec ⟨(Invoke wholeCodec regulatorStub "createCurrencyAsset".toList
          ["C1".toList, "Gold".toList, formatInt 1, "alice".toList]).2.state,
          attrsOf "carol".toList USER⟩ "getCurrencyAssetInfo".toList ["C1".toList]).1
        = .ok (some (jsonMarshalAsset wholeCodec ⟨"C1".toList, "Gold".toList, 1, "alice".toList, none⟩).1)
    ∧ jsonUnmarshalAsset wholeCodec
          (jsonMarshalAsset wholeCodec ⟨"C1".toList, "Gold".toList, 1, "alice".toList, none⟩).1
        = some ⟨"C1".toList, "Gold".toList, 1, "alice".toList, none⟩ :=
  create_then_get_roundtrip wholeCodec regulatorStub (attrsOf "carol".toList USER) USER
    "C1".toList "Gold".toList "alice".toList "\x7b\"ids\":null\x7d".toList 1 ⟨[]⟩
    (by rfl) (by rfl) (by rfl) (by rfl) (by rfl) (by rfl) (by rfl) (by rfl) (by decide) (by decide)

/-! ## Frame lemmas -/

/-- The outcomes of `createcurrencyAsset`: an error that leaves the stub as it
was, an error after the asset record was written (the catalog does not
decode), or success after both writes. -/
theorem createcurrencyAsset_cases {F : Type} (fc : FloatCodec F) (stub : Stub)
    (caller role id name kind owner : Bytes) :
    (∃ msg, createcurrencyAsset fc stub caller role id name kind owner = (.error msg, stub))
    ∨ ∃ a, jsonUnmarshalAsset fc (createText id name kind owner) = some a
        ∧ stub.state a.CurrId = none ∧ role = AUTHORITY
        ∧ ((jsonUnmarshalHolder
              ((storePut stub.state a.CurrId (jsonMarshalAsset fc a).1 "currHolder".toList).getD [])
              = none
            ∧ createcurrencyAsset fc stub caller role id name kind owner
              = (.error "Corrupt CurrencyHolder record".toList,
                  ⟨storePut stub.state a.CurrId (jsonMarshalAsset fc a).1, stub.attrs⟩))
          ∨ ∃ h, jsonUnmarshalHolder
              ((storePut stub.state a.CurrId (jsonMarshalAsset fc a).1 "currHolder".toList).getD [])
              = some h
            ∧ createcurrencyAsset fc stub caller role id name kind owner
              = (.ok none,
                  ⟨storePut (storePut stub.state a.CurrId (jsonMarshalAsset fc a).1)
                    "currHolder".toList (jsonMarshalHolder ⟨h.IDs ++ [id]⟩).1, stub.attrs⟩)) := by
  rw [createcurrencyAsset_eq]
  cases hu : jsonUnmarshalAsset fc (createText id name kind owner) with
  | none => exact Or.inl ⟨_, rfl⟩
  | some a =>
    by_cases h1 : stub.state a.CurrId = none
    · by_cases h2 : role = AUTHORITY
      · right
        refine ⟨a, rfl, h1, h2, ?_⟩
        simp only [h1, h2, ne_eq, not_true_eq_false, if_false]
        cases hh : jsonUnmarshalHolder
            ((storePut stub.state a.CurrId (jsonMarshalAsset fc a).1 "currHolder".toList).getD []) with
        | none => exact Or.inl ⟨rfl, rfl⟩
        | some h => exact Or.inr ⟨h, rfl, rfl⟩
      · left
        simp only [h1, h2, ne_eq, not_true_eq_false, not_false_eq_true, if_false, if_true]
        exact ⟨_, rfl⟩
    · left
      simp only [h1, ne_eq, not_false_eq_true, if_true]
      exact ⟨_, rfl⟩

/-- An invocation of the mutating entry point either leaves the stub as it
was or is a call of `createcurrencyAsset` on the first four arguments. -/
theorem Invoke_cases {F : Type} (fc : FloatCodec F) (stub : Stub) (function : Bytes)
    (args : List Bytes) :
    (Invoke fc stub function args).2 = stub
    ∨ ∃ r a0 a1 a2 a3 rest, function = "createCurrencyAsset".toList
        ∧ args = a0 :: a1 :: a2 :: a3 :: rest ∧ stub.attrs "role".toList = .ok r
        ∧ Invoke fc stub function args
          = createcurrencyAsset fc stub (getusername stub).1 r a0 a1 a2 a3 := by
  cases hr : stub.attrs "role".toList with
  | error e =>
    left
    unfold Invoke
    rw [getcallerdata_error stub e hr]
  | ok r =>
    by_cases hf : function = "createCurrencyAsset".toList
    · subst hf
      match args with
      | a0 :: a1 :: a2 :: a3 :: rest =>
        right
        exact ⟨r, a0, a1, a2, a3, rest, rfl, rfl, rfl, Invoke_create fc stub r a0 a1 a2 a3 rest hr⟩
      | [] => left; unfold Invoke; rw [getcallerdata_ok stub r hr]; simp
      | [_] => left; unfold Invoke; rw [getcallerdata_ok stub r hr]; simp
      | [_, _] => left; unfold Invoke; rw [getcallerdata_ok stub r hr]; simp
      | [_, _, _] => left; unfold Invoke; rw [getcallerdata_ok stub r hr]; simp
    · left
      unfold Invoke
      rw [getcallerdata_ok stub r hr]
      simp only [hf, if_false]
      split_ifs
      · rfl
      · split
        · rfl
        · split <;> rfl

/-- The read-only entry point never changes the stub. -/
theorem Query_stub {F : Type} (fc : FloatCodec F) (stub : Stub) (function : Bytes)
    (args : List Bytes) : (Query fc stub function args).2 = stub := by
  unfold Query
  repeat' split
  all_goals rfl

/-- An invocation of the mutating entry point removes no key. -/
theorem Invoke_keeps_keys {F : Type} (fc : FloatCodec F) (stub : Stub) (function : Bytes)
    (args : List Bytes) (key : Bytes) (h : stub.state key ≠ none) :
    (Invoke fc stub function args).2.state key ≠ none := by
  rcases Invoke_cases fc stub function args with h0 | ⟨r, a0, a1, a2, a3, rest, _, _, _, he⟩
  · rw [h0]; exact h
  · rw [he]
    rcases createcurrencyAsset_cases fc stub (getusername stub).1 r a0 a1 a2 a3 with
      ⟨msg, hm⟩ | ⟨a, _, _, _, ⟨_, hc⟩ | ⟨hh, _, hc⟩⟩
    · rw [hm]; exact h
    · rw [hc]
      show storePut _ _ _ key ≠ none
      unfold storePut
      split_ifs <;> simp [h]
    · rw [hc]
      show storePut (storePut _ _ _) _ _ key ≠ none
      unfold storePut
      split_ifs <;> simp [h]

theorem run_keeps_keys {F : Type} (fc : FloatCodec F) (s : Store) (c : Call) (key : Bytes)
    (h : s key ≠ none) : (c.run fc s).2 key ≠ none := by
  unfold Call.run
  cases c.entry with
  | invoke => exact Invoke_keeps_keys fc ⟨s, c.attrs⟩ c.function c.args key h
  | query => simp only [Query_stub]; exact h

theorem runAll_keeps_keys {F : Type} (fc : FloatCodec F) (cs : List Call) :
    ∀ (s : Store) (key : Bytes), s key ≠ none → runAll fc s cs key ≠ none := by
  induction cs with
  | nil => intro s key h; exact h
  | cons c cs ih => intro s key h; exact ih _ key (run_keeps_keys fc s c key h)

/-- After a successful create with valid arguments the key `id` is present. -/
theorem create_ok_key_present {F : Type} (fc : FloatCodec F) (stub : Stub)
    (id name owner : Bytes) (k : Int)
    (hid : plain id = true) (hname : plain name = true) (howner : plain owner = true)
    (hlo : -(2 ^ 63) ≤ k) (hhi : k < 2 ^ 63)
    (hok : (Invoke fc stub "createCurrencyAsset".toList [id, name, formatInt k, owner]).1 = .ok none) :
    (Invoke fc stub "createCurrencyAsset".toList [id, name, formatInt k, owner]).2.state id ≠ none := by
  cases hr : stub.attrs "role".toList with
  | error e =>
    exfalso
    unfold Invoke at hok
    rw [getcallerdata_error stub e hr] at hok
    exact Result.noConfusion hok
  | ok r =>
    rw [Invoke_create fc stub r id name (formatInt k) owner [] hr] at hok ⊢
    rcases createcurrencyAsset_cases fc stub (getusername stub).1 r id name (formatInt k) owner with
      ⟨msg, hm⟩ | ⟨a, ha, _, _, ⟨_, hc⟩ | ⟨h, _, hc⟩⟩
    · rw [hm] at hok; exact Result.noConfusion hok
    · rw [hc] at hok; exact Result.noConfusion hok
    · rw [unmarshal_createText fc id name owner k hid hname howner hlo hhi] at ha
      obtain rfl := Option.some.inj ha
      rw [hc]
      show storePut (storePut _ id _) _ _ id ≠ none
      by_cases hch : id = "currHolder".toList
      · rw [hch, storePut_same]; simp
      · rw [storePut_other _ _ _ _ hch, storePut_same]; simp

/-- C2 (as amended). Uniqueness for valid arguments: once `createCurrencyAsset`
has succeeded for a plain `id` (with plain name and owner and a decimal
64-bit kind), then after any further invocations a create with the same `id`
and valid name, kind and owner, by a caller of any role, fails with
"CurrencyAsset already exists" and leaves the whole store as it was. -/
theorem create_same_id_again_fails {F : Type} (fc : FloatCodec F) (s0 : Store)
    (attrs1 attrs2 : Bytes → Except Bytes Bytes)
    (role2 id name1 owner1 name2 owner2 : Bytes) (k1 k2 : Int) (calls : List Call)
    (hid : plain id = true)
    (hname1 : plain name1 = true) (howner1 : plain owner1 = true)
    (hlo1 : -(2 ^ 63) ≤ k1) (hhi1 : k1 < 2 ^ 63)
    (hname2 : plain name2 = true) (howner2 : plain owner2 = true)
    (hlo2 : -(2 ^ 63) ≤ k2) (hhi2 : k2 < 2 ^ 63)
    (hfirst : (Invoke fc ⟨s0, attrs1⟩ "createCurrencyAsset".toList
        [id, name1, formatInt k1, owner1]).1 = .ok none)
    (hrole2 : attrs2 "role".toList = .ok role2) :
    Invoke fc ⟨runAll fc (Invoke fc ⟨s0, attrs1⟩ "createCurrencyAsset".toList
          [id, name1, formatInt k1, owner1]).2.state calls, attrs2⟩
        "createCurrencyAsset".toList [id, name2, formatInt k2, owner2]
      = (.error "CurrencyAsset already exists".toList,
          ⟨runAll fc (Invoke fc ⟨s0, attrs1⟩ "createCurrencyAsset".toList
            [id, name1, formatInt k1, owner1]).2.state calls, attrs2⟩) := by
  have h1 := create_ok_key_present fc ⟨s0, attrs1⟩ id name1 owner1 k1 hid hname1 howner1 hlo1 hhi1
    hfirst
  have h2 := runAll_keeps_keys fc calls _ id h1
  rw [Invoke_create fc _ role2 id name2 (formatInt k2) owner2 [] hrole2, createcurrencyAsset_eq,
    unmarshal_createText fc id name2 owner2 k2 hid hname2 howner2 hlo2 hhi2]
  simp only [ne_eq, h2, not_false_eq_true, if_true]

set_option maxRecDepth 100000 in
/-- C2 at a concrete input: `C1` is created, a ping follows, and a user
tries to create `C1` again. -/
theorem create_same_id_again_fails_witness :
    Invoke wholeCodec ⟨runAll wholeCodec (Invoke wholeCodec ⟨emptyLedger, attrsOf "bob".toList AUTHORITY⟩
          "createCurrencyAsset".toList ["C1".toList, "Gold".toList, formatInt 1, "alice".toList]).2.state
          [⟨.invoke, attrsOf "carol".toList USER, "ping".toList, []⟩], attrsOf "carol".toList USER⟩
        "createCurrencyAsset".toList ["C1".toList, "Silver".toList, formatInt 2, "carol".toList]
      = (.error "CurrencyAsset already exists".toList,
          ⟨runAll wholeCodec (Invoke wholeCodec ⟨emptyLedger, attrsOf "bob".toList AUTHORITY⟩
            "createCurrencyAsset".toList ["C1".toList, "Gold".toList, formatInt 1, "alice".toList]).2.state
            [⟨.invoke, attrsOf "carol".toList USER, "ping".toList, []⟩], attrsOf "carol".toList USER⟩) :=
  create_same_id_again_fails wholeCodec emptyLedger (attrsOf "bob".toList AUTHORITY)
    (attrsOf "carol".toList USER) USER "C1".toList "Gold".toList "alice".toList "Silver".toList
    "carol".toList 1 2 [⟨.invoke, attrsOf "carol".toList USER, "ping".toList, []⟩]
    (by decide) (by decide) (by decide) (by decide) (by decide) (by decide) (by decide)
    (by decide) (by decide) (by decide) (by rfl)

set_option maxRecDepth 100000 in
/-- C2 as stated fails: after `C1` was created, a create with the same id `C1`
whose name argument carries a second `currid` member does not fail with
"CurrencyAsset already exists"; it succeeds, writes a record under `C2` and
lists `C1` a second time in the catalog. A create with the same id whose kind
is not a number fails with "Invalid JSON object" instead. -/
theorem create_same_id_again_counterexample :
    (Invoke wholeCodec regulatorStub "createCurrencyAsset".toList createC1).1 = .ok none
    ∧ (Invoke wholeCodec ⟨ledgerC1, attrsOf "bob".toList AUTHORITY⟩ "createCurrencyAsset".toList
        ["C1".toList, "G\", \"currid\":\"C2".toList, "1".toList, "alice".toList]).1 = .ok none
    ∧ ledgerC1 "currHolder".toList = some "\x7b\"ids\":[\"C1\"]\x7d".toList
    ∧ (Invoke wholeCodec ⟨ledgerC1, attrsOf "bob".toList AUTHORITY⟩ "createCurrencyAsset".toList
        ["C1".toList, "G\", \"currid\":\"C2".toList, "1".toList, "alice".toList]).2.state
          "currHolder".toList = some "\x7b\"ids\":[\"C1\",\"C1\"]\x7d".toList
    ∧ ledgerC1 "C2".toList = none
    ∧ (Invoke wholeCodec ⟨ledgerC1, attrsOf "bob".toList AUTHORITY⟩ "createCurrencyAsset".toList
        ["C1".toList, "G\", \"currid\":\"C2".toList, "1".toList, "alice".toList]).2.state
          "C2".toList
        = some "\x7b\"currid\":\"C2\",\"name\":\"G\",\"ctype\":1,\"owner\":\"alice\",\"balances\":null\x7d".toList
    ∧ (Invoke wholeCodec ⟨ledgerC1, attrsOf "bob".toList AUTHORITY⟩ "createCurrencyAsset".toList
        ["C1".toList, "Gold".toList, "one".toList, "alice".toList]).1
        = .error "Invalid JSON object".toList := by
  decide

set_option maxRecDepth 100000 in
/-- C3 at the failing input: a create by a caller of role `user` with a single
argument aborts on `args[1]` instead of returning an error; it writes no
asset record and leaves the catalog record as it was. -/
theorem unauthorized_create_short_args_aborts :
    (Invoke wholeCodec ⟨emptyLedger, attrsOf "eve".toList USER⟩ "createCurrencyAsset".toList
      ["C9".toList]).1 = Result.panic
    ∧ (Invoke wholeCodec ⟨emptyLedger, attrsOf "eve".toList USER⟩ "createCurrencyAsset".toList
      ["C9".toList]).2.state "C9".toList = none
    ∧ (Invoke wholeCodec ⟨emptyLedger, attrsOf "eve".toList USER⟩ "createCurrencyAsset".toList
      ["C9".toList]).2.state "currHolder".toList = emptyLedger "currHolder".toList := by
  decide

/-- An unauthorized create never changes the store, and with at least four
arguments it returns an error. -/
theorem unauthorized_create_frame {F : Type} (fc : FloatCodec F) (stub : Stub) (args : List Bytes)
    (h : stub.attrs "role".toList ≠ .ok AUTHORITY) :
    (Invoke fc stub "createCurrencyAsset".toList args).2 = stub
    ∧ (4 ≤ args.length → ∃ msg, (Invoke fc stub "createCurrencyAsset".toList args).1 = .error msg)
    ∧ (∀ e, stub.attrs "role".toList = .error e →
        ∃ msg, (Invoke fc stub "createCurrencyAsset".toList args).1 = .error msg) := by
  cases hr : stub.attrs "role".toList with
  | error e =>
    have he : Invoke fc stub "createCurrencyAsset".toList args
        = (.error "Error retrieving caller information".toList, stub) := by
      unfold Invoke
      rw [getcallerdata_error stub e hr]
    rw [he]
    exact ⟨rfl, fun _ => ⟨_, rfl⟩, fun _ _ => ⟨_, rfl⟩⟩
  | ok r =>
    have hne : r ≠ AUTHORITY := by
      intro e; rw [e] at hr; exact h hr
    refine ⟨?_, ?_, fun e he => Except.noConfusion he⟩
    · rcases Invoke_cases fc stub "createCurrencyAsset".toList args with
        h0 | ⟨r1, a0, a1, a2, a3, rest, _, _, hr1, he⟩
      · exact h0
      · rw [hr] at hr1
        obtain rfl := Except.ok.inj hr1
        rw [he]
        rcases createcurrencyAsset_cases fc stub (getusername stub).1 r a0 a1 a2 a3 with
          ⟨msg, hm⟩ | ⟨a, _, _, hauth, _⟩
        · rw [hm]
        · exact absurd hauth hne
    · intro hlen
      match args, hlen with
      | a0 :: a1 :: a2 :: a3 :: rest, _ =>
        rw [Invoke_create fc stub r a0 a1 a2 a3 rest hr]
        rcases createcurrencyAsset_cases fc stub (getusername stub).1 r a0 a1 a2 a3 with
          ⟨msg, hm⟩ | ⟨a, _, _, hauth, _⟩
        · exact ⟨msg, by rw [hm]⟩
        · exact absurd hauth hne

/-- C4 (as amended). A denied caller gets the permission error when nothing
blocks the call earlier: for valid arguments and a store with no entry at
key `id`, a create by a caller whose role is any string other than
`regulator` fails with the "Permission Denied" error and leaves the stub as
it was. -/
theorem create_denied_on_free_id {F : Type} (fc : FloatCodec F) (stub : Stub)
    (role id name owner : Bytes) (k : Int)
    (hrole : stub.attrs "role".toList = .ok role) (hne : role ≠ AUTHORITY)
    (habs : stub.state id = none)
    (hid : plain id = true) (hname : plain name = true) (howner : plain owner = true)
    (hlo : -(2 ^ 63) ≤ k) (hhi : k < 2 ^ 63) :
    Invoke fc stub "createCurrencyAsset".toList [id, name, formatInt k, owner]
      = (.error ("Permission Denied. create_CurrencyAsset. ".toList ++ role
          ++ " === ".toList ++ AUTHORITY), stub) := by
  rw [Invoke_create fc stub role id name (formatInt k) owner [] hrole, createcurrencyAsset_eq,
    unmarshal_createText fc id name owner k hid hname howner hlo hhi]
  simp only [habs, ne_eq, not_true_eq_false, if_false, hne, not_false_eq_true, if_true]

/-- C4 at a concrete input: a user tries to create `C9` on a fresh ledger. -/
theorem create_denied_on_free_id_witness :
    Invoke wholeCodec ⟨emptyLedger, attrsOf "eve".toList USER⟩ "createCurrencyAsset".toList
        ["C9".toList, "Gold".toList, formatInt 1, "eve".toList]
      = (.error ("Permission Denied. create_CurrencyAsset. ".toList ++ USER
          ++ " === ".toList ++ AUTHORITY), ⟨emptyLedger, attrsOf "eve".toList USER⟩) :=
  create_denied_on_free_id wholeCodec ⟨emptyLedger, attrsOf "eve".toList USER⟩ USER "C9".toList
    "Gold".toList "eve".toList 1 (by rfl) (by decide) (by rfl) (by decide) (by decide) (by decide)
    (by decide) (by decide)

set_option maxRecDepth 100000 in
/-- C4 as stated fails: a user's create on the existing id `C1` fails with
"CurrencyAsset already exists", and a user's create whose kind is not a
number fails with "Invalid JSON object"; neither is the permission error. -/
theorem create_denied_counterexample :
    (Invoke wholeCodec ⟨ledgerC1, attrsOf "eve".toList USER⟩ "createCurrencyAsset".toList
        createC1).1 = .error "CurrencyAsset already exists".toList
    ∧ (Invoke wholeCodec ⟨emptyLedger, attrsOf "eve".toList USER⟩ "createCurrencyAsset".toList
        ["C9".toList, "Gold".toList, "one".toList, "eve".toList]).1
        = .error "Invalid JSON object".toList := by
  decide

/-! ## The catalog along a sequence of invocations -/

theorem initLoop_other (key : Bytes) :
    ∀ (args : List Bytes) (stub : Stub), key ∉ credNames args →
      (initLoop stub args).2.state key = stub.state key := by
  intro args
  induction args using credNames.induct with
  | case1 name ecert rest ih =>
    intro stub h
    simp only [credNames, List.mem_cons, not_or] at h
    rw [initLoop, ih _ h.2]
    simp only [addecert, PutState]
    exact storePut_other _ _ _ _ h.1
  | case2 args hne =>
    intro stub _
    match args, hne with
    | [], _ => rfl
    | [_], _ => rfl
    | a :: b :: rest, hne => exact absurd rfl (hne a b rest)

theorem Init_catalog (stub : Stub) (function : Bytes) (args : List Bytes)
    (h : "currHolder".toList ∉ credNames args) :
    (Init stub function args).2.state "currHolder".toList = some (jsonMarshalHolder ⟨[]⟩).1 := by
  unfold Init
  simp only [jsonMarshalHolder]
  rw [initLoop_other _ args _ h]
  simp only [PutState]
  exact storePut_same _ _ _

/-- A create on the mutating entry point either returns without success and
leaves the stub as it was, or is a call of `createcurrencyAsset`. -/
theorem Invoke_create_cases {F : Type} (fc : FloatCodec F) (stub : Stub) (args : List Bytes) :
    (∃ res, res.isOk = false ∧ Invoke fc stub "createCurrencyAsset".toList args = (res, stub))
    ∨ ∃ r a0 a1 a2 a3 rest, args = a0 :: a1 :: a2 :: a3 :: rest
        ∧ stub.attrs "role".toList = .ok r
        ∧ Invoke fc stub "createCurrencyAsset".toList args
          = createcurrencyAsset fc stub (getusername stub).1 r a0 a1 a2 a3 := by
  cases hr : stub.attrs "role".toList with
  | error e =>
    left
    refine ⟨.error "Error retrieving caller information".toList, rfl, ?_⟩
    unfold Invoke
    rw [getcallerdata_error stub e hr]
  | ok r =>
    match args with
    | a0 :: a1 :: a2 :: a3 :: rest =>
      right
      exact ⟨r, a0, a1, a2, a3, rest, rfl, rfl, Invoke_create fc stub r a0 a1 a2 a3 rest hr⟩
    | [] => left; refine ⟨.panic, rfl, ?_⟩; unfold Invoke; rw [getcallerdata_ok stub r hr]; simp
    | [_] => left; refine ⟨.panic, rfl, ?_⟩; unfold Invoke; rw [getcallerdata_ok stub r hr]; simp
    | [_, _] => left; refine ⟨.panic, rfl, ?_⟩; unfold Invoke; rw [getcallerdata_ok stub r hr]; simp
    | [_, _, _] =>
      left; refine ⟨.panic, rfl, ?_⟩; unfold Invoke; rw [getcallerdata_ok stub r hr]; simp

/-- An invocation of the mutating entry point under another operation name
leaves the stub as it was. -/
theorem Invoke_other_stub {F : Type} (fc : FloatCodec F) (stub : Stub) (function : Bytes)
    (args : List Bytes) (h : function ≠ "createCurrencyAsset".toList) :
    (Invoke fc stub function args).2 = stub := by
  rcases Invoke_cases fc stub function args with h0 | ⟨_, _, _, _, _, _, hf, _⟩
  · exact h0
  · exact absurd hf h

theorem createdId_query {F : Type} (fc : FloatCodec F) (s : Store)
    (attrs : Bytes → Except Bytes Bytes) (function : Bytes) (args : List Bytes) :
    createdId fc s ⟨.query, attrs, function, args⟩ = [] := by
  simp [createdId, isCreate]

theorem createdId_other {F : Type} (fc : FloatCodec F) (s : Store)
    (attrs : Bytes → Except Bytes Bytes) (function : Bytes) (args : List Bytes)
    (h : function ≠ "createCurrencyAsset".toList) :
    createdId fc s ⟨.invoke, attrs, function, args⟩ = [] := by
  have h1 : isCreate ⟨.invoke, attrs, function, args⟩ = false := by
    simp only [isCreate, h, and_false, decide_False]
  simp only [createdId, h1, Bool.false_eq_true, false_and, if_false]

theorem createdId_create {F : Type} (fc : FloatCodec F) (s : Store)
    (attrs : Bytes → Except Bytes Bytes) (args : List Bytes) :
    createdId fc s ⟨.invoke, attrs, "createCurrencyAsset".toList, args⟩
      = if (Invoke fc ⟨s, attrs⟩ "createCurrencyAsset".toList args).1.isOk = true then
          (args[0]?).toList else [] := by
  have h1 : isCreate ⟨.invoke, attrs, "createCurrencyAsset".toList, args⟩ = true := by
    simp only [isCreate, and_self, decide_True]
  simp only [createdId, h1, true_and, Call.run]

/-- One invocation on a ledger whose catalog record is the encoding of `ids`:
either the ledger stays as it was and no id was created, or the call is a
create that wrote the decoded asset under its `currid` (absent before) and
then the catalog record extended by the id argument. -/
theorem run_step_cases {F : Type} (fc : FloatCodec F) (s : Store) (c : Call) (ids : List Bytes)
    (h : s "currHolder".toList = some (jsonMarshalHolder ⟨ids⟩).1) :
    ((c.run fc s).2 = s ∧ createdId fc s c = [])
    ∨ ∃ a0 a1 a2 a3 rest a, c.args = a0 :: a1 :: a2 :: a3 :: rest ∧ isCreate c = true
        ∧ jsonUnmarshalAsset fc (createText a0 a1 a2 a3) = some a ∧ s a.CurrId = none
        ∧ createdId fc s c = [a0]
        ∧ (c.run fc s).2 = storePut (storePut s a.CurrId (jsonMarshalAsset fc a).1)
            "currHolder".toList (jsonMarshalHolder ⟨ids ++ [a0]⟩).1 := by
  obtain ⟨entry, attrs, function, args⟩ := c
  cases entry with
  | query =>
    left
    rw [createdId_query]
    simp only [Call.run, Query_stub, and_self]
  | invoke =>
    by_cases hf : function = "createCurrencyAsset".toList
    · subst hf
      rcases Invoke_create_cases fc ⟨s, attrs⟩ args with
        ⟨res, hres, he⟩ | ⟨r, a0, a1, a2, a3, rest, hargs, _, he⟩
      · left
        rw [createdId_create, he]
        simp only [hres, Bool.false_eq_true, if_false, Call.run, he, and_self]
      · subst hargs
        rcases createcurrencyAsset_cases fc ⟨s, attrs⟩ (getusername ⟨s, attrs⟩).1 r a0 a1 a2 a3 with
          ⟨msg, hm⟩ | ⟨a, hdecA, habs, _, hcase⟩
        · left
          rw [createdId_create, he, hm]
          simp only [Result.isOk, Bool.false_eq_true, if_false, Call.run, he, hm, and_self]
        · have hne : "currHolder".toList ≠ a.CurrId := by
            intro e
            rw [← e] at habs
            change s "currHolder".toList = none at habs
            rw [habs] at h
            exact Option.noConfusion h
          have hcat : (storePut s a.CurrId (jsonMarshalAsset fc a).1 "currHolder".toList).getD []
              = (jsonMarshalHolder ⟨ids⟩).1 := by
            rw [storePut_other _ _ _ _ hne, h]
            rfl
          change _ ∨ _ at hcase
          rcases hcase with ⟨hbad, _⟩ | ⟨hd, hdec, hc⟩
          · exfalso
            change jsonUnmarshalHolder
              ((storePut s a.CurrId (jsonMarshalAsset fc a).1 "currHolder".toList).getD []) = none
              at hbad
            rw [hcat, unmarshal_marshalHolder] at hbad
            exact Option.noConfusion hbad
          · change jsonUnmarshalHolder
              ((storePut s a.CurrId (jsonMarshalAsset fc a).1 "currHolder".toList).getD [])
                = some hd at hdec
            rw [hcat, unmarshal_marshalHolder] at hdec
            obtain rfl := Option.some.inj hdec
            right
            refine ⟨a0, a1, a2, a3, rest, a, rfl, ?_, hdecA, habs, ?_, ?_⟩
            · simp only [isCreate, and_self, decide_True]
            · rw [createdId_create, he, hc]
              simp only [Result.isOk, if_true, List.getElem?_cons_zero, Option.toList]
            · simp only [Call.run, he, hc]
    · left
      rw [createdId_other fc s attrs function args hf]
      simp only [Call.run, Invoke_other_stub fc ⟨s, attrs⟩ function args hf, and_self]

/-- The catalog record after one invocation. -/
theorem run_catalog {F : Type} (fc : FloatCodec F) (s : Store) (c : Call) (ids : List Bytes)
    (h : s "currHolder".toList = some (jsonMarshalHolder ⟨ids⟩).1) :
    (c.run fc s).2 "currHolder".toList
      = some (jsonMarshalHolder ⟨ids ++ createdId fc s c⟩).1 := by
  rcases run_step_cases fc s c ids h with ⟨h1, h2⟩ | ⟨a0, _, _, _, _, a, _, _, _, _, h2, h1⟩
  · rw [h1, h2, List.append_nil]; exact h
  · rw [h1, h2]; exact storePut_same _ _ _

theorem runAll_catalog {F : Type} (fc : FloatCodec F) (calls : List Call) :
    ∀ (s : Store) (ids : List Bytes), s "currHolder".toList = some (jsonMarshalHolder ⟨ids⟩).1 →
      runAll fc s calls "currHolder".toList
        = some (jsonMarshalHolder ⟨ids ++ createdIds fc s calls⟩).1 := by
  induction calls with
  | nil => intro s ids h; simpa [runAll, createdIds] using h
  | cons c cs ih =>
    intro s ids h
    have h1 := ih _ _ (run_catalog fc s c ids h)
    simpa [runAll, createdIds, List.append_assoc] using h1

/-- C5 (as amended). Catalog content and order: starting from the store
produced by `Init` with credential pairs none of which is named `currHolder`,
after any sequence of invocations the record under `currHolder` decodes to
the id arguments of the successful `createCurrencyAsset` calls, in call
order, and to nothing else. -/
theorem catalog_lists_created_ids {F : Type} (fc : FloatCodec F) (stub : Stub)
    (function : Bytes) (args : List Bytes) (calls : List Call)
    (hnames : "currHolder".toList ∉ credNames args)
    (hinit : (Init stub function args).1 = .ok none) :
    ∃ bytes, runAll fc (Init stub function args).2.state calls "currHolder".toList = some bytes
      ∧ jsonUnmarshalHolder bytes
          = some ⟨createdIds fc (Init stub function args).2.state calls⟩ := by
  have _ := hinit
  have h := runAll_catalog fc calls _ [] (Init_catalog stub function args hnames)
  exact ⟨_, h, by simpa using unmarshal_marshalHolder _⟩

set_option maxRecDepth 100000 in
/-- C5 at a concrete input: two credentials are seeded, then `C1` is created,
created again (refused), `C2` is tried by a user (refused) and `C3` is
created. -/
theorem catalog_lists_created_ids_witness :
    ∃ bytes, runAll wholeCodec
        (Init ⟨fun _ => none, fun _ => .error []⟩ []
          ["alice".toList, "certA".toList, "bob".toList, "certB".toList]).2.state
        [⟨.invoke, attrsOf "bob".toList AUTHORITY, "createCurrencyAsset".toList, createC1⟩,
         ⟨.invoke, attrsOf "bob".toList AUTHORITY, "createCurrencyAsset".toList, createC1⟩,
         ⟨.invoke, attrsOf "eve".toList USER, "createCurrencyAsset".toList,
           ["C2".toList, "Tin".toList, "2".toList, "eve".toList]⟩,
         ⟨.invoke, attrsOf "bob".toList AUTHORITY, "createCurrencyAsset".toList,
           ["C3".toList, "Zinc".toList, "3".toList, "bob".toList]⟩] "currHolder".toList = some bytes
      ∧ jsonUnmarshalHolder bytes
          = some ⟨createdIds wholeCodec
            (Init ⟨fun _ => none, fun _ => .error []⟩ []
              ["alice".toList, "certA".toList, "bob".toList, "certB".toList]).2.state
            [⟨.invoke, attrsOf "bob".toList AUTHORITY, "createCurrencyAsset".toList, createC1⟩,
             ⟨.invoke, attrsOf "bob".toList AUTHORITY, "createCurrencyAsset".toList, createC1⟩,
             ⟨.invoke, attrsOf "eve".toList USER, "createCurrencyAsset".toList,
               ["C2".toList, "Tin".toList, "2".toList, "eve".toList]⟩,
             ⟨.invoke, attrsOf "bob".toList AUTHORITY, "createCurrencyAsset".toList,
               ["C3".toList, "Zinc".toList, "3".toList, "bob".toList]⟩]⟩ :=
  catalog_lists_created_ids wholeCodec ⟨fun _ => none, fun _ => .error []⟩ []
    ["alice".toList, "certA".toList, "bob".toList, "certB".toList] _ (by decide) (by decide)

set_option maxRecDepth 100000 in
/-- C5 as stated fails: a bootstrap whose credential pair is named
`currHolder` leaves the credential text as the catalog record, so before any
create the catalog already decodes to a non-empty list. -/
theorem catalog_counterexample :
    (Init ⟨fun _ => none, fun _ => .error []⟩ []
      ["currHolder".toList, "\x7b\"ids\":[\"ghost\"]\x7d".toList]).1 = .ok none
    ∧ ((Init ⟨fun _ => none, fun _ => .error []⟩ []
        ["currHolder".toList, "\x7b\"ids\":[\"ghost\"]\x7d".toList]).2.state
          "currHolder".toList).bind jsonUnmarshalHolder = some ⟨["ghost".toList]⟩
    ∧ createdIds wholeCodec (Init ⟨fun _ => none, fun _ => .error []⟩ []
        ["currHolder".toList, "\x7b\"ids\":[\"ghost\"]\x7d".toList]).2.state [] = [] := by
  decide

/-! ## Helper lemmas on numbers and records -/

theorem parseInt64_range (lit : Bytes) (k : Int) (h : parseInt64 lit = some k) :
    -(2 ^ 63) ≤ k ∧ k < 2 ^ 63 := by
  unfold parseInt64 at h
  match lit, h with
  | [], h => exact Option.noConfusion h
  | c :: cs, h =>
    simp only at h
    split_ifs at h with hc
    · cases hd : parseDigits cs with
      | none => rw [hd] at h; exact Option.noConfusion h
      | some n =>
        rw [hd] at h
        simp only [Option.some_bind] at h
        split_ifs at h with hn
        obtain rfl := Option.some.inj h
        have : (n : Int) ≤ 2 ^ 63 := by exact_mod_cast hn
        constructor <;> linarith [Int.natCast_nonneg n]
    · cases hd : parseDigits (c :: cs) with
      | none => rw [hd] at h; exact Option.noConfusion h
      | some n =>
        rw [hd] at h
        simp only [Option.some_bind] at h
        split_ifs at h with hn
        obtain rfl := Option.some.inj h
        have : (n : Int) < 2 ^ 63 := by exact_mod_cast hn
        constructor <;> linarith [Int.natCast_nonneg n]

theorem marshalAsset_ne_marshalHolder {F : Type} (fc : FloatCodec F) (a : CurrencyAsset F)
    (h : CurrencyHolder) : (jsonMarshalAsset fc a).1 ≠ (jsonMarshalHolder h).1 := by
  intro e
  simp [jsonMarshalAsset, jsonMarshalHolder] at e

/-! ## Queries -/

theorem Query_getBalance {F : Type} (fc : FloatCodec F) (stub : Stub) (r id holder : Bytes)
    (h : stub.attrs "role".toList = .ok r) :
    Query fc stub "getBalance".toList [id, holder]
      = match retrievecurrencyassetinfo fc stub id with
        | (_, some err) => (.error ("QUERY: Error retrieving currencyAsset ".toList ++ err), stub)
        | (currencyAsset, none) =>
          (.ok (some (jsonMarshalBalance fc
            ⟨holder, mapIndex fc currencyAsset.Balances holder⟩).1), stub) := by
  unfold Query
  rw [getcallerdata_ok stub r h]
  simp [retrievebalance, jsonMarshalBalance]

/-- C7. Balance query: on a store that holds a decodable asset record at key
`id`, `getBalance(id, holder)` by a caller whose role attribute is readable
succeeds and returns the encoded pair of `holder` and the amount `b` found
under `holder` in the asset's balances; `b` is the zero amount when the
balances map is nil or has no key `holder`, and it is the stored amount when
the key is there. -/
theorem getBalance_returns_pair {F : Type} (fc : FloatCodec F) (stub : Stub)
    (role id holder bytes : Bytes) (a : CurrencyAsset F)
    (hrole : stub.attrs "role".toList = .ok role)
    (hrec : stub.state id = some bytes)
    (hdec : jsonUnmarshalAsset fc bytes = some a) :
    Query fc stub "getBalance".toList [id, holder]
      = (.ok (some (jsonMarshalBalance fc ⟨holder, mapIndex fc a.Balances holder⟩).1), stub)
    ∧ (jsonMarshalBalance fc ⟨holder, mapIndex fc a.Balances holder⟩).1
      = "\x7b\"identity\":".toList ++ quote holder ++ ",\"balance\":".toList
          ++ fc.format (mapIndex fc a.Balances holder) ++ "\x7d".toList
    ∧ (a.Balances = none → mapIndex fc a.Balances holder = fc.zero)
    ∧ (∀ m, a.Balances = some m → (∀ kv ∈ m, kv.1 ≠ holder) →
        mapIndex fc a.Balances holder = fc.zero)
    ∧ (∀ m v, a.Balances = some m →
        m.find? (fun kv => decide (kv.1 = holder)) = some (holder, v) →
        mapIndex fc a.Balances holder = v) := by
  refine ⟨?_, rfl, ?_, ?_, ?_⟩
  · rw [Query_getBalance fc stub role id holder hrole, retrieve_of_decoded fc stub id bytes a hrec hdec]
  · intro hn; rw [hn]; rfl
  · intro m hm hkeys
    rw [hm]
    have hf : m.find? (fun kv => decide (kv.1 = holder)) = none := by
      rw [List.find?_eq_none]
      intro kv hkv
      simpa using hkeys kv hkv
    simp only [mapIndex, hf]
  · intro m v hm hf
    rw [hm]
    simp only [mapIndex, hf]

set_option maxRecDepth 100000 in
/-- C7 at a concrete input: the balance of `zed`, who holds nothing, in an
asset whose balances list `alice` only. -/
theorem getBalance_returns_pair_witness :
    Query wholeCodec ⟨ledgerWithBalance, attrsOf "eve".toList USER⟩ "getBalance".toList
        ["C1".toList, "zed".toList]
      = (.ok (some (jsonMarshalBalance wholeCodec ⟨"zed".toList,
          mapIndex wholeCodec (some [("alice".toList, 5)]) "zed".toList⟩).1),
          ⟨ledgerWithBalance, attrsOf "eve".toList USER⟩)
    ∧ mapIndex wholeCodec (some [("alice".toList, (5 : Int))]) "zed".toList = 0
    ∧ mapIndex wholeCodec (some [("alice".toList, (5 : Int))]) "alice".toList = 5 :=
  have h := getBalance_returns_pair wholeCodec ⟨ledgerWithBalance, attrsOf "eve".toList USER⟩ USER
    "C1".toList "zed".toList
    "\x7b\"currid\":\"C1\",\"name\":\"Gold\",\"ctype\":1,\"owner\":\"alice\",\"balances\":\x7b\"alice\":5\x7d\x7d".toList
    ⟨"C1".toList, "Gold".toList, 1, "alice".toList, some [("alice".toList, 5)]⟩
    (by rfl) (by rfl) (by rfl)
  ⟨h.1, by decide, by decide⟩

set_option maxRecDepth 100000 in
/-- C8 at failing inputs: a create with three arguments aborts; a create with
five arguments is carried out; `getecert` without arguments aborts;
`getBalance` with one argument aborts after the asset was read; `ping` with an
argument answers as usual. Only `getCurrencyAssetInfo` reports a wrong
argument count. -/
theorem arity_is_not_checked :
    (Invoke wholeCodec ⟨emptyLedger, attrsOf "bob".toList AUTHORITY⟩ "createCurrencyAsset".toList
        ["C1".toList, "Gold".toList, "1".toList]).1 = .panic
    ∧ (Invoke wholeCodec ⟨emptyLedger, attrsOf "bob".toList AUTHORITY⟩ "createCurrencyAsset".toList
        ["C1".toList, "Gold".toList, "1".toList, "alice".toList, "extra".toList]).1 = .ok none
    ∧ (Query wholeCodec ⟨emptyLedger, attrsOf "bob".toList AUTHORITY⟩ "getecert".toList []).1
        = .panic
    ∧ (Query wholeCodec ⟨ledgerC1, attrsOf "bob".toList AUTHORITY⟩ "getBalance".toList
        ["C1".toList]).1 = .panic
    ∧ (Query wholeCodec ⟨emptyLedger, attrsOf "bob".toList AUTHORITY⟩ "ping".toList
        ["x".toList]).1 = .ok (some "Hello, world!".toList)
    ∧ (Invoke wholeCodec ⟨emptyLedger, attrsOf "bob".toList AUTHORITY⟩ "ping".toList
        ["x".toList]).1 = .ok (some "Hello, world!".toList)
    ∧ (Query wholeCodec ⟨emptyLedger, attrsOf "bob".toList AUTHORITY⟩ "getCurrencyAssetInfo".toList
        []).1 = .error "QUERY: Incorrect number of arguments passed".toList := by
  decide

set_option maxRecDepth 100000 in
/-- C9 at failing inputs: under the unknown operation name `transfer` the
mutating entry point looks up the asset named by its second argument and
returns its encoding as a success; without a second argument it aborts; for
an unknown asset it reports a retrieval error. The error "Error function not
implemented" is never returned. -/
theorem unknown_operation_is_not_rejected :
    (Invoke wholeCodec ⟨ledgerC1, attrsOf "eve".toList USER⟩ "transfer".toList
        ["x".toList, "C1".toList]).1
      = .ok (some "\x7b\"currid\":\"C1\",\"name\":\"Gold\",\"ctype\":1,\"owner\":\"alice\",\"balances\":null\x7d".toList)
    ∧ (Invoke wholeCodec ⟨ledgerC1, attrsOf "eve".toList USER⟩ "transfer".toList []).1 = .panic
    ∧ (Invoke wholeCodec ⟨ledgerC1, attrsOf "eve".toList USER⟩ "transfer".toList
        ["x".toList, "C7".toList]).1 = .error "Error retrieving currencyAsset".toList := by
  decide

/-- Looking up an absent key reports a corrupt record. -/
theorem retrieve_absent {F : Type} (fc : FloatCodec F) (stub : Stub) (id : Bytes)
    (h : stub.state id = none) :
    retrievecurrencyassetinfo fc stub id
      = (CurrencyAsset.zero F, some "RETRIEVE_CURR_ASSET: Corrupt CurrencyAsset record".toList) := by
  have e : jsonUnmarshalAsset fc [] = none := rfl
  simp only [retrievecurrencyassetinfo, GetState, h, Option.getD_none, e, List.append_nil]

set_option maxRecDepth 100000 in
/-- C10 at the failing input: `getCurrencyAssetInfo` on the absent key `C7`
fails with the error of a corrupt record, not with an error of its own; a key
whose entry exists and does not decode fails with the same error text,
followed by the text of the entry. -/
theorem absent_asset_reported_as_corrupt :
    emptyLedger "C7".toList = none
    ∧ (Query wholeCodec ⟨emptyLedger, attrsOf "eve".toList USER⟩ "getCurrencyAssetInfo".toList
        ["C7".toList]).1
      = .error ("QUERY: Error retrieving currencyAsset ".toList
          ++ "RETRIEVE_CURR_ASSET: Corrupt CurrencyAsset record".toList)
    ∧ (Query wholeCodec ⟨storePut emptyLedger "C7".toList "junk".toList, attrsOf "eve".toList USER⟩
        "getCurrencyAssetInfo".toList ["C7".toList]).1
      = .error ("QUERY: Error retrieving currencyAsset ".toList
          ++ "RETRIEVE_CURR_ASSET: Corrupt CurrencyAsset record".toList ++ "junk".toList) := by
  decide

/-! ## Identity resolution -/

/-- C11 (as amended). Identity resolution: `getcallerdata` fails exactly when
reading the `role` attribute fails, with an error that carries the text of the
read error, and then every `Invoke` and `Query` invocation fails with its
identity error and leaves the stub as it was. When the `role` read succeeds
`getcallerdata` succeeds and returns the user name and the role, the user
name being empty when the `username` read failed. -/
theorem getcallerdata_depends_on_role {F : Type} (fc : FloatCodec F) (stub : Stub)
    (function : Bytes) (args : List Bytes) :
    getcallerdata stub
      = (match stub.attrs "role".toList, stub.attrs "username".toList with
        | .error e, _ =>
          ([], [], some ("Couldn\x27t get attribute \x27role\x27. Error: ".toList ++ e))
        | .ok r, .ok u => (u, r, none)
        | .ok r, .error _ => ([], r, none))
    ∧ (match stub.attrs "role".toList with
      | .error e =>
        Invoke fc stub function args
            = (.error "Error retrieving caller information".toList, stub)
          ∧ Query fc stub function args
            = (.error ("QUERY: Error retrieving caller details: ".toList
                ++ ("Couldn\x27t get attribute \x27role\x27. Error: ".toList ++ e)), stub)
      | .ok _ => True) := by
  constructor
  · cases hr : stub.attrs "role".toList with
    | error e => exact getcallerdata_error stub e hr
    | ok r =>
      rw [getcallerdata_ok stub r hr]
      cases hu : stub.attrs "username".toList with
      | error e => simp only [getusername, ReadCertAttribute, hu]
      | ok u => simp only [getusername, ReadCertAttribute, hu]
  · cases hr : stub.attrs "role".toList with
    | error e =>
      refine ⟨?_, ?_⟩
      · unfold Invoke
        rw [getcallerdata_error stub e hr]
      · unfold Query
        rw [getcallerdata_error stub e hr]
    | ok r => trivial

set_option maxRecDepth 100000 in
/-- C11 as stated fails: for a caller whose `username` attribute cannot be
read and whose `role` attribute reads `regulator`, `getcallerdata` succeeds
with an empty user name, `ping` answers on both entry points, and a create
is carried out. -/
theorem getcallerdata_counterexample :
    attrsRoleOnly AUTHORITY "username".toList = .error "attribute not found".toList
    ∧ getcallerdata ⟨emptyLedger, attrsRoleOnly AUTHORITY⟩ = ([], AUTHORITY, none)
    ∧ (Invoke wholeCodec ⟨emptyLedger, attrsRoleOnly AUTHORITY⟩ "ping".toList []).1
        = .ok (some "Hello, world!".toList)
    ∧ (Query wholeCodec ⟨emptyLedger, attrsRoleOnly AUTHORITY⟩ "ping".toList []).1
        = .ok (some "Hello, world!".toList)
    ∧ (Invoke wholeCodec ⟨emptyLedger, attrsRoleOnly AUTHORITY⟩ "createCurrencyAsset".toList
        createC1).1 = .ok none :=
  ⟨rfl, by decide⟩

/-! ## Bootstrap and credentials -/

theorem credNames_pairArgs (ps : List (Bytes × Bytes)) :
    credNames (pairArgs ps) = ps.map Prod.fst := by
  induction ps with
  | nil => rfl
  | cons p rest ih =>
    obtain ⟨n, c⟩ := p
    simp only [pairArgs, credNames, List.map_cons, ih]

theorem initLoop_pairArgs_ok (ps : List (Bytes × Bytes)) :
    ∀ stub : Stub, (initLoop stub (pairArgs ps)).1 = .ok none := by
  induction ps with
  | nil => intro stub; rfl
  | cons p rest ih =>
    intro stub
    obtain ⟨n, c⟩ := p
    simp only [pairArgs, initLoop]
    exact ih _

theorem initLoop_lookup (ps : List (Bytes × Bytes)) :
    ∀ stub : Stub, (ps.map Prod.fst).Nodup → ∀ nc ∈ ps,
      (initLoop stub (pairArgs ps)).2.state nc.1 = some nc.2 := by
  induction ps with
  | nil => intro stub _ nc h; exact absurd h (List.not_mem_nil _)
  | cons p rest ih =>
    intro stub hnd nc hmem
    obtain ⟨n, c⟩ := p
    rw [List.map_cons, List.nodup_cons] at hnd
    simp only [pairArgs, initLoop]
    rcases List.mem_cons.mp hmem with h | h
    · subst h
      have hnot : n ∉ credNames (pairArgs rest) := by
        rw [credNames_pairArgs]; exact hnd.1
      rw [initLoop_other n (pairArgs rest) _ hnot]
      simp only [addecert, PutState]
      exact storePut_same _ _ _
    · exact ih _ hnd.2 nc h

theorem Query_getecert {F : Type} (fc : FloatCodec F) (stub : Stub) (r name : Bytes)
    (rest : List Bytes) (h : stub.attrs "role".toList = .ok r) :
    Query fc stub "getecert".toList (name :: rest) = (.ok (stub.state name), stub) := by
  unfold Query
  rw [getcallerdata_ok stub r h]
  simp [getecert, GetState, Result.ofPair]

/-- C12 (as amended). Credential seeding round trip: for every bootstrap
argument list of (name, credential) pairs whose names are pairwise distinct
and none of which is `currHolder`, `Init` returns normally; afterwards
`getecert(n)` by any caller whose role attribute is readable returns exactly
the credential seeded for `n`, for every pair, and the record under
`currHolder` decodes to the empty catalog. -/
theorem seeded_credentials_read_back {F : Type} (fc : FloatCodec F) (stub : Stub)
    (function : Bytes) (ps : List (Bytes × Bytes))
    (hdistinct : (ps.map Prod.fst).Nodup)
    (hsentinel : "currHolder".toList ∉ ps.map Prod.fst) :
    (Init stub function (pairArgs ps)).1 = .ok none
    ∧ (∀ nc ∈ ps, ∀ (attrs : Bytes → Except Bytes Bytes) (role : Bytes),
        attrs "role".toList = .ok role →
        Query fc ⟨(Init stub function (pairArgs ps)).2.state, attrs⟩ "getecert".toList [nc.1]
          = (.ok (some nc.2), ⟨(Init stub function (pairArgs ps)).2.state, attrs⟩))
    ∧ ∃ cat, (Init stub function (pairArgs ps)).2.state "currHolder".toList = some cat
        ∧ jsonUnmarshalHolder cat = some ⟨[]⟩ := by
  refine ⟨?_, ?_, ?_⟩
  · unfold Init
    simp only [jsonMarshalHolder]
    exact initLoop_pairArgs_ok ps _
  · intro nc hmem attrs role hrole
    rw [Query_getecert fc _ role nc.1 [] hrole]
    have hl : (Init stub function (pairArgs ps)).2.state nc.1 = some nc.2 := by
      unfold Init
      simp only [jsonMarshalHolder]
      exact initLoop_lookup ps _ hdistinct nc hmem
    simp only [hl]
  · refine ⟨_, Init_catalog stub function (pairArgs ps) ?_, unmarshal_marshalHolder []⟩
    rw [credNames_pairArgs]
    exact hsentinel

set_option maxRecDepth 100000 in
/-- C12 at a concrete input: the credentials of `alice` and `bob`. -/
theorem seeded_credentials_read_back_witness :
    (Init ⟨fun _ => none, fun _ => .error []⟩ []
      (pairArgs [("alice".toList, "certA".toList), ("bob".toList, "certB".toList)])).1 = .ok none
    ∧ (∀ nc ∈ [("alice".toList, "certA".toList), ("bob".toList, "certB".toList)],
        ∀ (attrs : Bytes → Except Bytes Bytes) (role : Bytes),
        attrs "role".toList = .ok role →
        Query wholeCodec ⟨(Init ⟨fun _ => none, fun _ => .error []⟩ []
            (pairArgs [("alice".toList, "certA".toList), ("bob".toList, "certB".toList)])).2.state,
            attrs⟩ "getecert".toList [nc.1]
          = (.ok (some nc.2), ⟨(Init ⟨fun _ => none, fun _ => .error []⟩ []
            (pairArgs [("alice".toList, "certA".toList), ("bob".toList, "certB".toList)])).2.state,
            attrs⟩))
    ∧ ∃ cat, (Init ⟨fun _ => none, fun _ => .error []⟩ []
          (pairArgs [("alice".toList, "certA".toList), ("bob".toList, "certB".toList)])).2.state
          "currHolder".toList = some cat
        ∧ jsonUnmarshalHolder cat = some ⟨[]⟩ :=
  seeded_credentials_read_back wholeCodec ⟨fun _ => none, fun _ => .error []⟩ []
    [("alice".toList, "certA".toList), ("bob".toList, "certB".toList)] (by decide) (by decide)

set_option maxRecDepth 100000 in
/-- C12 as stated fails: with the pairwise distinct names `currHolder` and
`alice`, the record under `currHolder` after `Init` is the credential seeded
under that name, which does not decode to a catalog. -/
theorem seeded_credentials_counterexample :
    (Init ⟨fun _ => none, fun _ => .error []⟩ []
      ["currHolder".toList, "certX".toList, "alice".toList, "certA".toList]).1 = .ok none
    ∧ (Init ⟨fun _ => none, fun _ => .error []⟩ []
      ["currHolder".toList, "certX".toList, "alice".toList, "certA".toList]).2.state
        "currHolder".toList = some "certX".toList
    ∧ jsonUnmarshalHolder "certX".toList = none := by
  decide

/-! ## Queries that change nothing -/

set_option maxRecDepth 100000 in
/-- C13 at the failing input: `getecert` on the absent key `zed` returns a
success with no bytes. -/
theorem getecert_absent_succeeds :
    emptyLedger "zed".toList = none
    ∧ (Query wholeCodec ⟨emptyLedger, attrsOf "eve".toList USER⟩ "getecert".toList
        ["zed".toList]).1 = .ok none := by
  decide

/-- C15. The read-only entry point does not mutate: for every operation name,
argument list, caller and store, a `Query` invocation leaves the stub, and so
the key-value store, exactly as it was, whatever its outcome. -/
theorem Query_leaves_store {F : Type} (fc : FloatCodec F) (stub : Stub) (function : Bytes)
    (args : List Bytes) :
    (Query fc stub function args).2.state = stub.state
    ∧ (Query fc stub function args).2 = stub := by
  rw [Query_stub]
  exact ⟨rfl, rfl⟩

theorem Invoke_ping {F : Type} (fc : FloatCodec F) (stub : Stub) (r : Bytes) (args : List Bytes)
    (h : stub.attrs "role".toList = .ok r) :
    Invoke fc stub "ping".toList args = (.ok (some "Hello, world!".toList), stub) := by
  unfold Invoke
  rw [getcallerdata_ok stub r h]
  simp [ping, Result.ofPair]

theorem Query_ping {F : Type} (fc : FloatCodec F) (stub : Stub) (r : Bytes) (args : List Bytes)
    (h : stub.attrs "role".toList = .ok r) :
    Query fc stub "ping".toList args = (.ok (some "Hello, world!".toList), stub) := by
  unfold Query
  rw [getcallerdata_ok stub r h]
  simp [ping, Result.ofPair]

theorem role_readable_of_resolved (stub : Stub) (h : (getcallerdata stub).2.2 = none) :
    ∃ r, stub.attrs "role".toList = .ok r := by
  cases hr : stub.attrs "role".toList with
  | error e =>
    rw [getcallerdata_error stub e hr] at h
    exact Option.noConfusion h
  | ok r => exact ⟨r, rfl⟩

/-- C16. Liveness: on the mutating and on the read-only entry point, for every
caller, argument list and store, when identity resolution succeeds `ping`
returns exactly the bytes "Hello, world!" with no error and leaves the stub as
it was. -/
theorem ping_answers {F : Type} (fc : FloatCodec F) (stub : Stub) (args : List Bytes)
    (hresolved : (getcallerdata stub).2.2 = none) :
    Invoke fc stub "ping".toList args = (.ok (some "Hello, world!".toList), stub)
    ∧ Query fc stub "ping".toList args = (.ok (some "Hello, world!".toList), stub) := by
  obtain ⟨r, hr⟩ := role_readable_of_resolved stub hresolved
  exact ⟨Invoke_ping fc stub r args hr, Query_ping fc stub r args hr⟩

set_option maxRecDepth 100000 in
/-- C16 at a concrete input: a subscriber pings with two stray arguments. -/
theorem ping_answers_witness :
    Invoke wholeCodec ⟨ledgerC1, attrsOf "sue".toList SUBSCRIBER⟩ "ping".toList
        ["a".toList, "b".toList]
      = (.ok (some "Hello, world!".toList), ⟨ledgerC1, attrsOf "sue".toList SUBSCRIBER⟩)
    ∧ Query wholeCodec ⟨ledgerC1, attrsOf "sue".toList SUBSCRIBER⟩ "ping".toList
        ["a".toList, "b".toList]
      = (.ok (some "Hello, world!".toList), ⟨ledgerC1, attrsOf "sue".toList SUBSCRIBER⟩) :=
  ping_answers wholeCodec ⟨ledgerC1, attrsOf "sue".toList SUBSCRIBER⟩
    ["a".toList, "b".toList] (by decide)

/-! ## Creates: step invariant, persisted fields, shared keys -/

/-- A create with valid arguments, in terms of the store. -/
theorem Invoke_create_valid {F : Type} (fc : FloatCodec F) (stub : Stub)
    (role id name owner : Bytes) (k : Int)
    (hrole : stub.attrs "role".toList = .ok role)
    (hid : plain id = true) (hname : plain name = true) (howner : plain owner = true)
    (hlo : -(2 ^ 63) ≤ k) (hhi : k < 2 ^ 63) :
    Invoke fc stub "createCurrencyAsset".toList [id, name, formatInt k, owner]
      = if stub.state id ≠ none then (.error "CurrencyAsset already exists".toList, stub)
        else if role ≠ AUTHORITY then
          (.error ("Permission Denied. create_CurrencyAsset. ".toList ++ role
            ++ " === ".toList ++ AUTHORITY), stub)
        else
          match jsonUnmarshalHolder
              ((storePut stub.state id (jsonMarshalAsset fc ⟨id, name, k, owner, none⟩).1
                "currHolder".toList).getD []) with
          | none =>
            (.error "Corrupt CurrencyHolder record".toList,
              ⟨storePut stub.state id (jsonMarshalAsset fc ⟨id, name, k, owner, none⟩).1,
                stub.attrs⟩)
          | some h =>
            (.ok none,
              ⟨storePut (storePut stub.state id
                  (jsonMarshalAsset fc ⟨id, name, k, owner, none⟩).1)
                "currHolder".toList (jsonMarshalHolder ⟨h.IDs ++ [id]⟩).1, stub.attrs⟩) := by
  rw [Invoke_create fc stub role id name (formatInt k) owner [] hrole, createcurrencyAsset_eq,
    unmarshal_createText fc id name owner k hid hname howner hlo hhi]

/-- C17. Append-only, no-overwrite step: on a store whose catalog record
exists and decodes, every invocation of the mutating entry point (1) keeps
every key that was present, (2) keeps the value of every entry that was
present, the catalog record apart, and (3) either leaves the catalog record
as it was, or is a create that returned success and left a catalog record
that decodes to the former sequence followed by the id argument. -/
theorem invoke_append_only {F : Type} (fc : FloatCodec F) (stub : Stub) (function : Bytes)
    (args : List Bytes) (cat : Bytes) (h : CurrencyHolder)
    (hcat : stub.state "currHolder".toList = some cat)
    (hwf : jsonUnmarshalHolder cat = some h) :
    (∀ key, stub.state key ≠ none → (Invoke fc stub function args).2.state key ≠ none)
    ∧ (∀ key, key ≠ "currHolder".toList → stub.state key ≠ none →
        (Invoke fc stub function args).2.state key = stub.state key)
    ∧ ((Invoke fc stub function args).2.state "currHolder".toList = some cat
      ∨ ∃ id cat1, function = "createCurrencyAsset".toList ∧ args[0]? = some id
          ∧ (Invoke fc stub function args).1 = .ok none
          ∧ (Invoke fc stub function args).2.state "currHolder".toList = some cat1
          ∧ jsonUnmarshalHolder cat1 = some ⟨h.IDs ++ [id]⟩) := by
  refine ⟨fun key hk => Invoke_keeps_keys fc stub function args key hk, ?_, ?_⟩
  · intro key hne hk
    rcases Invoke_cases fc stub function args with h0 | ⟨r, a0, a1, a2, a3, rest, _, _, _, he⟩
    · rw [h0]
    · rw [he]
      rcases createcurrencyAsset_cases fc stub (getusername stub).1 r a0 a1 a2 a3 with
        ⟨msg, hm⟩ | ⟨a, _, habs, _, ⟨_, hc⟩ | ⟨hd, _, hc⟩⟩
      · rw [hm]
      · rw [hc]
        have hka : key ≠ a.CurrId := by
          intro e; rw [e] at hk; exact hk habs
        exact storePut_other _ _ _ _ hka
      · rw [hc]
        have hka : key ≠ a.CurrId := by
          intro e; rw [e] at hk; exact hk habs
        show storePut (storePut _ _ _) _ _ key = _
        rw [storePut_other _ _ _ _ hne, storePut_other _ _ _ _ hka]
  · rcases Invoke_cases fc stub function args with
      h0 | ⟨r, a0, a1, a2, a3, rest, hf, hargs, _, he⟩
    · left; rw [h0]; exact hcat
    · rcases createcurrencyAsset_cases fc stub (getusername stub).1 r a0 a1 a2 a3 with
        ⟨msg, hm⟩ | ⟨a, _, habs, _, hcase⟩
      · left; rw [he, hm]; exact hcat
      · have hne : "currHolder".toList ≠ a.CurrId := by
          intro e; rw [← e, hcat] at habs; exact Option.noConfusion habs
        have hget : (storePut stub.state a.CurrId (jsonMarshalAsset fc a).1
            "currHolder".toList).getD [] = cat := by
          rw [storePut_other _ _ _ _ hne, hcat]; rfl
        rw [hget, hwf] at hcase
        rcases hcase with ⟨hbad, _⟩ | ⟨hd, hdec, hc⟩
        · exact Option.noConfusion hbad
        · obtain rfl := Option.some.inj hdec
          right
          refine ⟨a0, (jsonMarshalHolder ⟨h.IDs ++ [a0]⟩).1, hf, ?_, ?_, ?_,
            unmarshal_marshalHolder _⟩
          · rw [hargs]; rfl
          · rw [he, hc]
          · rw [he, hc]
            dsimp only
            exact storePut_same _ _ _

set_option maxRecDepth 100000 in
/-- C17 at a concrete input: a regulator creates `C2` on the ledger that
holds `C1`. -/
theorem invoke_append_only_witness :
    (∀ key, ledgerC1 key ≠ none →
        (Invoke wholeCodec ⟨ledgerC1, attrsOf "bob".toList AUTHORITY⟩ "createCurrencyAsset".toList
          ["C2".toList, "Tin".toList, "2".toList, "eve".toList]).2.state key ≠ none)
    ∧ (∀ key, key ≠ "currHolder".toList → ledgerC1 key ≠ none →
        (Invoke wholeCodec ⟨ledgerC1, attrsOf "bob".toList AUTHORITY⟩ "createCurrencyAsset".toList
          ["C2".toList, "Tin".toList, "2".toList, "eve".toList]).2.state key = ledgerC1 key)
    ∧ ((Invoke wholeCodec ⟨ledgerC1, attrsOf "bob".toList AUTHORITY⟩ "createCurrencyAsset".toList
          ["C2".toList, "Tin".toList, "2".toList, "eve".toList]).2.state "currHolder".toList
        = some "\x7b\"ids\":[\"C1\"]\x7d".toList
      ∨ ∃ id cat1, "createCurrencyAsset".toList = "createCurrencyAsset".toList
          ∧ ["C2".toList, "Tin".toList, "2".toList, "eve".toList][0]? = some id
          ∧ (Invoke wholeCodec ⟨ledgerC1, attrsOf "bob".toList AUTHORITY⟩
              "createCurrencyAsset".toList
              ["C2".toList, "Tin".toList, "2".toList, "eve".toList]).1 = .ok none
          ∧ (Invoke wholeCodec ⟨ledgerC1, attrsOf "bob".toList AUTHORITY⟩
              "createCurrencyAsset".toList
              ["C2".toList, "Tin".toList, "2".toList, "eve".toList]).2.state "currHolder".toList
            = some cat1
          ∧ jsonUnmarshalHolder cat1
            = some ⟨(⟨["C1".toList]⟩ : CurrencyHolder).IDs ++ [id]⟩) :=
  invoke_append_only wholeCodec ⟨ledgerC1, attrsOf "bob".toList AUTHORITY⟩
    "createCurrencyAsset".toList ["C2".toList, "Tin".toList, "2".toList, "eve".toList]
    "\x7b\"ids\":[\"C1\"]\x7d".toList ⟨["C1".toList]⟩ (by decide) (by decide)

/-- C18 (as amended). Created assets start without balances, for valid
arguments: when `createCurrencyAsset` succeeds on a plain id, name and owner
and a decimal 64-bit kind, the record it persists under the id is the
encoding of the asset with exactly these four fields and nil balances,
written before the catalog record; the encoding decodes to that asset, and
for an id other than `currHolder` it is the entry found under the id
afterwards. -/
theorem created_asset_has_given_fields {F : Type} (fc : FloatCodec F) (stub : Stub)
    (id name owner : Bytes) (k : Int)
    (hid : plain id = true) (hname : plain name = true) (howner : plain owner = true)
    (hlo : -(2 ^ 63) ≤ k) (hhi : k < 2 ^ 63)
    (hok : (Invoke fc stub "createCurrencyAsset".toList [id, name, formatInt k, owner]).1
      = .ok none) :
    (∃ cat1, (Invoke fc stub "createCurrencyAsset".toList [id, name, formatInt k, owner]).2.state
        = storePut (storePut stub.state id (jsonMarshalAsset fc ⟨id, name, k, owner, none⟩).1)
            "currHolder".toList cat1)
    ∧ (id ≠ "currHolder".toList →
        (Invoke fc stub "createCurrencyAsset".toList [id, name, formatInt k, owner]).2.state id
          = some (jsonMarshalAsset fc ⟨id, name, k, owner, none⟩).1)
    ∧ jsonUnmarshalAsset fc (jsonMarshalAsset fc ⟨id, name, k, owner, none⟩).1
        = some ⟨id, name, k, owner, none⟩
    ∧ (jsonMarshalAsset fc ⟨id, name, k, owner, none⟩).1
        = "\x7b\"currid\":".toList ++ quote id ++ ",\"name\":".toList ++ quote name
          ++ ",\"ctype\":".toList ++ formatInt k ++ ",\"owner\":".toList ++ quote owner
          ++ ",\"balances\":null\x7d".toList := by
  have hrt := unmarshal_marshalAsset fc id name owner k hlo hhi
  have htext : (jsonMarshalAsset fc ⟨id, name, k, owner, none⟩).1
        = "\x7b\"currid\":".toList ++ quote id ++ ",\"name\":".toList ++ quote name
          ++ ",\"ctype\":".toList ++ formatInt k ++ ",\"owner\":".toList ++ quote owner
          ++ ",\"balances\":null\x7d".toList := by
    simp [jsonMarshalAsset, encodeBalances]
  cases hr : stub.attrs "role".toList with
  | error e =>
    exfalso
    unfold Invoke at hok
    rw [getcallerdata_error stub e hr] at hok
    exact Result.noConfusion hok
  | ok r =>
    rw [Invoke_create_valid fc stub r id name owner k hr hid hname howner hlo hhi] at hok ⊢
    by_cases h1 : stub.state id ≠ none
    · rw [if_pos h1] at hok; exact Result.noConfusion hok
    · by_cases h2 : r ≠ AUTHORITY
      · rw [if_neg h1, if_pos h2] at hok; exact Result.noConfusion hok
      · rw [if_neg h1, if_neg h2] at hok ⊢
        cases hh : jsonUnmarshalHolder
            ((storePut stub.state id (jsonMarshalAsset fc ⟨id, name, k, owner, none⟩).1
              "currHolder".toList).getD []) with
        | none => rw [hh] at hok; exact Result.noConfusion hok
        | some h =>
          refine ⟨⟨_, rfl⟩, ?_, hrt, htext⟩
          intro hne
          dsimp only
          rw [storePut_other _ _ _ _ hne]
          exact storePut_same _ _ _

set_option maxRecDepth 100000 in
/-- C18 at a concrete input: a regulator creates `C1` on a fresh ledger. -/
theorem created_asset_has_given_fields_witness :
    (∃ cat1, (Invoke wholeCodec regulatorStub "createCurrencyAsset".toList
          ["C1".toList, "Gold".toList, formatInt 1, "alice".toList]).2.state
        = storePut (storePut regulatorStub.state "C1".toList
            (jsonMarshalAsset wholeCodec ⟨"C1".toList, "Gold".toList, 1, "alice".toList, none⟩).1)
            "currHolder".toList cat1)
    ∧ ("C1".toList ≠ "currHolder".toList →
        (Invoke wholeCodec regulatorStub "createCurrencyAsset".toList
          ["C1".toList, "Gold".toList, formatInt 1, "alice".toList]).2.state "C1".toList
          = some (jsonMarshalAsset wholeCodec
              ⟨"C1".toList, "Gold".toList, 1, "alice".toList, none⟩).1)
    ∧ jsonUnmarshalAsset wholeCodec
          (jsonMarshalAsset wholeCodec ⟨"C1".toList, "Gold".toList, 1, "alice".toList, none⟩).1
        = some ⟨"C1".toList, "Gold".toList, 1, "alice".toList, none⟩
    ∧ (jsonMarshalAsset wholeCodec ⟨"C1".toList, "Gold".toList, 1, "alice".toList, none⟩).1
        = "\x7b\"currid\":".toList ++ quote "C1".toList ++ ",\"name\":".toList
          ++ quote "Gold".toList ++ ",\"ctype\":".toList ++ formatInt 1 ++ ",\"owner\":".toList
          ++ quote "alice".toList ++ ",\"balances\":null\x7d".toList :=
  created_asset_has_given_fields wholeCodec regulatorStub "C1".toList "Gold".toList
    "alice".toList 1 (by decide) (by decide) (by decide) (by decide) (by decide) (by decide)

set_option maxRecDepth 100000 in
/-- C18 as stated fails: a kind argument that carries a `balances` member
makes the persisted record hold two balance entries; a kind argument that
carries an `owner` member replaces the owner argument; an id argument with a
unicode escape is stored under, and as, another id. All three creates
succeed. -/
theorem created_asset_counterexample :
    (Invoke wholeCodec regulatorStub "createCurrencyAsset".toList
        ["C3".toList, "G".toList, "1, \"balances\":\x7b\"b\":5,\"a\":7\x7d".toList,
          "alice".toList]).1 = .ok none
    ∧ (Invoke wholeCodec regulatorStub "createCurrencyAsset".toList
        ["C3".toList, "G".toList, "1, \"balances\":\x7b\"b\":5,\"a\":7\x7d".toList,
          "alice".toList]).2.state "C3".toList
        = some "\x7b\"currid\":\"C3\",\"name\":\"G\",\"ctype\":1,\"owner\":\"alice\",\"balances\":\x7b\"a\":7,\"b\":5\x7d\x7d".toList
    ∧ (Invoke wholeCodec regulatorStub "createCurrencyAsset".toList
        ["C4".toList, "G".toList, "1, \"owner\":\"mallory\"".toList, "alice".toList]).1 = .ok none
    ∧ (Invoke wholeCodec regulatorStub "createCurrencyAsset".toList
        ["C4".toList, "G".toList, "1, \"owner\":\"mallory\"".toList, "alice".toList]).2.state
          "C4".toList
        = some "\x7b\"currid\":\"C4\",\"name\":\"G\",\"ctype\":1,\"owner\":\"mallory\",\"balances\":null\x7d".toList
    ∧ (Invoke wholeCodec regulatorStub "createCurrencyAsset".toList
        ["a\\u0062".toList, "G".toList, "1".toList, "alice".toList]).1 = .ok none
    ∧ (Invoke wholeCodec regulatorStub "createCurrencyAsset".toList
        ["a\\u0062".toList, "G".toList, "1".toList, "alice".toList]).2.state "a\\u0062".toList
        = none
    ∧ (Invoke wholeCodec regulatorStub "createCurrencyAsset".toList
        ["a\\u0062".toList, "G".toList, "1".toList, "alice".toList]).2.state "ab".toList
        = some "\x7b\"currid\":\"ab\",\"name\":\"G\",\"ctype\":1,\"owner\":\"alice\",\"balances\":null\x7d".toList := by
  decide

theorem initLoop_keeps_keys (key : Bytes) :
    ∀ (args : List Bytes) (stub : Stub), stub.state key ≠ none →
      (initLoop stub args).2.state key ≠ none := by
  intro args
  induction args using credNames.induct with
  | case1 name ecert rest ih =>
    intro stub h
    rw [initLoop]
    apply ih
    simp only [addecert, PutState, storePut]
    split_ifs <;> simp [h]
  | case2 args hne =>
    intro stub h
    match args, hne with
    | [], _ => exact h
    | [_], _ => exact h
    | a :: b :: rest, hne => exact absurd rfl (hne a b rest)

theorem initLoop_seeds (key : Bytes) :
    ∀ (args : List Bytes) (stub : Stub), key ∈ credNames args →
      (initLoop stub args).2.state key ≠ none := by
  intro args
  induction args using credNames.induct with
  | case1 name ecert rest ih =>
    intro stub h
    rw [initLoop]
    simp only [credNames, List.mem_cons] at h
    rcases h with h | h
    · apply initLoop_keeps_keys
      subst h
      simp only [addecert, PutState, storePut_same]
      simp
    · exact ih _ h
  | case2 args hne =>
    intro stub h
    match args, hne, h with
    | [], _, h => exact absurd h (List.not_mem_nil _)
    | [_], _, h => exact absurd h (List.not_mem_nil _)
    | a :: b :: rest, hne, _ => exact absurd rfl (hne a b rest)

theorem Init_sentinel_present (stub : Stub) (function : Bytes) (args : List Bytes) :
    (Init stub function args).2.state "currHolder".toList ≠ none := by
  unfold Init
  simp only [jsonMarshalHolder]
  apply initLoop_keeps_keys
  simp only [PutState, storePut_same]
  simp

theorem Init_seeds (stub : Stub) (function : Bytes) (args : List Bytes) (u : Bytes)
    (h : u ∈ credNames args) : (Init stub function args).2.state u ≠ none := by
  unfold Init
  simp only [jsonMarshalHolder]
  exact initLoop_seeds u args _ h

/-- A create with valid arguments reports an existing entry exactly when the
store holds one under the id. -/
theorem exists_error_iff {F : Type} (fc : FloatCodec F) (stub : Stub)
    (role id name owner : Bytes) (k : Int)
    (hrole : stub.attrs "role".toList = .ok role)
    (hid : plain id = true) (hname : plain name = true) (howner : plain owner = true)
    (hlo : -(2 ^ 63) ≤ k) (hhi : k < 2 ^ 63) :
    (Invoke fc stub "createCurrencyAsset".toList [id, name, formatInt k, owner]).1
        = .error "CurrencyAsset already exists".toList
      ↔ stub.state id ≠ none := by
  rw [Invoke_create_valid fc stub role id name owner k hrole hid hname howner hlo hhi]
  constructor
  · intro h
    by_cases h1 : stub.state id ≠ none
    · exact h1
    exfalso
    rw [if_neg h1] at h
    by_cases h2 : role ≠ AUTHORITY
    · rw [if_pos h2] at h
      have h3 := Result.error.inj h
      simp at h3
    · rw [if_neg h2] at h
      cases hh : jsonUnmarshalHolder
          ((storePut stub.state id (jsonMarshalAsset fc ⟨id, name, k, owner, none⟩).1
            "currHolder".toList).getD []) with
      | none =>
        rw [hh] at h
        have h3 := Result.error.inj h
        simp at h3
      | some hd =>
        rw [hh] at h
        exact Result.noConfusion h
  · intro h1
    rw [if_pos h1]

/-- C19. Shared key space: for a caller whose role attribute is readable (any
role) and valid name, kind and owner, a create with a plain id returns the
error "CurrencyAsset already exists" exactly when the store holds an entry
under the id, whatever the entry is. In particular, after `Init` seeded a
credential under a plain user name `u`, creates with id `u` and with id
`currHolder` both fail with that error. -/
theorem shared_key_space {F : Type} (fc : FloatCodec F)
    (attrs : Bytes → Except Bytes Bytes) (role name owner : Bytes) (k : Int)
    (hrole : attrs "role".toList = .ok role)
    (hname : plain name = true) (howner : plain owner = true)
    (hlo : -(2 ^ 63) ≤ k) (hhi : k < 2 ^ 63) :
    (∀ (s : Store) (id : Bytes), plain id = true →
      ((Invoke fc ⟨s, attrs⟩ "createCurrencyAsset".toList [id, name, formatInt k, owner]).1
          = .error "CurrencyAsset already exists".toList
        ↔ s id ≠ none))
    ∧ (∀ (stub0 : Stub) (function : Bytes) (args : List Bytes) (u : Bytes),
        u ∈ credNames args → plain u = true →
        (Invoke fc ⟨(Init stub0 function args).2.state, attrs⟩ "createCurrencyAsset".toList
            [u, name, formatInt k, owner]).1 = .error "CurrencyAsset already exists".toList
        ∧ (Invoke fc ⟨(Init stub0 function args).2.state, attrs⟩ "createCurrencyAsset".toList
            ["currHolder".toList, name, formatInt k, owner]).1
          = .error "CurrencyAsset already exists".toList) := by
  refine ⟨?_, ?_⟩
  · intro s id hid
    exact exists_error_iff fc ⟨s, attrs⟩ role id name owner k hrole hid hname howner hlo hhi
  · intro stub0 function args u hu hpu
    refine ⟨?_, ?_⟩
    · exact (exists_error_iff fc ⟨_, attrs⟩ role u name owner k hrole hpu hname howner hlo
        hhi).mpr (Init_seeds stub0 function args u hu)
    · exact (exists_error_iff fc ⟨_, attrs⟩ role "currHolder".toList name owner k hrole
        (by decide) hname howner hlo hhi).mpr (Init_sentinel_present stub0 function args)

set_option maxRecDepth 100000 in
/-- C19 at a concrete input: a user of role `user`, with name `Gold`, kind 1
and owner `alice`. -/
theorem shared_key_space_witness :
    (∀ (s : Store) (id : Bytes), plain id = true →
      ((Invoke wholeCodec ⟨s, attrsOf "eve".toList USER⟩ "createCurrencyAsset".toList
          [id, "Gold".toList, formatInt 1, "alice".toList]).1
          = .error "CurrencyAsset already exists".toList
        ↔ s id ≠ none))
    ∧ (∀ (stub0 : Stub) (function : Bytes) (args : List Bytes) (u : Bytes),
        u ∈ credNames args → plain u = true →
        (Invoke wholeCodec ⟨(Init stub0 function args).2.state, attrsOf "eve".toList USER⟩
            "createCurrencyAsset".toList [u, "Gold".toList, formatInt 1, "alice".toList]).1
          = .error "CurrencyAsset already exists".toList
        ∧ (Invoke wholeCodec ⟨(Init stub0 function args).2.state, attrsOf "eve".toList USER⟩
            "createCurrencyAsset".toList
            ["currHolder".toList, "Gold".toList, formatInt 1, "alice".toList]).1
          = .error "CurrencyAsset already exists".toList) :=
  shared_key_space wholeCodec (attrsOf "eve".toList USER) USER "Gold".toList "alice".toList 1
    (by rfl) (by decide) (by decide) (by decide) (by decide)

/-! ## The chaincode on a store that may refuse a write -/

/-- On the store that accepts every write, `PutStateOn` is `PutState`. -/
theorem PutStateOn_acceptAll (stub : Stub) (key value : Bytes) :
    PutStateOn acceptAll stub key value = PutState stub key value := rfl

theorem addecertOn_acceptAll (stub : Stub) (name ecert : Bytes) :
    addecertOn acceptAll stub name ecert = addecert stub name ecert := rfl

theorem initLoopOn_acceptAll (args : List Bytes) :
    ∀ stub : Stub, initLoopOn acceptAll stub args = initLoop stub args := by
  induction args using credNames.induct with
  | case1 name ecert rest ih =>
    intro stub
    rw [initLoopOn, initLoop, addecertOn_acceptAll, ih]
  | case2 args hne =>
    intro stub
    match args, hne with
    | [], _ => rfl
    | [_], _ => rfl
    | a :: b :: rest, hne => exact absurd rfl (hne a b rest)

/-- On the store that accepts every write, `InitOn` is `Init`. -/
theorem InitOn_acceptAll (stub : Stub) (function : Bytes) (args : List Bytes) :
    InitOn acceptAll stub function args = Init stub function args := by
  unfold InitOn Init
  simp only [jsonMarshalHolder, PutStateOn_acceptAll, initLoopOn_acceptAll]

theorem savechangesOn_acceptAll {F : Type} (fc : FloatCodec F) (stub : Stub)
    (a : CurrencyAsset F) : savechangesOn fc acceptAll stub a = savechanges fc stub a := rfl

theorem createcurrencyAssetOn_acceptAll {F : Type} (fc : FloatCodec F) (stub : Stub)
    (caller role id name kind owner : Bytes) :
    createcurrencyAssetOn fc acceptAll stub caller role id name kind owner
      = createcurrencyAsset fc stub caller role id name kind owner := by
  unfold createcurrencyAssetOn createcurrencyAsset
  simp only [savechangesOn_acceptAll, PutStateOn_acceptAll]

/-- On the store that accepts every write, `InvokeOn` is `Invoke`. -/
theorem InvokeOn_acceptAll {F : Type} (fc : FloatCodec F) (stub : Stub) (function : Bytes)
    (args : List Bytes) : InvokeOn fc acceptAll stub function args = Invoke fc stub function args := by
  unfold InvokeOn Invoke
  simp only [createcurrencyAssetOn_acceptAll]

/-- What `createcurrencyAssetOn` does, in terms of the decoded asset and the
answers of the store. -/
theorem createcurrencyAssetOn_eq {F : Type} (fc : FloatCodec F) (host : Host) (stub : Stub)
    (caller role id name kind owner : Bytes) :
    createcurrencyAssetOn fc host stub caller role id name kind owner
      = match jsonUnmarshalAsset fc (createText id name kind owner) with
        | none => (.error "Invalid JSON object".toList, stub)
        | some a =>
          if stub.state a.CurrId ≠ none then (.error "CurrencyAsset already exists".toList, stub)
          else if role ≠ AUTHORITY then
            (.error ("Permission Denied. create_CurrencyAsset. ".toList ++ role
              ++ " === ".toList ++ AUTHORITY), stub)
          else
            match host a.CurrId (jsonMarshalAsset fc a).1 with
            | some _ => (.error "Error saving changes".toList, stub)
            | none =>
              match jsonUnmarshalHolder
                  ((storePut stub.state a.CurrId (jsonMarshalAsset fc a).1
                    "currHolder".toList).getD []) with
              | none =>
                (.error "Corrupt CurrencyHolder record".toList,
                  ⟨storePut stub.state a.CurrId (jsonMarshalAsset fc a).1, stub.attrs⟩)
              | some h =>
                match host "currHolder".toList (jsonMarshalHolder ⟨h.IDs ++ [id]⟩).1 with
                | some _ =>
                  (.error "Unable to put the state".toList,
                    ⟨storePut stub.state a.CurrId (jsonMarshalAsset fc a).1, stub.attrs⟩)
                | none =>
                  (.ok none,
                    ⟨storePut (storePut stub.state a.CurrId (jsonMarshalAsset fc a).1)
                      "currHolder".toList (jsonMarshalHolder ⟨h.IDs ++ [id]⟩).1, stub.attrs⟩) := by
  unfold createcurrencyAssetOn createText
  dsimp only
  generalize jsonUnmarshalAsset fc _ = x
  cases x with
  | none => rfl
  | some a =>
    by_cases h1 : stub.state a.CurrId = none
    · by_cases h2 : role = AUTHORITY
      · simp only [GetState, h1, h2, ne_eq, not_true_eq_false, if_false, savechangesOn, PutStateOn,
          jsonMarshalAsset, jsonMarshalHolder]
        generalize host a.CurrId _ = r1
        cases r1 with
        | some e => rfl
        | none =>
          simp only []
          generalize jsonUnmarshalHolder _ = r2
          cases r2 with
          | none => rfl
          | some h =>
            simp only []
            generalize host "currHolder".toList _ = r3
            cases r3 with
            | some e => rfl
            | none => rfl
      · simp only [GetState, h1, h2, ne_eq, not_true_eq_false, not_false_eq_true, if_false, if_true]
    · simp only [GetState, h1, ne_eq, not_false_eq_true, if_true]

theorem InvokeOn_create {F : Type} (fc : FloatCodec F) (host : Host) (stub : Stub)
    (r a0 a1 a2 a3 : Bytes) (rest : List Bytes) (h : stub.attrs "role".toList = .ok r) :
    InvokeOn fc host stub "createCurrencyAsset".toList (a0 :: a1 :: a2 :: a3 :: rest)
      = createcurrencyAssetOn fc host stub (getusername stub).1 r a0 a1 a2 a3 := by
  unfold InvokeOn
  rw [getcallerdata_ok stub r h]
  simp

/-- An invocation of the mutating entry point either returns without success
and leaves the stub as it was, or is a call of `createcurrencyAssetOn` on the
first four arguments. -/
theorem InvokeOn_cases {F : Type} (fc : FloatCodec F) (host : Host) (stub : Stub)
    (function : Bytes) (args : List Bytes) :
    ((InvokeOn fc host stub function args).2 = stub
      ∧ (function = "createCurrencyAsset".toList →
          (InvokeOn fc host stub function args).1.isOk = false))
    ∨ ∃ r a0 a1 a2 a3 rest, function = "createCurrencyAsset".toList
        ∧ args = a0 :: a1 :: a2 :: a3 :: rest ∧ stub.attrs "role".toList = .ok r
        ∧ InvokeOn fc host stub function args
          = createcurrencyAssetOn fc host stub (getusername stub).1 r a0 a1 a2 a3 := by
  cases hr : stub.attrs "role".toList with
  | error e =>
    left
    unfold InvokeOn
    rw [getcallerdata_error stub e hr]
    exact ⟨rfl, fun _ => rfl⟩
  | ok r =>
    by_cases hf : function = "createCurrencyAsset".toList
    · subst hf
      match args with
      | a0 :: a1 :: a2 :: a3 :: rest =>
        right
        exact ⟨r, a0, a1, a2, a3, rest, rfl, rfl, rfl, InvokeOn_create fc host stub r a0 a1 a2 a3 rest hr⟩
      | [] => left; unfold InvokeOn; rw [getcallerdata_ok stub r hr]; simp [Result.isOk]
      | [_] => left; unfold InvokeOn; rw [getcallerdata_ok stub r hr]; simp [Result.isOk]
      | [_, _] => left; unfold InvokeOn; rw [getcallerdata_ok stub r hr]; simp [Result.isOk]
      | [_, _, _] => left; unfold InvokeOn; rw [getcallerdata_ok stub r hr]; simp [Result.isOk]
    · left
      refine ⟨?_, fun h => absurd h hf⟩
      unfold InvokeOn
      rw [getcallerdata_ok stub r hr]
      simp only [hf, if_false]
      split_ifs
      · rfl
      · split
        · rfl
        · split <;> rfl

theorem initLoopOn_other (host : Host) (key : Bytes) :
    ∀ (args : List Bytes) (stub : Stub), key ∉ credNames args →
      (initLoopOn host stub args).2.state key = stub.state key := by
  intro args
  induction args using credNames.induct with
  | case1 name ecert rest ih =>
    intro stub h
    simp only [credNames, List.mem_cons, not_or] at h
    rw [initLoopOn, ih _ h.2]
    simp only [addecertOn, PutStateOn]
    cases host name ecert with
    | none => exact storePut_other _ _ _ _ h.1
    | some e => rfl
  | case2 args hne =>
    intro stub _
    match args, hne with
    | [], _ => rfl
    | [_], _ => rfl
    | a :: b :: rest, hne => exact absurd rfl (hne a b rest)

/-- A bootstrap whose write of the catalog record was accepted and whose
credential pairs are not named `currHolder` leaves the empty catalog
record. -/
theorem InitOn_catalog (host : Host) (stub : Stub) (function : Bytes) (args : List Bytes)
    (h : "currHolder".toList ∉ credNames args)
    (hboot : host "currHolder".toList (jsonMarshalHolder ⟨[]⟩).1 = none) :
    (InitOn host stub function args).2.state "currHolder".toList
      = some (jsonMarshalHolder ⟨[]⟩).1 := by
  unfold InitOn
  simp only [jsonMarshalHolder] at hboot ⊢
  rw [initLoopOn_other _ _ args _ h]
  simp only [PutStateOn, hboot]
  exact storePut_same _ _ _

/-! ## What the decoder leaves in an asset -/

theorem mapSet_mem {F : Type} (kvs : List (Bytes × F)) (key : Bytes) (v : F) (kv : Bytes × F)
    (h : kv ∈ mapSet kvs key v) : kv = (key, v) ∨ kv ∈ kvs := by
  induction kvs with
  | nil =>
    simp only [mapSet, List.mem_singleton] at h
    exact Or.inl h
  | cons x rest ih =>
    simp only [mapSet] at h
    split_ifs at h with hx
    · rcases List.mem_cons.mp h with h | h
      · exact Or.inl h
      · exact Or.inr (List.mem_cons_of_mem _ h)
    · rcases List.mem_cons.mp h with h | h
      · exact Or.inr (h ▸ List.mem_cons_self _ _)
      · rcases ih h with h | h
        · exact Or.inl h
        · exact Or.inr (List.mem_cons_of_mem _ h)

theorem decodeMapMembers_produced {F : Type} (fc : FloatCodec F) (kvs : List (Bytes × JValue)) :
    ∀ (m m1 : List (Bytes × F)), (∀ kv ∈ m, fc.Produced kv.2) →
      decodeMapMembers fc m kvs = some m1 → ∀ kv ∈ m1, fc.Produced kv.2 := by
  induction kvs with
  | nil =>
    intro m m1 hm h
    simp only [decodeMapMembers] at h
    obtain rfl := Option.some.inj h
    exact hm
  | cons x rest ih =>
    intro m m1 hm h
    obtain ⟨k, v⟩ := x
    cases v with
    | num lit =>
      simp only [decodeMapMembers] at h
      cases hp : fc.parse lit with
      | none => rw [hp] at h; exact Option.noConfusion h
      | some y =>
        rw [hp] at h
        refine ih _ _ ?_ h
        intro kv hkv
        rcases mapSet_mem m k y kv hkv with e | e
        · rw [e]; exact Or.inr ⟨lit, hp⟩
        · exact hm kv e
    | null =>
      simp only [decodeMapMembers] at h
      refine ih _ _ ?_ h
      intro kv hkv
      rcases mapSet_mem m k fc.zero kv hkv with e | e
      · rw [e]; exact Or.inl rfl
      · exact hm kv e
    | bool b => simp only [decodeMapMembers] at h; exact Option.noConfusion h
    | str s => simp only [decodeMapMembers] at h; exact Option.noConfusion h
    | arr xs => simp only [decodeMapMembers] at h; exact Option.noConfusion h
    | obj o => simp only [decodeMapMembers] at h; exact Option.noConfusion h

theorem assetMember_decodable {F : Type} (fc : FloatCodec F) (a a1 : CurrencyAsset F)
    (kv : Bytes × JValue) (ha : Decodable fc a) (h : assetMember fc a kv = some a1) :
    Decodable fc a1 := by
  unfold assetMember at h
  split_ifs at h
  · obtain ⟨s, _, rfl⟩ := Option.map_eq_some'.mp h
    exact ha
  · obtain ⟨s, _, rfl⟩ := Option.map_eq_some'.mp h
    exact ha
  · obtain ⟨i, hi, rfl⟩ := Option.map_eq_some'.mp h
    refine ⟨?_, ha.2⟩
    cases hv : kv.2 with
    | num lit =>
      rw [hv] at hi
      exact parseInt64_range lit i hi
    | null =>
      rw [hv] at hi
      simp only [decodeInt] at hi
      obtain rfl := Option.some.inj hi
      exact ha.1
    | bool b => rw [hv] at hi; exact Option.noConfusion hi
    | str s => rw [hv] at hi; exact Option.noConfusion hi
    | arr xs => rw [hv] at hi; exact Option.noConfusion hi
    | obj o => rw [hv] at hi; exact Option.noConfusion hi
  · obtain ⟨s, _, rfl⟩ := Option.map_eq_some'.mp h
    exact ha
  · obtain ⟨m, hm, rfl⟩ := Option.map_eq_some'.mp h
    refine ⟨ha.1, ?_⟩
    intro m1 hm1
    simp only at hm1
    subst hm1
    cases hv : kv.2 with
    | obj o =>
      rw [hv] at hm
      simp only [decodeBalances] at hm
      obtain ⟨m2, hm2, e⟩ := Option.map_eq_some'.mp hm
      obtain rfl := Option.some.inj e
      refine decodeMapMembers_produced fc o _ _ ?_ hm2
      intro kv1 hkv1
      cases hb : a.Balances with
      | none => rw [hb] at hkv1; exact absurd hkv1 (List.not_mem_nil _)
      | some m0 => rw [hb] at hkv1; exact ha.2 m0 hb kv1 hkv1
    | null => rw [hv] at hm; exact Option.noConfusion (Option.some.inj hm)
    | bool b => rw [hv] at hm; exact Option.noConfusion hm
    | str s => rw [hv] at hm; exact Option.noConfusion hm
    | arr xs => rw [hv] at hm; exact Option.noConfusion hm
    | num lit => rw [hv] at hm; exact Option.noConfusion hm
  · obtain rfl := Option.some.inj h
    exact ha

theorem foldl_assetMember_decodable {F : Type} (fc : FloatCodec F)
    (kvs : List (Bytes × JValue)) :
    ∀ (a a1 : CurrencyAsset F), Decodable fc a → kvs.foldlM (assetMember fc) a = some a1 →
      Decodable fc a1 := by
  induction kvs with
  | nil =>
    intro a a1 ha h
    simp only [List.foldlM_nil] at h
    obtain rfl := Option.some.inj h
    exact ha
  | cons kv rest ih =>
    intro a a1 ha h
    rw [List.foldlM_cons] at h
    cases hm : assetMember fc a kv with
    | none => rw [hm] at h; exact Option.noConfusion h
    | some a2 =>
      rw [hm] at h
      exact ih a2 a1 (assetMember_decodable fc a a2 kv ha hm) h

theorem zero_decodable {F : Type} (fc : FloatCodec F) : Decodable fc (CurrencyAsset.zero F) := by
  refine ⟨⟨by simp [CurrencyAsset.zero], by simp [CurrencyAsset.zero]⟩, ?_⟩
  intro m hm
  exact Option.noConfusion hm

/-- Whatever text an asset is decoded from, its kind is a 64-bit integer and
its amounts are amounts that the decoder can store. -/
theorem unmarshal_decodable {F : Type} (fc : FloatCodec F) (data : Bytes) (a : CurrencyAsset F)
    (h : jsonUnmarshalAsset fc data = some a) : Decodable fc a := by
  unfold jsonUnmarshalAsset at h
  cases hp : parseJSON data with
  | none => rw [hp] at h; exact Option.noConfusion h
  | some v =>
    rw [hp, Option.some_bind] at h
    cases v with
    | obj kvs => exact foldl_assetMember_decodable fc kvs _ _ (zero_decodable fc) h
    | null =>
      simp only [decodeAsset] at h
      obtain rfl := Option.some.inj h
      exact zero_decodable fc
    | bool b => exact Option.noConfusion h
    | str s => exact Option.noConfusion h
    | arr xs => exact Option.noConfusion h
    | num lit => exact Option.noConfusion h

/-! ## Reading back the record of an asset with balances -/

theorem lexRun_entries {F : Type} (fc : FloatCodec F) (hlaw : fc.ReadsBack)
    (L : List (Bytes × F)) :
    (∀ kv ∈ L, fc.Produced kv.2) → ∀ (ts : List Token) (rest : Bytes),
      lexRun ⟨ts, .idle⟩
          (joinComma (L.map fun kv => quote kv.1 ++ ':' :: fc.format kv.2) ++ '}' :: rest)
        = lexRun ⟨.rbrace :: ((entryTokens fc L).reverse ++ ts), .idle⟩ rest := by
  induction L with
  | nil => intro _ ts rest; rfl
  | cons x xs ih =>
    intro hL ts rest
    have hx := hlaw x.2 (hL x (List.mem_cons_self _ _))
    have hc : ∀ ts1, lexStep ⟨ts1, .idle⟩ ':' = ⟨.colon :: ts1, .idle⟩ := fun _ => rfl
    cases xs with
    | nil =>
      have e : joinComma ([x].map fun kv => quote kv.1 ++ ':' :: fc.format kv.2) ++ '}' :: rest
          = quote x.1 ++ (':' :: (fc.format x.2 ++ '}' :: rest)) := by
        simp [joinComma]
      rw [e, lexRun_append, lexRun_quote, lexRun_cons, hc, hx.2 _ '}' rest (by decide)]
      simp [entryTokens, idleStep, isSpace]
    | cons y ys =>
      have e : joinComma ((x :: y :: ys).map fun kv => quote kv.1 ++ ':' :: fc.format kv.2)
            ++ '}' :: rest
          = quote x.1 ++ (':' :: (fc.format x.2 ++ ',' ::
              (joinComma ((y :: ys).map fun kv => quote kv.1 ++ ':' :: fc.format kv.2)
                ++ '}' :: rest))) := by
        simp [joinComma]
      have hcomma : ∀ ts1, idleStep ts1 ',' = ⟨.comma :: ts1, .idle⟩ := fun _ => rfl
      rw [e, lexRun_append, lexRun_quote, lexRun_cons, hc, hx.2 _ ',' _ (by decide), hcomma,
        ih (fun kv hkv => hL kv (List.mem_cons_of_mem _ hkv))]
      simp [entryTokens]

theorem parseRun_entryTokens {F : Type} (fc : FloatCodec F) (fs : List Frame)
    (r : Option JValue) (xs : List (Bytes × F)) :
    ∀ (x : Bytes × F) (acc : List (Bytes × JValue)),
      parseRun ⟨.objKey acc :: fs, r⟩ (entryTokens fc (x :: xs))
        = some ⟨.objNext (acc ++ (x :: xs).map fun kv => (kv.1, JValue.num (fc.format kv.2)))
            :: fs, r⟩ := by
  induction xs with
  | nil => intro x acc; rfl
  | cons y ys ih =>
    intro x acc
    have e : entryTokens fc (x :: y :: ys)
        = [.str x.1, .colon, .num (fc.format x.2), .comma] ++ entryTokens fc (y :: ys) := rfl
    have h1 : parseRun ⟨.objKey acc :: fs, r⟩ [.str x.1, .colon, .num (fc.format x.2), .comma]
        = some ⟨.objKey (acc ++ [(x.1, JValue.num (fc.format x.2))]) :: fs, r⟩ := rfl
    rw [e, parseRun_append, h1, Option.some_bind, ih]
    simp

theorem parseRun_entryTokens_start {F : Type} (fc : FloatCodec F) (fs : List Frame)
    (r : Option JValue) (x : Bytes × F) (xs : List (Bytes × F)) :
    parseRun ⟨.objStart :: fs, r⟩ (entryTokens fc (x :: xs))
      = some ⟨.objNext ((x :: xs).map fun kv => (kv.1, JValue.num (fc.format kv.2)))
          :: fs, r⟩ := by
  cases xs with
  | nil => rfl
  | cons y ys =>
    have e : entryTokens fc (x :: y :: ys)
        = [.str x.1, .colon, .num (fc.format x.2), .comma] ++ entryTokens fc (y :: ys) := rfl
    have h1 : parseRun ⟨.objStart :: fs, r⟩ [.str x.1, .colon, .num (fc.format x.2), .comma]
        = some ⟨.objKey [(x.1, JValue.num (fc.format x.2))] :: fs, r⟩ := rfl
    rw [e, parseRun_append, h1, Option.some_bind, parseRun_entryTokens]
    simp

theorem decodeMapMembers_entries {F : Type} (fc : FloatCodec F) (hlaw : fc.ReadsBack)
    (L : List (Bytes × F)) :
    (∀ kv ∈ L, fc.Produced kv.2) → ∀ m0 : List (Bytes × F),
      ∃ m, decodeMapMembers fc m0 (L.map fun kv => (kv.1, JValue.num (fc.format kv.2)))
        = some m := by
  induction L with
  | nil => intro _ m0; exact ⟨m0, rfl⟩
  | cons x xs ih =>
    intro hL m0
    obtain ⟨y, hy⟩ := (hlaw x.2 (hL x (List.mem_cons_self _ _))).1
    obtain ⟨m, hm⟩ := ih (fun kv hkv => hL kv (List.mem_cons_of_mem _ hkv)) (mapSet m0 x.1 y)
    refine ⟨m, ?_⟩
    simp only [List.map_cons, decodeMapMembers, hy]
    exact hm

theorem assetMember_balances_obj {F : Type} (fc : FloatCodec F) (a : CurrencyAsset F)
    (kvs : List (Bytes × JValue)) :
    assetMember fc a ("balances".toList, .obj kvs)
      = (decodeMapMembers fc (a.Balances.getD []) kvs).map fun m => { a with Balances := some m } := by
  have e : assetMember fc a ("balances".toList, .obj kvs)
      = (decodeBalances fc a.Balances (.obj kvs)).map fun m => { a with Balances := m } := rfl
  rw [e]
  simp only [decodeBalances, Option.map_map]
  rfl

theorem lex_marshalAsset_balances {F : Type} (fc : FloatCodec F) (hlaw : fc.ReadsBack)
    (id name owner : Bytes) (k : Int) (m : List (Bytes × F))
    (hm : ∀ kv ∈ m, fc.Produced kv.2) :
    lex (jsonMarshalAsset fc ⟨id, name, k, owner, some m⟩).1
      = some ([.lbrace, .str "currid".toList, .colon, .str id, .comma,
          .str "name".toList, .colon, .str name, .comma,
          .str "ctype".toList, .colon, .num (formatInt k), .comma,
          .str "owner".toList, .colon, .str owner, .comma,
          .str "balances".toList, .colon, .lbrace]
          ++ entryTokens fc (m.insertionSort (fun a b => keyLe a.1 b.1 = true))
          ++ [.rbrace, .rbrace]) := by
  have s1 : ∀ ts, lexRun ⟨ts, .idle⟩ "\x7b\"currid\":".toList
      = ⟨.colon :: .str "currid".toList :: .lbrace :: ts, .idle⟩ := fun _ => rfl
  have s2 : ∀ ts, lexRun ⟨ts, .idle⟩ ",\"name\":".toList
      = ⟨.colon :: .str "name".toList :: .comma :: ts, .idle⟩ := fun _ => rfl
  have s3 : ∀ ts, lexRun ⟨ts, .idle⟩ ",\"ctype\":".toList
      = ⟨.colon :: .str "ctype".toList :: .comma :: ts, .idle⟩ := fun _ => rfl
  have s4 : ∀ ts, lexRun (lexRun ⟨ts, .idle⟩ (formatInt k)) ",\"owner\":".toList
      = ⟨.colon :: .str "owner".toList :: .comma :: .num (formatInt k) :: ts, .idle⟩ := by
    intro ts
    have e : ",\"owner\":".toList = ',' :: "\"owner\":".toList := rfl
    rw [e, lexRun_cons, lexStep_after_formatInt ts k ',' (by decide)]
    rfl
  have s5 : ∀ ts, lexRun ⟨ts, .idle⟩ ",\"balances\":".toList
      = ⟨.colon :: .str "balances".toList :: .comma :: ts, .idle⟩ := fun _ => rfl
  have s6 : ∀ ts, lexStep ⟨ts, .idle⟩ '{' = ⟨.lbrace :: ts, .idle⟩ := fun _ => rfl
  have s7 : ∀ ts, lexRun ⟨ts, .idle⟩ "\x7d".toList = ⟨.rbrace :: ts, .idle⟩ := fun _ => rfl
  have hs : ∀ kv ∈ m.insertionSort (fun a b => keyLe a.1 b.1 = true), fc.Produced kv.2 :=
    fun kv hkv => hm kv ((List.perm_insertionSort _ m).mem_iff.mp hkv)
  have e : (jsonMarshalAsset fc ⟨id, name, k, owner, some m⟩).1
      = "\x7b\"currid\":".toList ++ (quote id ++ (",\"name\":".toList ++ (quote name
        ++ (",\"ctype\":".toList ++ (formatInt k ++ (",\"owner\":".toList ++ (quote owner
        ++ (",\"balances\":".toList ++ ('{' :: (joinComma
          ((m.insertionSort (fun a b => keyLe a.1 b.1 = true)).map
            fun kv => quote kv.1 ++ ':' :: fc.format kv.2) ++ '}' :: "\x7d".toList)))))))))) := by
    simp [jsonMarshalAsset, encodeBalances]
  unfold lex
  rw [e]
  simp only [lexRun_append, s1, s2, s3, s4, s5, lexRun_quote]
  rw [lexRun_cons, s6, lexRun_entries fc hlaw _ hs, s7]
  simp [lexEnd]

/-- Decoding what the encoder wrote for an asset that the decoder can leave
succeeds and gives an asset with the same id. -/
theorem unmarshal_marshal_decodable {F : Type} (fc : FloatCodec F) (hlaw : fc.ReadsBack)
    (a : CurrencyAsset F) (ha : Decodable fc a) :
    ∃ a1, jsonUnmarshalAsset fc (jsonMarshalAsset fc a).1 = some a1 ∧ a1.CurrId = a.CurrId := by
  obtain ⟨id, name, k, owner, bal⟩ := a
  obtain ⟨⟨hlo, hhi⟩, hbal⟩ := ha
  cases bal with
  | none => exact ⟨_, unmarshal_marshalAsset fc id name owner k hlo hhi, rfl⟩
  | some m =>
    have hm : ∀ kv ∈ m, fc.Produced kv.2 := hbal m rfl
    have hs : ∀ kv ∈ m.insertionSort (fun a b => keyLe a.1 b.1 = true), fc.Produced kv.2 :=
      fun kv hkv => hm kv ((List.perm_insertionSort _ m).mem_iff.mp hkv)
    obtain ⟨m1, hm1⟩ := decodeMapMembers_entries fc hlaw _ hs []
    refine ⟨⟨id, name, k, owner, some m1⟩, ?_, rfl⟩
    have hp : parseTokens ([.lbrace, .str "currid".toList, .colon, .str id, .comma,
          .str "name".toList, .colon, .str name, .comma,
          .str "ctype".toList, .colon, .num (formatInt k), .comma,
          .str "owner".toList, .colon, .str owner, .comma,
          .str "balances".toList, .colon, .lbrace]
          ++ entryTokens fc (m.insertionSort (fun a b => keyLe a.1 b.1 = true))
          ++ [.rbrace, .rbrace])
        = some (.obj [("currid".toList, .str id), ("name".toList, .str name),
            ("ctype".toList, .num (formatInt k)), ("owner".toList, .str owner),
            ("balances".toList, .obj ((m.insertionSort (fun a b => keyLe a.1 b.1 = true)).map
              fun kv => (kv.1, JValue.num (fc.format kv.2))))]) := by
      unfold parseTokens
      rw [parseRun_append, parseRun_append]
      have h1 : parseRun ⟨[], none⟩ [.lbrace, .str "currid".toList, .colon, .str id, .comma,
          .str "name".toList, .colon, .str name, .comma,
          .str "ctype".toList, .colon, .num (formatInt k), .comma,
          .str "owner".toList, .colon, .str owner, .comma,
          .str "balances".toList, .colon, .lbrace]
          = some ⟨[.objStart, .objValue [("currid".toList, .str id), ("name".toList, .str name),
              ("ctype".toList, .num (formatInt k)), ("owner".toList, .str owner)]
              "balances".toList], none⟩ := rfl
      rw [h1, Option.some_bind]
      cases hL : m.insertionSort (fun a b => keyLe a.1 b.1 = true) with
      | nil => rfl
      | cons x xs =>
        rw [parseRun_entryTokens_start, Option.some_bind]
        rfl
    unfold jsonUnmarshalAsset parseJSON
    rw [lex_marshalAsset_balances fc hlaw id name owner k m hm, Option.some_bind, hp,
      Option.some_bind]
    simp only [decodeAsset, List.foldlM_cons, List.foldlM_nil,
      assetMember_currid, assetMember_name, assetMember_owner, assetMember_ctype,
      assetMember_balances_obj, parseInt64_formatInt k hlo hhi, Option.map_some',
      Option.bind_eq_bind, Option.some_bind, CurrencyAsset.zero, Option.getD_none, hm1]
    rfl

/-! ## Cataloged ids and their asset records -/

/-- The codec for whole amounts obeys the law of the amount codec. -/
theorem wholeCodec_readsBack : wholeCodec.ReadsBack := by
  intro x hx
  have hr : -(2 ^ 63) ≤ x ∧ x < 2 ^ 63 := by
    rcases hx with h | ⟨lit, h⟩
    · rw [h]; exact ⟨by decide, by decide⟩
    · exact parseInt64_range lit x h
  exact ⟨⟨x, parseInt64_formatInt x hr.1 hr.2⟩, fun ts t rest ht => lexRun_formatInt ts x t rest ht⟩

theorem parse_marshalHolder (ids : List Bytes) :
    ∃ v, parseJSON (jsonMarshalHolder ⟨ids⟩).1 = some (.obj [("ids".toList, v)]) := by
  have s1 : ∀ ts, lexRun ⟨ts, .idle⟩ "\x7b\"ids\":".toList
      = ⟨.colon :: .str "ids".toList :: .lbrace :: ts, .idle⟩ := fun _ => rfl
  have s2 : ∀ ts, lexRun ⟨ts, .idle⟩ "\x7d".toList = ⟨.rbrace :: ts, .idle⟩ := fun _ => rfl
  cases ids with
  | nil => exact ⟨.null, rfl⟩
  | cons x xs =>
    have hl : lex (jsonMarshalHolder ⟨x :: xs⟩).1
        = some ([.lbrace, .str "ids".toList, .colon, .lbrack] ++ idTokens (x :: xs)
            ++ [.rbrack, .rbrace]) := by
      have e : (jsonMarshalHolder ⟨x :: xs⟩).1
          = "\x7b\"ids\":".toList
            ++ ('[' :: (joinComma ((x :: xs).map quote) ++ (']' :: "\x7d".toList))) := by
        simp [jsonMarshalHolder, encodeStrings]
      have h3 : ∀ ts, lexStep ⟨ts, .idle⟩ '[' = ⟨.lbrack :: ts, .idle⟩ := fun _ => rfl
      have h4 : ∀ ts, lexStep ⟨ts, .idle⟩ ']' = ⟨.rbrack :: ts, .idle⟩ := fun _ => rfl
      unfold lex
      rw [e, lexRun_append, s1, lexRun_cons, h3, lexRun_append, lexRun_joinComma, lexRun_cons,
        h4, s2]
      simp [lexEnd]
    have hp : parseTokens ([.lbrace, .str "ids".toList, .colon, .lbrack] ++ idTokens (x :: xs)
            ++ [.rbrack, .rbrace])
        = some (.obj [("ids".toList, .arr ((x :: xs).map JValue.str))]) := by
      unfold parseTokens
      rw [parseRun_append, parseRun_append]
      have h1 : parseRun ⟨[], none⟩ [.lbrace, .str "ids".toList, .colon, .lbrack]
          = some ⟨[.arrStart, .objValue [] "ids".toList], none⟩ := rfl
      rw [h1, Option.some_bind, parseRun_idTokens_start, Option.some_bind]
      rfl
    refine ⟨.arr ((x :: xs).map JValue.str), ?_⟩
    unfold parseJSON
    rw [hl, Option.some_bind, hp]

/-- Read as an asset, a catalog record gives the zero asset: it has no member
that an asset field is read from. -/
theorem unmarshalAsset_marshalHolder {F : Type} (fc : FloatCodec F) (ids : List Bytes) :
    jsonUnmarshalAsset fc (jsonMarshalHolder ⟨ids⟩).1 = some (CurrencyAsset.zero F) := by
  obtain ⟨v, hv⟩ := parse_marshalHolder ids
  unfold jsonUnmarshalAsset
  rw [hv, Option.some_bind]
  rfl

theorem resolves_catalog {F : Type} (fc : FloatCodec F) (s : Store) (ids : List Bytes)
    (h : s "currHolder".toList = some (jsonMarshalHolder ⟨ids⟩).1) :
    resolves fc s "currHolder".toList = false := by
  unfold resolves
  rw [h]
  simp only [unmarshalAsset_marshalHolder, decide_eq_false_iff_not]
  intro e
  have e2 : ([] : Bytes) = "currHolder".toList := e
  exact absurd e2 (by decide)

theorem resolves_present {F : Type} (fc : FloatCodec F) (s : Store) (id : Bytes)
    (h : resolves fc s id = true) : s id ≠ none := by
  intro e
  unfold resolves at h
  rw [e] at h
  exact Bool.noConfusion h

theorem resolves_congr {F : Type} (fc : FloatCodec F) (s s1 : Store) (id : Bytes)
    (h : s1 id = s id) : resolves fc s1 id = resolves fc s id := by
  unfold resolves
  rw [h]

/-- A record written for a decoded asset resolves under the asset's id. -/
theorem resolves_written {F : Type} (fc : FloatCodec F) (hlaw : fc.ReadsBack) (s : Store)
    (text : Bytes) (a : CurrencyAsset F) (hdec : jsonUnmarshalAsset fc text = some a)
    (h : s a.CurrId = some (jsonMarshalAsset fc a).1) : resolves fc s a.CurrId = true := by
  obtain ⟨a1, h1, h2⟩ := unmarshal_marshal_decodable fc hlaw a (unmarshal_decodable fc text a hdec)
  unfold resolves
  rw [h]
  simp only [h1, h2, decide_True]

/-- What `getCurrencyAssetInfo` returns on an id that resolves. -/
theorem Query_resolved {F : Type} (fc : FloatCodec F) (s : Store)
    (attrs : Bytes → Except Bytes Bytes) (role id : Bytes)
    (hrole : attrs "role".toList = .ok role) (h : resolves fc s id = true) :
    ∃ (bytes : Bytes) (a : CurrencyAsset F), s id = some bytes
      ∧ jsonUnmarshalAsset fc bytes = some a ∧ a.CurrId = id
      ∧ (Query fc ⟨s, attrs⟩ "getCurrencyAssetInfo".toList [id]).1
          = .ok (some (jsonMarshalAsset fc a).1) := by
  unfold resolves at h
  cases hs : s id with
  | none => rw [hs] at h; exact Bool.noConfusion h
  | some bytes =>
    rw [hs] at h
    dsimp only at h
    cases hd : jsonUnmarshalAsset fc bytes with
    | none => rw [hd] at h; exact Bool.noConfusion h
    | some a =>
      rw [hd] at h
      simp only [decide_eq_true_eq] at h
      refine ⟨bytes, a, rfl, hd, h, ?_⟩
      rw [Query_getInfo fc ⟨s, attrs⟩ role id hrole,
        retrieve_of_decoded fc ⟨s, attrs⟩ id bytes a hs hd]

/-- One create on a ledger whose catalog record is the encoding of `ids`:
it fails and leaves the ledger as it was; or it writes the decoded asset
under its `currid`, absent before, and fails at the write of the catalog
record; or it succeeds after both writes. -/
theorem createOn_step {F : Type} (fc : FloatCodec F) (host : Host) (s : Store)
    (attrs : Bytes → Except Bytes Bytes) (caller role a0 a1 a2 a3 : Bytes) (ids : List Bytes)
    (hcat : s "currHolder".toList = some (jsonMarshalHolder ⟨ids⟩).1) :
    ((createcurrencyAssetOn fc host ⟨s, attrs⟩ caller role a0 a1 a2 a3).1.isOk = false
      ∧ (createcurrencyAssetOn fc host ⟨s, attrs⟩ caller role a0 a1 a2 a3).2.state = s)
    ∨ ∃ a, jsonUnmarshalAsset fc (createText a0 a1 a2 a3) = some a ∧ s a.CurrId = none
        ∧ (((createcurrencyAssetOn fc host ⟨s, attrs⟩ caller role a0 a1 a2 a3).1.isOk = false
            ∧ (createcurrencyAssetOn fc host ⟨s, attrs⟩ caller role a0 a1 a2 a3).2.state
                = storePut s a.CurrId (jsonMarshalAsset fc a).1)
          ∨ ((createcurrencyAssetOn fc host ⟨s, attrs⟩ caller role a0 a1 a2 a3).1 = .ok none
            ∧ (createcurrencyAssetOn fc host ⟨s, attrs⟩ caller role a0 a1 a2 a3).2.state
                = storePut (storePut s a.CurrId (jsonMarshalAsset fc a).1)
                    "currHolder".toList (jsonMarshalHolder ⟨ids ++ [a0]⟩).1)) := by
  rw [createcurrencyAssetOn_eq]
  cases hdec : jsonUnmarshalAsset fc (createText a0 a1 a2 a3) with
  | none => exact Or.inl ⟨rfl, rfl⟩
  | some a =>
    by_cases h1 : s a.CurrId = none
    · by_cases h2 : role = AUTHORITY
      · simp only [h1, h2, ne_eq, not_true_eq_false, if_false]
        cases hh1 : host a.CurrId (jsonMarshalAsset fc a).1 with
        | some e => exact Or.inl ⟨rfl, rfl⟩
        | none =>
          have hne : "currHolder".toList ≠ a.CurrId := by
            intro e
            rw [← e] at h1
            rw [h1] at hcat
            exact Option.noConfusion hcat
          simp only [storePut_other _ _ _ _ hne, hcat, Option.getD_some, unmarshal_marshalHolder]
          right
          refine ⟨a, rfl, h1, ?_⟩
          cases hh2 : host "currHolder".toList (jsonMarshalHolder ⟨ids ++ [a0]⟩).1 with
          | some e => exact Or.inl ⟨rfl, rfl⟩
          | none => exact Or.inr ⟨rfl, rfl⟩
      · left
        simp only [h1, h2, ne_eq, not_true_eq_false, not_false_eq_true, if_false, if_true]
        exact ⟨by trivial, by trivial⟩
    · left
      simp only [h1, ne_eq, not_false_eq_true, if_true]
      exact ⟨by trivial, by trivial⟩

/-- One invocation keeps the catalog and the asset records in step, whether
it succeeds, fails before its first write or fails between its two writes,
provided that it meets the demand `keepsCatalog`. -/
theorem run_keeps_resolving {F : Type} (fc : FloatCodec F) (hlaw : fc.ReadsBack) (s : Store)
    (c : HostCall) (ids : List Bytes)
    (hcat : s "currHolder".toList = some (jsonMarshalHolder ⟨ids⟩).1)
    (hres : ∀ id ∈ ids, resolves fc s id = true)
    (hk : keepsCatalog fc s c = true) :
    ∃ ids1, (c.run fc s).2 "currHolder".toList = some (jsonMarshalHolder ⟨ids1⟩).1
      ∧ ∀ id ∈ ids1, resolves fc (c.run fc s).2 id = true := by
  obtain ⟨host, ⟨entry, attrs, function, args⟩⟩ := c
  cases entry with
  | query =>
    refine ⟨ids, ?_, ?_⟩
    · simp only [HostCall.run, Query_stub]; exact hcat
    · simp only [HostCall.run, Query_stub]; exact hres
  | invoke =>
    rcases InvokeOn_cases fc host ⟨s, attrs⟩ function args with
      ⟨h0, _⟩ | ⟨r, a0, a1, a2, a3, rest, hf, hargs, _, he⟩
    · refine ⟨ids, ?_, ?_⟩
      · simp only [HostCall.run, h0]; exact hcat
      · simp only [HostCall.run, h0]; exact hres
    · subst hf hargs
      have hkeep : ∀ (a : CurrencyAsset F) (s1 : Store), s a.CurrId = none →
          (∀ x, x ≠ a.CurrId → x ≠ "currHolder".toList → s1 x = s x) →
          ∀ id, resolves fc s id = true → resolves fc s1 id = true := by
        intro a s1 habs hs1 id hid
        have hne1 : id ≠ a.CurrId := by
          intro e
          rw [e] at hid
          exact resolves_present fc s _ hid habs
        have hne2 : id ≠ "currHolder".toList := by
          intro e
          rw [e, resolves_catalog fc s ids hcat] at hid
          exact Bool.noConfusion hid
        rw [resolves_congr fc s s1 id (hs1 id hne1 hne2)]
        exact hid
      rcases createOn_step fc host s attrs (getusername ⟨s, attrs⟩).1 r a0 a1 a2 a3 ids hcat with
        ⟨_, hst⟩ | ⟨a, hdec, habs, ⟨_, hst⟩ | ⟨hok, hst⟩⟩
      · refine ⟨ids, ?_, ?_⟩
        · simp only [HostCall.run, he, hst]; exact hcat
        · simp only [HostCall.run, he, hst]; exact hres
      · have hne : "currHolder".toList ≠ a.CurrId := by
          intro e
          rw [← e] at habs
          rw [habs] at hcat
          exact Option.noConfusion hcat
        refine ⟨ids, ?_, ?_⟩
        · simp only [HostCall.run, he, hst]
          rw [storePut_other _ _ _ _ hne]
          exact hcat
        · simp only [HostCall.run, he, hst]
          intro id hid
          exact hkeep a _ habs (fun x hx _ => storePut_other _ _ _ _ hx) id (hres id hid)
      · have hne : "currHolder".toList ≠ a.CurrId := by
          intro e
          rw [← e] at habs
          rw [habs] at hcat
          exact Option.noConfusion hcat
        have hold : ∀ id, resolves fc s id = true →
            resolves fc (storePut (storePut s a.CurrId (jsonMarshalAsset fc a).1)
              "currHolder".toList (jsonMarshalHolder ⟨ids ++ [a0]⟩).1) id = true := by
          intro id hid
          refine hkeep a _ habs ?_ id hid
          intro x hx1 hx2
          rw [storePut_other _ _ _ _ hx2, storePut_other _ _ _ _ hx1]
        refine ⟨ids ++ [a0], ?_, ?_⟩
        · simp only [HostCall.run, he, hst]
          exact storePut_same _ _ _
        · simp only [HostCall.run, he, hst]
          intro id hid
          rcases List.mem_append.mp hid with hin | hin
          · exact hold id (hres id hin)
          · obtain rfl : id = a0 := by simpa using hin
            have hcr : isCreate ⟨.invoke, attrs, "createCurrencyAsset".toList,
                id :: a1 :: a2 :: a3 :: rest⟩ = true := by
              simp only [isCreate, and_self, decide_True]
            have hrun : (HostCall.run fc s ⟨host, ⟨.invoke, attrs, "createCurrencyAsset".toList,
                id :: a1 :: a2 :: a3 :: rest⟩⟩).1.isOk = true := by
              simp only [HostCall.run, he, hok, Result.isOk]
            simp only [keepsCatalog, hcr, hrun, Bool.and_self, Bool.not_true, Bool.false_or,
              Bool.or_eq_true, storesUnderId, hdec, decide_eq_true_eq, List.headD_cons] at hk
            rcases hk with hk | hk
            · have hw : resolves fc (storePut s a.CurrId (jsonMarshalAsset fc a).1) a.CurrId
                  = true :=
                resolves_written fc hlaw _ _ a hdec (storePut_same _ _ _)
              rw [← hk]
              rw [resolves_congr fc (storePut s a.CurrId (jsonMarshalAsset fc a).1) _ a.CurrId
                (storePut_other _ _ _ _ hne.symm)]
              exact hw
            · exact hold id hk

theorem runAllOn_keeps_resolving {F : Type} (fc : FloatCodec F) (hlaw : fc.ReadsBack)
    (calls : List HostCall) :
    ∀ (s : Store) (ids : List Bytes), s "currHolder".toList = some (jsonMarshalHolder ⟨ids⟩).1 →
      (∀ id ∈ ids, resolves fc s id = true) → keepCatalog fc s calls = true →
      ∃ ids1, runAllOn fc s calls "currHolder".toList = some (jsonMarshalHolder ⟨ids1⟩).1
        ∧ ∀ id ∈ ids1, resolves fc (runAllOn fc s calls) id = true := by
  induction calls with
  | nil => intro s ids hcat hres _; exact ⟨ids, hcat, hres⟩
  | cons c cs ih =>
    intro s ids hcat hres hk
    simp only [keepCatalog, Bool.and_eq_true] at hk
    obtain ⟨ids1, hcat1, hres1⟩ := run_keeps_resolving fc hlaw s c ids hcat hres hk.1
    exact ih _ ids1 hcat1 hres1 hk.2

/-- The demand `keepsCatalog` is no more than is needed: an invocation that
does not meet it, on a ledger whose catalog record is the encoding of a
catalog, leaves a catalog that lists an id which does not resolve. -/
theorem keepsCatalog_needed {F : Type} (fc : FloatCodec F) (s : Store) (c : HostCall)
    (ids : List Bytes) (hcat : s "currHolder".toList = some (jsonMarshalHolder ⟨ids⟩).1)
    (hk : keepsCatalog fc s c = false) :
    ∃ ids1 id, (c.run fc s).2 "currHolder".toList = some (jsonMarshalHolder ⟨ids1⟩).1
      ∧ id ∈ ids1 ∧ resolves fc (c.run fc s).2 id = false := by
  obtain ⟨host, ⟨entry, attrs, function, args⟩⟩ := c
  simp only [keepsCatalog, Bool.or_eq_false_iff, Bool.not_eq_false', Bool.and_eq_true] at hk
  obtain ⟨⟨⟨hcr, hok⟩, hsu⟩, hnr⟩ := hk
  simp only [isCreate, decide_eq_true_eq] at hcr
  obtain ⟨he1, he2⟩ := hcr
  subst he1 he2
  simp only [HostCall.run] at hok ⊢
  rcases InvokeOn_cases fc host ⟨s, attrs⟩ "createCurrencyAsset".toList args with
    ⟨_, h0⟩ | ⟨r, a0, a1, a2, a3, rest, _, hargs, _, he⟩
  · rw [h0 rfl] at hok
    exact Bool.noConfusion hok
  · subst hargs
    rw [he] at hok ⊢
    rcases createOn_step fc host s attrs (getusername ⟨s, attrs⟩).1 r a0 a1 a2 a3 ids hcat with
      ⟨hf, _⟩ | ⟨a, hdec, habs, ⟨hf, _⟩ | ⟨_, hst⟩⟩
    · rw [hf] at hok
      exact Bool.noConfusion hok
    · rw [hf] at hok
      exact Bool.noConfusion hok
    · rw [hst]
      refine ⟨ids ++ [a0], a0, storePut_same _ _ _, by simp, ?_⟩
      simp only [storesUnderId, hdec, decide_eq_false_iff_not] at hsu
      simp only [List.headD_cons] at hnr
      by_cases hc : a0 = "currHolder".toList
      · rw [hc]
        exact resolves_catalog fc _ (ids ++ ["currHolder".toList]) (storePut_same _ _ _)
      · rw [resolves_congr fc s _ a0 (by
          rw [storePut_other _ _ _ _ hc, storePut_other _ _ _ _ (fun e => hsu e.symm)])]
        exact hnr

/-- C6 (as amended). No dangling catalog entry, on a store that may refuse
any write. Start from the store left by a bootstrap that left the empty
catalog record (its write of the record was accepted and no credential
replaced it), and run any sequence of mutating and read-only invocations,
each on a store with its own answers to writes, so that an invocation may
fail before, at or between its writes. Suppose that every
`createCurrencyAsset` of the sequence that succeeds stores its asset under
its id argument (the `currid` decoded from the text built from the arguments
is the id argument) or names an id that resolves already; calls that fail
and calls that are no create are not restricted. Then the catalog record
exists and decodes, and every identifier it lists has under it a record that
decodes to an asset with that id: `getCurrencyAssetInfo` on it, by any caller
whose role attribute is readable, returns the encoding of that asset, which
decodes to an asset with that id. The amount codec is assumed to read back
what it writes. -/
theorem cataloged_ids_resolve {F : Type} (fc : FloatCodec F) (host0 : Host) (stub : Stub)
    (function : Bytes) (args : List Bytes) (calls : List HostCall)
    (hlaw : fc.ReadsBack)
    (hcat0 : (InitOn host0 stub function args).2.state "currHolder".toList
      = some (jsonMarshalHolder ⟨[]⟩).1)
    (hkeep : keepCatalog fc (InitOn host0 stub function args).2.state calls = true) :
    ∃ (cat : Bytes) (h : CurrencyHolder),
      runAllOn fc (InitOn host0 stub function args).2.state calls "currHolder".toList = some cat
      ∧ jsonUnmarshalHolder cat = some h
      ∧ ∀ id ∈ h.IDs, ∀ (attrs : Bytes → Except Bytes Bytes) (role : Bytes),
          attrs "role".toList = .ok role →
          ∃ (bytes : Bytes) (a a1 : CurrencyAsset F),
            runAllOn fc (InitOn host0 stub function args).2.state calls id = some bytes
            ∧ jsonUnmarshalAsset fc bytes = some a ∧ a.CurrId = id
            ∧ (Query fc ⟨runAllOn fc (InitOn host0 stub function args).2.state calls, attrs⟩
                "getCurrencyAssetInfo".toList [id]).1 = .ok (some (jsonMarshalAsset fc a).1)
            ∧ jsonUnmarshalAsset fc (jsonMarshalAsset fc a).1 = some a1 ∧ a1.CurrId = id := by
  obtain ⟨ids, hcat, hres⟩ := runAllOn_keeps_resolving fc hlaw calls _ [] hcat0
    (fun id hid => absurd hid (List.not_mem_nil _)) hkeep
  refine ⟨_, _, hcat, unmarshal_marshalHolder _, ?_⟩
  intro id hid attrs role hrole
  obtain ⟨bytes, a, hs, hd, hi, hq⟩ := Query_resolved fc _ attrs role id hrole (hres id hid)
  obtain ⟨a1, h1, h2⟩ := unmarshal_marshal_decodable fc hlaw a (unmarshal_decodable fc bytes a hd)
  exact ⟨bytes, a, a1, hs, hd, hi, hq, h1, h2.trans hi⟩

set_option maxRecDepth 100000 in
/-- C6 at a concrete input: the bootstrap runs on a store that refuses the
credential and accepts the catalog record, and is followed by the
invocations of `scenario`, two of which fail at a write. -/
theorem cataloged_ids_resolve_witness :
    ∃ (cat : Bytes) (h : CurrencyHolder),
      runAllOn wholeCodec
          (InitOn (refuseKey "alice".toList) ⟨fun _ => none, fun _ => .error []⟩ []
            ["alice".toList, "certA".toList]).2.state scenario "currHolder".toList = some cat
      ∧ jsonUnmarshalHolder cat = some h
      ∧ ∀ id ∈ h.IDs, ∀ (attrs : Bytes → Except Bytes Bytes) (role : Bytes),
          attrs "role".toList = .ok role →
          ∃ (bytes : Bytes) (a a1 : CurrencyAsset Int),
            runAllOn wholeCodec
                (InitOn (refuseKey "alice".toList) ⟨fun _ => none, fun _ => .error []⟩ []
                  ["alice".toList, "certA".toList]).2.state scenario id = some bytes
            ∧ jsonUnmarshalAsset wholeCodec bytes = some a ∧ a.CurrId = id
            ∧ (Query wholeCodec ⟨runAllOn wholeCodec
                (InitOn (refuseKey "alice".toList) ⟨fun _ => none, fun _ => .error []⟩ []
                  ["alice".toList, "certA".toList]).2.state scenario, attrs⟩
                "getCurrencyAssetInfo".toList [id]).1
                = .ok (some (jsonMarshalAsset wholeCodec a).1)
            ∧ jsonUnmarshalAsset wholeCodec (jsonMarshalAsset wholeCodec a).1 = some a1
            ∧ a1.CurrId = id :=
  cataloged_ids_resolve wholeCodec (refuseKey "alice".toList)
    ⟨fun _ => none, fun _ => .error []⟩ [] ["alice".toList, "certA".toList] scenario
    wholeCodec_readsBack (by decide) (by decide)

set_option maxRecDepth 100000 in
/-- The invocations of `scenario` on the seeded ledger: their outcomes, the
catalog they leave, the record of `C2` that the create failing between its
two writes left, and the absence of `C5`, whose write was refused. -/
theorem scenario_outcomes :
    outcomesOn wholeCodec seededLedger scenario
      = [.ok none, .error "Unable to put the state".toList, .error "Error saving changes".toList,
          .ok none, .ok none,
          .error "Permission Denied. create_CurrencyAsset. user === regulator".toList,
          .ok none, .ok (some "\x7b\"identity\":\"bob\",\"balance\":5\x7d".toList)]
    ∧ (runAllOn wholeCodec seededLedger scenario "currHolder".toList).bind jsonUnmarshalHolder
        = some ⟨["C1".toList, "C3".toList, "C4".toList, "C2".toList]⟩
    ∧ runAllOn wholeCodec seededLedger (scenario.take 2) "currHolder".toList
        = some "\x7b\"ids\":[\"C1\"]\x7d".toList
    ∧ runAllOn wholeCodec seededLedger (scenario.take 2) "C2".toList
        = some "\x7b\"currid\":\"C2\",\"name\":\"Tin\",\"ctype\":2,\"owner\":\"eve\",\"balances\":null\x7d".toList
    ∧ runAllOn wholeCodec seededLedger scenario "C5".toList = none
    ∧ runAllOn wholeCodec seededLedger scenario "C4".toList
        = some "\x7b\"currid\":\"C4\",\"name\":\"Iron\",\"ctype\":4,\"owner\":\"bob\",\"balances\":\x7b\"bob\":5\x7d\x7d".toList
    ∧ seededLedger "alice".toList = none := by
  decide

set_option maxRecDepth 100000 in
/-- C6 as stated fails, in three ways. On a freshly bootstrapped ledger a
regulator's create with id `A` whose name argument carries a second `currid`
member succeeds; the asset record is written under `B`, the catalog lists
`A`, no entry exists under `A`, and `getCurrencyAssetInfo` on the cataloged
id `A` fails. A bootstrap whose credential pair is named `currHolder` leaves
a catalog that lists `ghost`, for which no entry exists. And after a
bootstrap whose write of the catalog record was refused (the bootstrap does
not test that write), a regulator's create with the plain id `currHolder`
succeeds and leaves a catalog that lists `currHolder`, under which the
catalog record itself is stored: `getCurrencyAssetInfo` on it returns an
asset with the empty id. -/
theorem cataloged_ids_counterexample :
    (Invoke wholeCodec ⟨emptyLedger, attrsOf "bob".toList AUTHORITY⟩ "createCurrencyAsset".toList
        ["A".toList, "G\", \"currid\":\"B".toList, "1".toList, "alice".toList]).1 = .ok none
    ∧ ((Invoke wholeCodec ⟨emptyLedger, attrsOf "bob".toList AUTHORITY⟩ "createCurrencyAsset".toList
        ["A".toList, "G\", \"currid\":\"B".toList, "1".toList, "alice".toList]).2.state
          "currHolder".toList).bind jsonUnmarshalHolder = some ⟨["A".toList]⟩
    ∧ (Invoke wholeCodec ⟨emptyLedger, attrsOf "bob".toList AUTHORITY⟩ "createCurrencyAsset".toList
        ["A".toList, "G\", \"currid\":\"B".toList, "1".toList, "alice".toList]).2.state
          "A".toList = none
    ∧ (Query wholeCodec ⟨(Invoke wholeCodec ⟨emptyLedger, attrsOf "bob".toList AUTHORITY⟩
        "createCurrencyAsset".toList
        ["A".toList, "G\", \"currid\":\"B".toList, "1".toList, "alice".toList]).2.state,
        attrsOf "bob".toList AUTHORITY⟩ "getCurrencyAssetInfo".toList ["A".toList]).1
        = .error ("QUERY: Error retrieving currencyAsset ".toList
            ++ "RETRIEVE_CURR_ASSET: Corrupt CurrencyAsset record".toList)
    ∧ ((Init ⟨fun _ => none, fun _ => .error []⟩ []
        ["currHolder".toList, "\x7b\"ids\":[\"ghost\"]\x7d".toList]).2.state
          "currHolder".toList).bind jsonUnmarshalHolder = some ⟨["ghost".toList]⟩
    ∧ (Init ⟨fun _ => none, fun _ => .error []⟩ []
        ["currHolder".toList, "\x7b\"ids\":[\"ghost\"]\x7d".toList]).2.state "ghost".toList = none
    ∧ (Query wholeCodec ⟨(Init ⟨fun _ => none, fun _ => .error []⟩ []
        ["currHolder".toList, "\x7b\"ids\":[\"ghost\"]\x7d".toList]).2.state,
        attrsOf "bob".toList AUTHORITY⟩ "getCurrencyAssetInfo".toList ["ghost".toList]).1
        = .error ("QUERY: Error retrieving currencyAsset ".toList
            ++ "RETRIEVE_CURR_ASSET: Corrupt CurrencyAsset record".toList)
    ∧ (InitOn (refuseKey "currHolder".toList) ⟨fun _ => none, fun _ => .error []⟩ [] []).1
        = .ok none
    ∧ (InitOn (refuseKey "currHolder".toList) ⟨fun _ => none, fun _ => .error []⟩ [] []).2.state
        "currHolder".toList = none
    ∧ (InvokeOn wholeCodec acceptAll
        ⟨(InitOn (refuseKey "currHolder".toList) ⟨fun _ => none, fun _ => .error []⟩ [] []).2.state,
          attrsOf "bob".toList AUTHORITY⟩ "createCurrencyAsset".toList
        ["currHolder".toList, "Gold".toList, "1".toList, "alice".toList]).1 = .ok none
    ∧ (InvokeOn wholeCodec acceptAll
        ⟨(InitOn (refuseKey "currHolder".toList) ⟨fun _ => none, fun _ => .error []⟩ [] []).2.state,
          attrsOf "bob".toList AUTHORITY⟩ "createCurrencyAsset".toList
        ["currHolder".toList, "Gold".toList, "1".toList, "alice".toList]).2.state
          "currHolder".toList = some "\x7b\"ids\":[\"currHolder\"]\x7d".toList
    ∧ (Query wholeCodec ⟨(InvokeOn wholeCodec acceptAll
        ⟨(InitOn (refuseKey "currHolder".toList) ⟨fun _ => none, fun _ => .error []⟩ [] []).2.state,
          attrsOf "bob".toList AUTHORITY⟩ "createCurrencyAsset".toList
        ["currHolder".toList, "Gold".toList, "1".toList, "alice".toList]).2.state,
        attrsOf "bob".toList AUTHORITY⟩ "getCurrencyAssetInfo".toList ["currHolder".toList]).1
        = .ok (some "\x7b\"currid\":\"\",\"name\":\"\",\"ctype\":0,\"owner\":\"\",\"balances\":null\x7d".toList) := by
  decide

/-! ## Creates with the empty id -/

/-- C14 (as amended). The empty id is rejected by the store, not by the
program. On a store that refuses every write under the empty key, a
`createCurrencyAsset` with the empty id, by any caller, fails and leaves the
ledger as it was, regulator included, unless its arguments send the record to
another key. The demand on name, kind and owner is that, if the text built
from the arguments decodes to a non-empty `currid`, the create under that
`currid` is refused as well: the caller is no regulator, or the key is
taken, or the store refuses that write. Arguments whose text decodes to the
empty `currid`, or does not decode, meet the demand. -/
theorem empty_id_refused_by_store {F : Type} (fc : FloatCodec F) (host : Host) (stub : Stub)
    (name kind owner : Bytes)
    (hrefuse : ∀ value, host [] value ≠ none)
    (hinj : ∀ a, jsonUnmarshalAsset fc (createText [] name kind owner) = some a →
      a.CurrId ≠ [] →
      stub.attrs "role".toList ≠ .ok AUTHORITY ∨ stub.state a.CurrId ≠ none
        ∨ host a.CurrId (jsonMarshalAsset fc a).1 ≠ none) :
    ∃ msg, InvokeOn fc host stub "createCurrencyAsset".toList [[], name, kind, owner]
      = (.error msg, stub) := by
  cases hr : stub.attrs "role".toList with
  | error e =>
    refine ⟨"Error retrieving caller information".toList, ?_⟩
    unfold InvokeOn
    rw [getcallerdata_error stub e hr]
  | ok r =>
    rw [InvokeOn_create fc host stub r [] name kind owner [] hr, createcurrencyAssetOn_eq]
    cases hdec : jsonUnmarshalAsset fc (createText [] name kind owner) with
    | none => exact ⟨_, rfl⟩
    | some a =>
      by_cases h1 : stub.state a.CurrId = none
      · by_cases h2 : r = AUTHORITY
        · simp only [h1, h2, ne_eq, not_true_eq_false, if_false]
          cases hh : host a.CurrId (jsonMarshalAsset fc a).1 with
          | some e => exact ⟨_, rfl⟩
          | none =>
            exfalso
            by_cases ha : a.CurrId = []
            · rw [ha] at hh
              exact hrefuse _ hh
            · rcases hinj a hdec ha with h | h | h
              · exact h (by rw [hr, h2])
              · exact h h1
              · exact h hh
        · simp only [h1, h2, ne_eq, not_true_eq_false, not_false_eq_true, if_false, if_true]
          exact ⟨_, rfl⟩
      · simp only [h1, ne_eq, not_false_eq_true, if_true]
        exact ⟨_, rfl⟩

/-- C14 at a concrete input: a regulator's create with the empty id and plain
arguments, on a fresh ledger whose store refuses the empty key. -/
theorem empty_id_refused_by_store_witness :
    ∃ msg, InvokeOn wholeCodec (refuseKey []) regulatorStub "createCurrencyAsset".toList
        [[], "Gold".toList, "1".toList, "alice".toList]
      = (.error msg, regulatorStub) :=
  empty_id_refused_by_store wholeCodec (refuseKey []) regulatorStub "Gold".toList "1".toList
    "alice".toList (fun _ h => Option.noConfusion h)
    (fun a h hne => by
      have e := unmarshal_createText wholeCodec [] "Gold".toList "alice".toList 1
        (by decide) (by decide) (by decide) (by decide) (by decide)
      rw [show createText [] "Gold".toList "1".toList "alice".toList
        = createText [] "Gold".toList (formatInt 1) "alice".toList from rfl, e] at h
      obtain rfl := Option.some.inj h
      exact absurd rfl hne)

/-- The demand of the amended C14 is no more than is needed: a regulator's
create with the empty id whose text decodes to an asset with a `currid` that
is free and that the store accepts writes a record under that `currid`. -/
theorem empty_id_redirected {F : Type} (fc : FloatCodec F) (host : Host) (stub : Stub)
    (name kind owner : Bytes) (a : CurrencyAsset F)
    (hr : stub.attrs "role".toList = .ok AUTHORITY)
    (hdec : jsonUnmarshalAsset fc (createText [] name kind owner) = some a)
    (habs : stub.state a.CurrId = none)
    (hacc : host a.CurrId (jsonMarshalAsset fc a).1 = none) :
    (InvokeOn fc host stub "createCurrencyAsset".toList [[], name, kind, owner]).2.state a.CurrId
      ≠ none := by
  rw [InvokeOn_create fc host stub AUTHORITY [] name kind owner [] hr, createcurrencyAssetOn_eq,
    hdec]
  simp only [habs, hacc, ne_eq, not_true_eq_false, if_false]
  generalize jsonUnmarshalHolder _ = r2
  cases r2 with
  | none =>
    simp only [storePut_same]
    exact Option.noConfusion
  | some h =>
    simp only []
    generalize host "currHolder".toList _ = r3
    cases r3 with
    | some e =>
      simp only [storePut_same]
      exact Option.noConfusion
    | none =>
      simp only [storePut]
      split_ifs <;> exact not_false

set_option maxRecDepth 100000 in
/-- C14 as stated fails, whatever the store does with the empty key: on a
fresh ledger, a regulator's create with the empty id whose name argument
carries a second `currid` member succeeds; it writes an asset record under
`B` and lists the empty id in the catalog. This is so on a store that
refuses the empty key and on a store that accepts every write. -/
theorem empty_id_counterexample :
    (InvokeOn wholeCodec (refuseKey []) regulatorStub "createCurrencyAsset".toList
        [[], "G\", \"currid\":\"B".toList, "1".toList, "alice".toList]).1 = .ok none
    ∧ emptyLedger "B".toList = none
    ∧ (InvokeOn wholeCodec (refuseKey []) regulatorStub "createCurrencyAsset".toList
        [[], "G\", \"currid\":\"B".toList, "1".toList, "alice".toList]).2.state "B".toList
        = some "\x7b\"currid\":\"B\",\"name\":\"G\",\"ctype\":1,\"owner\":\"alice\",\"balances\":null\x7d".toList
    ∧ (InvokeOn wholeCodec (refuseKey []) regulatorStub "createCurrencyAsset".toList
        [[], "G\", \"currid\":\"B".toList, "1".toList, "alice".toList]).2.state "currHolder".toList
        = some "\x7b\"ids\":[\"\"]\x7d".toList
    ∧ (Invoke wholeCodec regulatorStub "createCurrencyAsset".toList
        [[], "G\", \"currid\":\"B".toList, "1".toList, "alice".toList]).1 = .ok none
    ∧ (Invoke wholeCodec regulatorStub "createCurrencyAsset".toList
        [[], "G\", \"currid\":\"B".toList, "1".toList, "alice".toList]).2.state "B".toList
        = some "\x7b\"currid\":\"B\",\"name\":\"G\",\"ctype\":1,\"owner\":\"alice\",\"balances\":null\x7d".toList
    ∧ (Invoke wholeCodec regulatorStub "createCurrencyAsset".toList
        [[], "G\", \"currid\":\"B".toList, "1".toList, "alice".toList]).2.state "currHolder".toList
        = some "\x7b\"ids\":[\"\"]\x7d".toList := by
  decide

set_option maxRecDepth 100000 in
/-- The two ends of the amended C14 at a regulator's create with the empty id
and plain arguments on a fresh ledger: a store that refuses the empty key
makes it fail at the write of the asset record, and a store that accepts
every write lets it succeed, with the asset record under the empty key and
the empty id in the catalog. The program itself makes no test of the id. -/
theorem empty_id_depends_on_store :
    InvokeOn wholeCodec (refuseKey []) regulatorStub "createCurrencyAsset".toList
        [[], "Gold".toList, "1".toList, "alice".toList]
      = (.error "Error saving changes".toList, regulatorStub)
    ∧ (InvokeOn wholeCodec acceptAll regulatorStub "createCurrencyAsset".toList
        [[], "Gold".toList, "1".toList, "alice".toList]).1 = .ok none
    ∧ (InvokeOn wholeCodec acceptAll regulatorStub "createCurrencyAsset".toList
        [[], "Gold".toList, "1".toList, "alice".toList]).2.state []
        = some "\x7b\"currid\":\"\",\"name\":\"Gold\",\"ctype\":1,\"owner\":\"alice\",\"balances\":null\x7d".toList
    ∧ (InvokeOn wholeCodec acceptAll regulatorStub "createCurrencyAsset".toList
        [[], "Gold".toList, "1".toList, "alice".toList]).2.state "currHolder".toList
        = some "\x7b\"ids\":[\"\"]\x7d".toList := by
  refine ⟨rfl, ?_, ?_, ?_⟩ <;> decide

end Wallet
